import Mathlib

/-!
# OpenDeploy `opd-go` supervisor: a shallow embedding

The Go program under `go/cmd/opd-go` and `packages/cli/go/cmd/opd-go` reads one
JSON request, runs it and writes newline-delimited JSON events.  This file
embeds the event model, the process launcher (`shellCommand`, the environment
layering), the line reader (`read`), the primary task of `runStream` and the
tasks it spawns, the sequential handlers, the decoding of the request and `main`,
and states the properties of the specification over them.

Conventions.
* Go strings are Lean strings; a byte stream read from a pipe is a `List Char`.
  Standard input, which the JSON decoder reads byte by byte, is a `List Nat` of
  byte values.
* A pointer field of an event (`*bool`, `*int`) is an `Option`.
* Everything the code obtains from outside (platform, process environment,
  outcome of `cmd.Start`, scheduling of the goroutines, the clock) is an explicit
  argument.
* Time is an integer count of nanoseconds, as in Go (`time.Duration` is `int64`).
-/

namespace OpenDeploy

/-! ## Data model -/

/-- The request decoded from standard input (`runRequest`). `Env` is a Go map:
`none` is the nil map, `some l` lists the entries in the order the `range` loop
visits them. -/
structure runRequest where
  Action : String := ""
  Cmd : String := ""
  Cwd : String := ""
  TimeoutSec : Int := 0
  IdleTimeoutSec : Int := 0
  Env : Option (List (String × String)) := none
  Src : String := ""
  Dest : String := ""
  Algo : String := ""
  TarGz : Bool := false
  Prefix : String := ""
  Pty : Bool := false
  Cols : Int := 0
  Rows : Int := 0
  Site : String := ""
  Prod : Bool := false
deriving DecidableEq, Repr

/-- One event of the output protocol (`ndjsonEvent`). `Extra` is the open
mapping of action-specific payloads, here a list of key/value pairs. -/
structure ndjsonEvent where
  Action : String
  Event : String
  Data : String := ""
  OK : Option Bool := none
  Exit : Option Int := none
  Final : Option Bool := none
  Error : String := ""
  Extra : List (String × String) := []
  Reason : String := ""
deriving DecidableEq, Repr

/-- `intPtr`: a pointer to a fresh copy of the integer. -/
def intPtr (i : Int) : Option Int := some i

/-- `boolPtr`: a pointer to a fresh copy of the boolean. -/
def boolPtr (b : Bool) : Option Bool := some b

/-- An event is terminal when its `final` field is present and true. -/
def ndjsonEvent.isFinal (ev : ndjsonEvent) : Bool := ev.Final == some true

/-! ## Process launcher -/

/-- The part of `exec.Cmd` the supervisor sets: program, argument vector,
working directory, environment (`none` = inherit) and the process-group flag. -/
structure Cmd where
  Path : String
  Args : List String
  Dir : String := ""
  Env : Option (List String) := none
  Setpgid : Bool := false
deriving DecidableEq, Repr

/-- `exec.Command(name, arg...)`: the argument vector starts with the name. -/
def execCommand (name : String) (args : List String) : Cmd :=
  { Path := name, Args := name :: args }

/-- `shellCommand` (identical in both copies of `main.go`); `goos` is
`runtime.GOOS`. -/
def shellCommand (goos : String) (cmdline : String) : Cmd :=
  if cmdline = "" then
    execCommand "sh" ["-c", ":"]
  else if goos = "windows" then
    execCommand "cmd.exe" ["/d", "/s", "/c", cmdline]
  else
    execCommand "/bin/sh" ["-c", cmdline]

/-- `fmt.Sprintf("%s=%s", k, v)`. -/
def envEntry (k v : String) : String := k ++ "=" ++ v

/-- The loop `for k, v := range req.Env` of `runStream`: entries with an empty
key are skipped, every other one is appended as `k=v`. -/
def appendOverrides (env : List String) (overrides : List (String × String)) : List String :=
  overrides.foldl (fun acc kv => if kv.1 = "" then acc else acc ++ [envEntry kv.1 kv.2]) env

/-- The value `runStream` leaves in `cmd.Env`: untouched (nil) when the request
has no `env`, else `os.Environ()` with the overrides appended. -/
def childEnv (environ : List String) (reqEnv : Option (List (String × String))) :
    Option (List String) :=
  match reqEnv with
  | none => none
  | some overrides => some (appendOverrides environ overrides)

/-- `setProcessGroup` (`proc_unix.go` sets `Setpgid`; `proc_windows.go` is a
no-op). -/
def setProcessGroup (goos : String) (cmd : Cmd) : Cmd :=
  if goos = "windows" then cmd else { cmd with Setpgid := true }

/-- The command `runStream` has built when it calls `cmd.Start()`. -/
def buildCmd (goos : String) (environ : List String) (req : runRequest) : Cmd :=
  let cmd := shellCommand goos req.Cmd
  let cmd := if req.Cwd ≠ "" then { cmd with Dir := req.Cwd } else cmd
  let cmd := { cmd with Env := childEnv environ req.Env }
  setProcessGroup goos cmd

/-- Split an environment entry at its first `=` into key and value; an entry
without `=` names no variable. -/
def splitEntry (kv : String) : Option (String × String) :=
  if '=' ∈ kv.data then
    some (String.mk (kv.data.takeWhile (fun c => c != '=')),
          String.mk ((kv.data.dropWhile (fun c => c != '=')).drop 1))
  else none

/-- The value a variable has in an environment list: that of the last entry for
the key (`os/exec` keeps the last of duplicate keys). -/
def lookupEnv (env : List String) (key : String) : Option String :=
  env.foldl (fun cur kv =>
    match splitEntry kv with
    | some (k, v) => if k = key then some v else cur
    | none => cur) none

/-! ## Line reader -/

/-- `strings.TrimRight(s, cutset)`: drop the trailing characters that occur in
the cutset. -/
def TrimRight (s : List Char) (cutset : List Char) : List Char :=
  s.rdropWhile (fun c => decide (c ∈ cutset))

/-- `dropCR` of `bufio`: drop one terminal carriage return. -/
def dropCR (data : List Char) : List Char :=
  if data.getLast? = some '\r' then data.dropLast else data

/-- Number of bytes of the UTF-8 encoding of a text. -/
def byteLen (cs : List Char) : Nat := (cs.map Char.utf8Size).sum

/-- The tokens a `bufio.Scanner` with the `ScanLines` split function yields on a
stream, with maximum token size `maxTok`: `cur` is the part of the current line
already seen. A line is ended by a newline; the last line is also returned when
it is non-empty and unterminated; a line of `maxTok` bytes or more fills the
buffer before its end is seen, which makes `Scan` fail (`ErrTooLong`) and ends
the scan. -/
def scanLines (maxTok : Nat) : List Char → List Char → List (List Char)
  | cur, [] =>
      if cur = [] then [] else if maxTok ≤ byteLen cur then [] else [dropCR cur]
  | cur, c :: rest =>
      if c = '\n' then
        if maxTok ≤ byteLen cur then [] else dropCR cur :: scanLines maxTok [] rest
      else scanLines maxTok (cur ++ [c]) rest

/-- The maximum token size `read` gives its scanner (`s.Buffer(..., 1_000_000)`). -/
def maxTokenSize : Nat := 1000000

/-- The event `read` emits for a scanned token, if any: the token with trailing
`\r` and `\n` trimmed, unless that is empty. -/
def lineEvent (kind : String) (tok : List Char) : Option ndjsonEvent :=
  let line := TrimRight tok ['\r', '\n']
  if line ≠ [] then some { Action := "go", Event := kind, Data := String.mk line } else none

/-- The events the closure `read` of `runStream` emits for the stream `data`
of one pipe, in order. -/
def read (kind : String) (data : List Char) : List ndjsonEvent :=
  (scanLines maxTokenSize [] data).filterMap (lineEvent kind)

/-! ## Child termination and `cmd.Wait` -/

/-- How a started child ended (`os.ProcessState`): a normal exit with a status,
or death by a signal. -/
inductive ProcessState
  | exited (status : Nat)
  | signaled (sig : Nat)
deriving DecidableEq, Repr

/-- `ProcessState.ExitCode()`: the exit status, or `-1` when the process was
terminated by a signal. -/
def ProcessState.ExitCode : ProcessState → Int
  | .exited n => (n : Int)
  | .signaled _ => -1

/-- `ProcessState.Success()`: exited with status zero. -/
def ProcessState.Success : ProcessState → Bool
  | .exited n => n == 0
  | .signaled _ => false

/-- The non-nil errors `cmd.Wait()` returns: an `*exec.ExitError` (whose
`ProcessState` may be nil) or any other error. -/
inductive WaitError
  | exitError (state : Option ProcessState)
  | other (msg : String)
deriving DecidableEq, Repr

/-- `cmd.Wait()` on a child that terminated: nil when it succeeded, else an
`*exec.ExitError` carrying the process state. -/
def cmdWait (ps : ProcessState) : Option WaitError :=
  if ps.Success then none else some (.exitError (some ps))

/-! ## The primary task of `runStream` -/

/-- The case the `select` of `runStream` takes. -/
inductive Selected
  | ctxDone
  | doneCh (err : Option WaitError)
deriving DecidableEq, Repr

/-- The effects of the primary task, one per statement that acts on the
outside or on shared state. `kill true` is `killProcessTree(cmd)`, `kill false`
is `cmd.Process.Kill()`; `goRead false` starts the stdout reader, `goRead true`
the stderr reader. -/
inductive Effect
  | writeEvent (ev : ndjsonEvent)
  | kill (tree : Bool)
  | setLastActivity
  | goHeartbeat
  | goWatchdog
  | goWait
  | goRead (stderr : Bool)
deriving DecidableEq, Repr

/-- `ctx.Err().Error()` after the deadline of `context.WithTimeout` passed. -/
def deadlineExceeded : String := "context deadline exceeded"

/-- The variables `ok`, `exitCode` and `reason` of `runStream`, with their
initial values. -/
structure Outcome where
  ok : Bool := true
  exitCode : Int := 0
  reason : String := ""
deriving DecidableEq, Repr

/-- The assignments the cases of the `select` make (lines 166-184 of
`packages/cli/go/cmd/opd-go/main.go`): the deadline case sets failure, 124 and
`timeout`; the completion case leaves the initial values when `err` is nil, and
else sets failure with the exit code of the process state when `err` is an
`*exec.ExitError` that has one, and with 1 otherwise. -/
def outcomeOf : Selected → Outcome
  | .ctxDone => { ok := false, exitCode := 124, reason := "timeout" }
  | .doneCh none => {}
  | .doneCh (some (.exitError (some ps))) => { ok := false, exitCode := ps.ExitCode }
  | .doneCh (some _) => { ok := false, exitCode := 1 }

/-- The terminal event of line 185. -/
def doneEvent (o : Outcome) : ndjsonEvent :=
  { Action := "go", Event := "done", OK := some o.ok, Exit := some o.exitCode,
    Final := boolPtr true, Reason := o.reason }

/-- The `error` event of the deadline case (line 173). -/
def timeoutErrorEvent : ndjsonEvent :=
  { Action := "go", Event := "error", Error := deadlineExceeded, Reason := "timeout" }

/-- Lines 163-185 of `packages/cli/go/cmd/opd-go/main.go`: what the primary task
does in the case the `select` takes, and the terminal event after it. -/
def finish (sel : Selected) : List Effect :=
  (match sel with
    | .ctxDone => [.kill true, .writeEvent timeoutErrorEvent]
    | .doneCh _ => [])
  ++ [.writeEvent (doneEvent (outcomeOf sel))]

/-- What one run of the supervisor finds outside itself. -/
structure World where
  goos : String := "linux"
  environ : List String := []
  startErr : Option String := none
  stdoutData : List Char := []
  stderrData : List Char := []
  timeFormat : Int → String := fun _ => ""

/-- The primary task as a script: the command it starts, the effects it
performs in order before it either returns or enters the `select`, whether it
enters the `select`, what it does after the `select`, the value it returns, and
which terminator the watchdog it spawns uses. -/
structure Program where
  cmd : Cmd
  steps : List Effect
  selects : Bool
  finish : Selected → List Effect
  ret : Int
  treeKill : Bool

/-- The tasks `runStream` spawns after a successful start, up to the `select`
(lines 113-161; the same in both copies). -/
def spawnSteps (req : runRequest) : List Effect :=
  [.setLastActivity, .goHeartbeat] ++ (if req.IdleTimeoutSec > 0 then [.goWatchdog] else [])
    ++ [.goWait, .goRead false, .goRead true]

/-- `runStream` of `packages/cli/go/cmd/opd-go/main.go`. -/
def runStream (w : World) (req : runRequest) : Program :=
  let cmd := buildCmd w.goos w.environ req
  match w.startErr with
  | some err =>
      { cmd := cmd
        steps :=
          [ .writeEvent { Action := "go", Event := "error", Error := err,
                          Reason := "start-failed" },
            .writeEvent { Action := "go", Event := "done", OK := some false, Exit := intPtr 1,
                          Final := boolPtr true, Reason := "start-failed" } ]
        selects := false
        finish := finish
        ret := 1
        treeKill := true }
  | none =>
      { cmd := cmd, steps := spawnSteps req, selects := true, finish := finish, ret := 0,
        treeKill := true }

/-- `runStreamPTY` of `pty_stub.go`: the fallback without a pseudo-terminal (the
implementation behind the build tag, `pty_run.go`, is not among the sources). -/
def runStreamPTY (w : World) (req : runRequest) : Program := runStream w req

namespace Legacy

/-- Lines 134-154 of `go/cmd/opd-go/main.go`: as `finish`, but the events have
no `reason` field and the child alone is killed. -/
def finish (sel : Selected) : List Effect :=
  (match sel with
    | .ctxDone =>
        [.kill false,
         .writeEvent { Action := "go", Event := "error", Error := deadlineExceeded }]
    | .doneCh _ => [])
  ++ [.writeEvent { Action := "go", Event := "done", OK := some (outcomeOf sel).ok,
                    Exit := some (outcomeOf sel).exitCode, Final := boolPtr true }]

/-- The command of the copy under `go/cmd/opd-go`, which has no
`setProcessGroup`. -/
def buildCmd (goos : String) (environ : List String) (req : runRequest) : Cmd :=
  let cmd := shellCommand goos req.Cmd
  let cmd := if req.Cwd ≠ "" then { cmd with Dir := req.Cwd } else cmd
  { cmd with Env := childEnv environ req.Env }

/-- `runStream` of `go/cmd/opd-go/main.go`. -/
def runStream (w : World) (req : runRequest) : Program :=
  let cmd := buildCmd w.goos w.environ req
  match w.startErr with
  | some err =>
      { cmd := cmd
        steps :=
          [ .writeEvent { Action := "go", Event := "error", Error := err },
            .writeEvent { Action := "go", Event := "done", OK := some false, Exit := intPtr 1,
                          Final := boolPtr true } ]
        selects := false
        finish := finish
        ret := 1
        treeKill := false }
  | none =>
      { cmd := cmd, steps := spawnSteps req, selects := true, finish := finish, ret := 0,
        treeKill := false }

end Legacy

/-! ## The sequential handlers: archives, checksum, deploy -/

/-- An `error` event with a message. -/
def errorEvent (msg : String) : ndjsonEvent :=
  { Action := "go", Event := "error", Error := msg }

/-- A `status` event with a text. -/
def statusEvent (data : String) : ndjsonEvent :=
  { Action := "go", Event := "status", Data := data }

/-- The terminal event of a failure with exit code 1 and a reason code. -/
def failedEvent (reason : String) : ndjsonEvent :=
  { Action := "go", Event := "done", OK := some false, Exit := intPtr 1, Final := boolPtr true,
    Reason := reason }

/-- What the file system does during `zipDir` or `tarDir`: the error of
`os.Create(dest)` and the error of the walk over `src`, if any. -/
structure ArchiveWorld where
  createErr : Option String := none
  walkErr : Option String := none
deriving DecidableEq, Repr

/-- The common shape of `zipDir` and `tarDir`, which differ in the action name
and the status text only as far as events go. -/
def archiveDir (name status : String) (fs : ArchiveWorld) (src dest : String) :
    List ndjsonEvent × Bool :=
  if src = "" ∨ dest = "" then
    ([errorEvent (name ++ ": src and dest required"), failedEvent "invalid-args"], false)
  else
    match fs.createErr with
    | some err => ([statusEvent status, errorEvent err, failedEvent ""], false)
    | none =>
        let ok := fs.walkErr.isNone
        ([statusEvent status]
          ++ (match fs.walkErr with
              | some err => [errorEvent err]
              | none => [])
          ++ [{ Action := "go", Event := "done", OK := some ok,
                Exit := intPtr (if ok then 0 else 1), Final := boolPtr true,
                Extra := [("dest", dest)] }], ok)

/-- `zipDir`: the events written and the value returned. -/
def zipDir (fs : ArchiveWorld) (src dest _prefix : String) : List ndjsonEvent × Bool :=
  archiveDir "zip-dir" "zipping" fs src dest

/-- `tarDir`: the events written and the value returned. -/
def tarDir (fs : ArchiveWorld) (src dest _prefix : String) (_gz : Bool) :
    List ndjsonEvent × Bool :=
  archiveDir "tar-dir" "tarring" fs src dest

/-- What `checksumFile` meets: the errors of `os.Open` and of `io.Copy`, and the
hexadecimal digest of the file. -/
structure ChecksumWorld where
  openErr : Option String := none
  copyErr : Option String := none
  digest : String := ""
deriving DecidableEq, Repr

/-- `checksumFile`: the events written and the value returned. -/
def checksumFile (fs : ChecksumWorld) (path algo : String) : List ndjsonEvent × Bool :=
  if path = "" then
    ([errorEvent "checksum-file: src required", failedEvent "invalid-args"], false)
  else
    let algo := if algo = "" then "sha256" else algo
    if algo.toLower ≠ "sha256" then ([errorEvent "unsupported algo", failedEvent ""], false)
    else
      match fs.openErr with
      | some err => ([errorEvent err, failedEvent ""], false)
      | none =>
          match fs.copyErr with
          | some err => ([errorEvent err, failedEvent ""], false)
          | none =>
              ([statusEvent "checksum",
                { Action := "go", Event := "done", OK := some true, Exit := intPtr 0,
                  Final := boolPtr true, Extra := [("algo", "sha256"), ("digest", fs.digest)] }],
               true)

/-- `unicode.IsSpace`. -/
def isSpace (c : Char) : Bool :=
  c.val.toNat ∈ [0x09, 0x0A, 0x0B, 0x0C, 0x0D, 0x20, 0x85, 0xA0, 0x1680, 0x2028, 0x2029,
    0x202F, 0x205F, 0x3000] || (0x2000 ≤ c.val.toNat && c.val.toNat ≤ 0x200A)

/-- `strings.TrimSpace`. -/
def TrimSpace (s : String) : String :=
  String.mk ((s.data.dropWhile isSpace).rdropWhile isSpace)

/-- `firstNonEmpty`: the first value that is not blank, else the empty string. -/
def firstNonEmpty : List String → String
  | [] => ""
  | v :: vals => if TrimSpace v ≠ "" then v else firstNonEmpty vals

/-- The decoded answer to the create call (`nlCreateResp`). -/
structure nlCreateResp where
  ID : String := ""
  Required : List String := []
  DeployURL : String := ""
  DeploySSL : String := ""
  SSLURL : String := ""
  URL : String := ""
deriving DecidableEq, Repr

/-- The decoded answer to a status poll (`nlGetResp`). -/
structure nlGetResp where
  ID : String := ""
  State : String := ""
  DeployURL : String := ""
  DeploySSL : String := ""
  SSLURL : String := ""
  URL : String := ""
deriving DecidableEq, Repr

/-- The outcome of the create call: `http.NewRequest` returns an error for the
create URL, which holds the site as given (the error is discarded, line 297, and
the nil request is dereferenced on line 298), or a transport error, or a status
code with the body text and the decoded body. -/
inductive CreateResult
  | noRequest
  | failed (err : String)
  | response (status : Nat) (body : String) (created : nlCreateResp)
deriving DecidableEq, Repr

/-- The outcome of uploading one required file: the file cannot be opened,
`http.NewRequest` returns an error for the upload URL, which holds the deploy id
as the server gave it (lines 323-324), the request fails, or the server answers
with a status code. -/
inductive UploadResult
  | openErr (err : String)
  | noRequest
  | putErr (err : String)
  | response (status : Nat)
deriving DecidableEq, Repr

/-- The outcome of one round of the poll loop: `http.NewRequest` returns an
error for the poll URL, which holds the deploy id as the server gave it (lines
339-340), the request fails, or the server answers with a status code and `final`
as decoded from the body. -/
inductive PollResult
  | noRequest
  | failed
  | response (status : Nat) (final : nlGetResp)
deriving DecidableEq, Repr

/-- How a call of a handler ends: it returns a value, or the task panics (a nil
pointer is dereferenced) and the process dies. -/
inductive Ended
  | returned (ok : Bool)
  | panicked
deriving DecidableEq, Repr

/-- What `netlifyDeployDir` meets: the token in the process environment, the
error of the hashing walk, the answer to the create call, the outcome of each
upload, and the rounds of the poll loop that happen before its two-minute
deadline has passed. -/
structure NetlifyWorld where
  token : String := ""
  walkErr : Option String := none
  create : CreateResult := .failed ""
  upload : String → UploadResult := fun _ => .response 200
  polls : List PollResult := []

/-- Every `http.NewRequest` of `netlifyDeployDir` yields a request. -/
def NetlifyWorld.requestsMade (nw : NetlifyWorld) : Prop :=
  nw.create ≠ .noRequest ∧ (∀ f, nw.upload f ≠ .noRequest) ∧ PollResult.noRequest ∉ nw.polls

/-- The upload loop over `created.Required`: the events and the end of the first
upload that does not succeed, or none when every upload succeeded. -/
def uploadAll (nw : NetlifyWorld) : List String → Option (List ndjsonEvent × Ended)
  | [] => none
  | f :: rest =>
      match nw.upload f with
      | .openErr err => some ([errorEvent err, failedEvent ""], .returned false)
      | .noRequest => some ([], .panicked)
      | .putErr err => some ([errorEvent err, failedEvent ""], .returned false)
      | .response status =>
          if status / 100 ≠ 2 then
            some ([errorEvent ("upload failed for " ++ f), failedEvent ""], .returned false)
          else uploadAll nw rest

/-- The poll loop: `final` on a ready deploy, else the events and the end of the
round that leaves the function; when the rounds are used up the deadline has
passed. -/
def pollLoop : List PollResult → Except (List ndjsonEvent × Ended) nlGetResp
  | [] =>
      .error ([errorEvent "timeout",
               { Action := "go", Event := "done", OK := some false, Exit := intPtr 124,
                 Final := boolPtr true, Reason := "timeout" }], .returned false)
  | .noRequest :: _ => .error ([], .panicked)
  | .failed :: rest => pollLoop rest
  | .response status final :: rest =>
      if status / 100 ≠ 2 then pollLoop rest
      else if final.State = "ready" ∨ final.State = "current" then .ok final
      else if final.State = "error" then
        .error ([errorEvent "deploy error", failedEvent ""], .returned false)
      else pollLoop rest

/-- `netlifyDeployDir`: the events written, and the value returned or the panic. -/
def netlifyDeployDir (nw : NetlifyWorld) (req : runRequest) : List ndjsonEvent × Ended :=
  if req.Src = "" ∨ req.Site = "" then
    ([errorEvent "netlify-deploy-dir: src and site required", failedEvent "invalid-args"],
     .returned false)
  else if nw.token = "" then
    ([errorEvent "NETLIFY_AUTH_TOKEN not set", failedEvent "auth"], .returned false)
  else
    match nw.walkErr with
    | some err => ([statusEvent "hashing", errorEvent err, failedEvent ""], .returned false)
    | none =>
        let head := [statusEvent "hashing", statusEvent "creating"]
        match nw.create with
        | .noRequest => (head, .panicked)
        | .failed err => (head ++ [errorEvent err, failedEvent ""], .returned false)
        | .response status body created =>
            if status / 100 ≠ 2 then
              (head ++ [errorEvent ("create deploy failed: " ++ TrimSpace body), failedEvent ""],
               .returned false)
            else
              let head := head ++
                (if created.Required.length > 0 then
                  [statusEvent ("uploading " ++ toString created.Required.length)]
                 else [])
              match uploadAll nw created.Required with
              | some r => (head ++ r.1, r.2)
              | none =>
                  match pollLoop nw.polls with
                  | .error r => (head ++ [statusEvent "finalizing"] ++ r.1, r.2)
                  | .ok final =>
                      let url := firstNonEmpty [final.DeploySSL, final.SSLURL, final.URL,
                        created.DeploySSL, created.SSLURL, created.URL]
                      let logs := "https://app.netlify.com/sites/" ++ req.Site ++ "/deploys/"
                        ++ created.ID
                      (head ++ [statusEvent "finalizing",
                        { Action := "go", Event := "done", OK := some true, Exit := intPtr 0,
                          Final := boolPtr true,
                          Extra := [("url", url), ("logsUrl", logs), ("deployId", created.ID)] }],
                       .returned true)

/-- What the sequential handlers meet. -/
structure Collaborators where
  archive : ArchiveWorld := {}
  checksum : ChecksumWorld := {}
  netlify : NetlifyWorld := {}

/-- What `main` of `packages/cli/go/cmd/opd-go/main.go` does with a decoded
request: it hands it to the tasks of `runStream` and then exits with 0, or runs a
sequential handler and exits with 1 when that returns false, or dies in a panic of
the handler, or exits with 2 on an unknown action. -/
inductive Dispatch
  | stream (p : Program)
  | direct (events : List ndjsonEvent) (status : Int)
  | panicked (events : List ndjsonEvent)
  | unknown (status : Int)

/-- The exit status after a sequential handler. -/
def directResult (r : List ndjsonEvent × Bool) : Dispatch :=
  .direct r.1 (if r.2 then 0 else 1)

/-- The same after `netlifyDeployDir`, which may panic. -/
def endedResult (r : List ndjsonEvent × Ended) : Dispatch :=
  match r.2 with
  | .returned ok => directResult (r.1, ok)
  | .panicked => .panicked r.1

/-- The `switch req.Action` of `main`. -/
def dispatch (w : World) (c : Collaborators) (req : runRequest) : Dispatch :=
  if req.Action = "run-stream" ∨ req.Action = "run" then
    if req.Pty then .stream (runStreamPTY w req) else .stream (runStream w req)
  else if req.Action = "zip-dir" then directResult (zipDir c.archive req.Src req.Dest req.Prefix)
  else if req.Action = "tar-dir" then
    directResult (tarDir c.archive req.Src req.Dest req.Prefix req.TarGz)
  else if req.Action = "checksum-file" then directResult (checksumFile c.checksum req.Src req.Algo)
  else if req.Action = "netlify-deploy-dir" then endedResult (netlifyDeployDir c.netlify req)
  else .unknown 2

/-! ## Durations -/

/-- Two's-complement wrap-around of a mathematical integer into `int64`. -/
def wrapInt64 (x : Int) : Int := (x + 2 ^ 63) % 2 ^ 64 - 2 ^ 63

/-- `time.Second` in nanoseconds. -/
def second : Int := 1000000000

/-- `time.Duration(n) * time.Second`, an `int64` product. -/
def seconds (n : Int) : Int := wrapInt64 (n * second)

/-! ## The tasks of one request, interleaved

The primary task, the heartbeat task, the idle watchdog, the wait task and the
two readers run concurrently.  A run is a sequence of scheduler decisions
(`Label`); `step` performs the one atomic action the decision names, or is
undefined when that action cannot happen in the state.  A write of an event is
one atomic action. -/

/-- The task that performs an observable action. -/
inductive Actor
  | primary
  | heartbeat
  | watchdog
  | stdoutReader
  | stderrReader
deriving DecidableEq, Repr

/-- An observable action: an event written to the output stream, or a call of
the terminator (`true`: `killProcessTree`, `false`: `Process.Kill`). -/
inductive Act
  | wrote (ev : ndjsonEvent)
  | killed (tree : Bool)
deriving DecidableEq, Repr

/-- One entry of the run's history: who did what, and when. -/
structure Obs where
  actor : Actor
  time : Int
  act : Act
deriving DecidableEq, Repr

/-- Where the primary task stands: performing the effects before the `select`,
blocked in the `select`, performing the effects after it, or returned. -/
inductive Primary
  | running (todo : List Effect)
  | parked
  | finishing (todo : List Effect)
  | returned (code : Int)
deriving DecidableEq, Repr

/-- The shared state of one request. -/
structure State where
  now : Int := 0
  lastActivity : Int := 0
  trace : List Obs := []
  primary : Primary
  selected : Option Selected := none
  deadline : Option Int := none
  ctxDone : Bool := false
  waitStarted : Bool := false
  waited : Bool := false
  doneCh : Option (Option WaitError) := none
  heartbeat : Option Int := none
  watchdog : Option Int := none
  stdoutPending : List ndjsonEvent := []
  stderrPending : List ndjsonEvent := []
deriving DecidableEq, Repr

/-- A scheduler decision. `tick dt`: the clock advances; `primary pick`: the
primary task performs its next effect (`pick` chooses `ctx.Done()` when both cases
of the `select` are ready); `timer`: the deadline timer of the context fires;
`wait r`: `cmd.Wait()` returns `r` in the wait task, which sends it on `doneCh`;
`reader b`: a reader handles its next line; `heartbeat` and `watchdog`: the task
receives a tick of its ticker. -/
inductive Label
  | tick (dt : Nat)
  | primary (pick : Bool)
  | timer
  | wait (r : Option WaitError)
  | reader (stderr : Bool)
  | heartbeat
  | watchdog
deriving DecidableEq, Repr

/-- `writeEvent(stdout, ev)` by a task. -/
def State.writeEvent (s : State) (a : Actor) (ev : ndjsonEvent) : State :=
  { s with trace := s.trace ++ [⟨a, s.now, .wrote ev⟩] }

/-- The closure `emit`: write the event, then `lastActivity = time.Now()`. -/
def State.emit (s : State) (a : Actor) (ev : ndjsonEvent) : State :=
  { s.writeEvent a ev with lastActivity := s.now }

/-- A call of the terminator by a task. -/
def State.kill (s : State) (a : Actor) (tree : Bool) : State :=
  { s with trace := s.trace ++ [⟨a, s.now, .killed tree⟩] }

/-- The primary task leaves the `select` through the case `sel`. -/
def State.resolve (p : Program) (s : State) (sel : Selected) : State :=
  { s with primary := .finishing (p.finish sel), selected := some sel }

/-- The state in which `runStream` is entered, at time 0: the context carries a
deadline when `timeoutSec > 0`, and is done at once if that deadline is not in
the future. -/
def initState (p : Program) (req : runRequest) : State :=
  { primary := .running p.steps
    deadline := if req.TimeoutSec > 0 then some (seconds req.TimeoutSec) else none
    ctxDone := decide (req.TimeoutSec > 0 ∧ seconds req.TimeoutSec ≤ 0) }

/-- The status event of the heartbeat task. -/
def heartbeatEvent (w : World) (lastActivity : Int) : ndjsonEvent :=
  { Action := "go", Event := "status",
    Data := "running, last activity: " ++ w.timeFormat lastActivity }

/-- One effect, performed by the primary task. -/
def perform (w : World) (s : State) : Effect → State
  | .writeEvent ev => s.writeEvent .primary ev
  | .kill tree => s.kill .primary tree
  | .setLastActivity => { s with lastActivity := s.now }
  | .goHeartbeat => { s with heartbeat := some (s.now + 5 * second) }
  | .goWatchdog => { s with watchdog := some (s.now + 2 * second) }
  | .goWait => { s with waitStarted := true }
  | .goRead false => { s with stdoutPending := read "stdout" w.stdoutData }
  | .goRead true => { s with stderrPending := read "stderr" w.stderrData }

/-- The primary task evaluates `select { case <-ctx.Done(): ... case err := <-doneCh: ... }`:
a ready case is taken, either one when both are ready (`pick`), and the task
blocks when none is. -/
def select (p : Program) (pick : Bool) (s : State) : State :=
  match s.ctxDone, s.doneCh with
  | true, some r =>
      if pick then s.resolve p .ctxDone else { s with doneCh := none }.resolve p (.doneCh r)
  | true, none => s.resolve p .ctxDone
  | false, some r => { s with doneCh := none }.resolve p (.doneCh r)
  | false, none => { s with primary := .parked }

/-- The next action of the primary task. -/
def stepPrimary (w : World) (p : Program) (pick : Bool) (s : State) : Option State :=
  match s.primary with
  | .running (e :: rest) => some (perform w { s with primary := .running rest } e)
  | .running [] =>
      if p.selects then some (select p pick s) else some { s with primary := .returned p.ret }
  | .finishing (e :: rest) => some (perform w { s with primary := .finishing rest } e)
  | .finishing [] => some { s with primary := .returned p.ret }
  | .parked => none
  | .returned _ => none

/-- The deadline timer of the context fires: the context is done, and a
primary task blocked in the `select` leaves it through that case. -/
def stepTimer (p : Program) (s : State) : Option State :=
  match s.deadline with
  | some d =>
      if d ≤ s.now ∧ s.ctxDone = false then
        let s := { s with ctxDone := true }
        if s.primary = .parked then some (s.resolve p .ctxDone) else some s
      else none
  | none => none

/-- The wait task: `cmd.Wait()` returns `r`, which is sent on `doneCh`; a primary
task blocked in the `select` receives it at once, else it stays in the buffer of
the channel. -/
def stepWait (p : Program) (r : Option WaitError) (s : State) : Option State :=
  if s.waitStarted = true ∧ s.waited = false then
    let s := { s with waited := true }
    if s.primary = .parked then some (s.resolve p (.doneCh r))
    else some { s with doneCh := some r }
  else none

/-- A reader task emits the event of its next line. -/
def stepReader (stderr : Bool) (s : State) : Option State :=
  if stderr then
    match s.stderrPending with
    | ev :: rest => some ({ s with stderrPending := rest }.emit .stderrReader ev)
    | [] => none
  else
    match s.stdoutPending with
    | ev :: rest => some ({ s with stdoutPending := rest }.emit .stdoutReader ev)
    | [] => none

/-- The heartbeat task receives a tick that is due and emits a status event. -/
def stepHeartbeat (w : World) (s : State) : Option State :=
  match s.heartbeat with
  | some t =>
      if t ≤ s.now then
        some ({ s with heartbeat := some (t + 5 * second) }.emit .heartbeat
          (heartbeatEvent w s.lastActivity))
      else none
  | none => none

/-- The idle watchdog receives a tick that is due: it calls the terminator and
ends when `time.Since(lastActivity)` exceeds the idle threshold. -/
def stepWatchdog (p : Program) (req : runRequest) (s : State) : Option State :=
  match s.watchdog with
  | some t =>
      if t ≤ s.now then
        if s.now - s.lastActivity > seconds req.IdleTimeoutSec then
          some ({ s with watchdog := none }.kill .watchdog p.treeKill)
        else some { s with watchdog := some (t + 2 * second) }
      else none
  | none => none

/-- The primary task has returned, so that the process exits. -/
def Primary.exited : Primary → Bool
  | .returned _ => true
  | _ => false

/-- One scheduler decision. Nothing happens any more once the primary task has
returned, because the process then exits. -/
def step (w : World) (p : Program) (req : runRequest) (s : State) (l : Label) : Option State :=
  if s.primary.exited then none
  else
    match l with
    | .tick dt => some { s with now := s.now + dt }
    | .primary pick => stepPrimary w p pick s
    | .timer => stepTimer p s
    | .wait r => stepWait p r s
    | .reader stderr => stepReader stderr s
    | .heartbeat => stepHeartbeat w s
    | .watchdog => stepWatchdog p req s

/-- A run: the decisions of a schedule, performed in order from a state. -/
def exec (w : World) (p : Program) (req : runRequest) : State → List Label → Option State
  | s, [] => some s
  | s, l :: ls =>
      match step w p req s l with
      | some s' => exec w p req s' ls
      | none => none

/-- The events of a history, in the order they were written. -/
def eventsOf (tr : List Obs) : List ndjsonEvent :=
  tr.filterMap (fun o => match o.act with | .wrote ev => some ev | .killed _ => none)

/-- The part of a history one task produced. -/
def byActor (a : Actor) (tr : List Obs) : List Act :=
  (tr.filter (fun o => o.actor = a)).map (fun o => o.act)

/-! ## Proof vocabulary for runs -/

/-- The observable actions among a list of effects. -/
def actsOf (es : List Effect) : List Act :=
  es.filterMap (fun e => match e with
    | .writeEvent ev => some (.wrote ev)
    | .kill tree => some (.killed tree)
    | _ => none)

/-- The transitions of the tasks, one constructor per case of `step`. -/
inductive Trans (w : World) (p : Program) (req : runRequest) : State → Label → State → Prop
  | tick (s : State) (dt : Nat) : Trans w p req s (.tick dt) { s with now := s.now + dt }
  | performRunning (s : State) (pick : Bool) (e : Effect) (rest : List Effect) :
      s.primary = .running (e :: rest) →
      Trans w p req s (.primary pick) (perform w { s with primary := .running rest } e)
  | performFinishing (s : State) (pick : Bool) (e : Effect) (rest : List Effect) :
      s.primary = .finishing (e :: rest) →
      Trans w p req s (.primary pick) (perform w { s with primary := .finishing rest } e)
  | selectCtx (s : State) (pick : Bool) :
      s.primary = .running [] → p.selects = true → s.ctxDone = true →
      Trans w p req s (.primary pick) (s.resolve p .ctxDone)
  | selectDone (s : State) (pick : Bool) (r : Option WaitError) :
      s.primary = .running [] → p.selects = true → s.doneCh = some r →
      Trans w p req s (.primary pick) ({ s with doneCh := none }.resolve p (.doneCh r))
  | selectPark (s : State) (pick : Bool) :
      s.primary = .running [] → p.selects = true → s.ctxDone = false → s.doneCh = none →
      Trans w p req s (.primary pick) { s with primary := .parked }
  | returnEarly (s : State) (pick : Bool) :
      s.primary = .running [] → p.selects = false →
      Trans w p req s (.primary pick) { s with primary := .returned p.ret }
  | returnFinished (s : State) (pick : Bool) :
      s.primary = .finishing [] →
      Trans w p req s (.primary pick) { s with primary := .returned p.ret }
  | timerParked (s : State) :
      s.primary = .parked → s.ctxDone = false →
      Trans w p req s .timer ({ s with ctxDone := true }.resolve p .ctxDone)
  | timer (s : State) :
      s.primary ≠ .parked → s.ctxDone = false →
      Trans w p req s .timer { s with ctxDone := true }
  | waitParked (s : State) (r : Option WaitError) :
      s.primary = .parked → s.waitStarted = true → s.waited = false →
      Trans w p req s (.wait r) ({ s with waited := true }.resolve p (.doneCh r))
  | wait (s : State) (r : Option WaitError) :
      s.primary ≠ .parked → s.waitStarted = true → s.waited = false →
      Trans w p req s (.wait r) { s with waited := true, doneCh := some r }
  | readerOut (s : State) (ev : ndjsonEvent) (rest : List ndjsonEvent) :
      s.stdoutPending = ev :: rest →
      Trans w p req s (.reader false) ({ s with stdoutPending := rest }.emit .stdoutReader ev)
  | readerErr (s : State) (ev : ndjsonEvent) (rest : List ndjsonEvent) :
      s.stderrPending = ev :: rest →
      Trans w p req s (.reader true) ({ s with stderrPending := rest }.emit .stderrReader ev)
  | heartbeat (s : State) (t : Int) :
      s.heartbeat = some t → t ≤ s.now →
      Trans w p req s .heartbeat ({ s with heartbeat := some (t + 5 * second) }.emit .heartbeat
        (heartbeatEvent w s.lastActivity))
  | watchdogKill (s : State) (t : Int) :
      s.watchdog = some t → t ≤ s.now → s.now - s.lastActivity > seconds req.IdleTimeoutSec →
      Trans w p req s .watchdog ({ s with watchdog := none }.kill .watchdog p.treeKill)
  | watchdogPass (s : State) (t : Int) :
      s.watchdog = some t → t ≤ s.now → ¬ s.now - s.lastActivity > seconds req.IdleTimeoutSec →
      Trans w p req s .watchdog { s with watchdog := some (t + 2 * second) }

/-- The events of the readers and of the heartbeat: not terminal, and of kind
`stdout`, `stderr` or `status`. -/
def ndjsonEvent.isBackground (ev : ndjsonEvent) : Prop :=
  ev.Final = none ∧ (ev.Event = "stdout" ∨ ev.Event = "stderr" ∨ ev.Event = "status")

/-- What holds of every state of a run. -/
structure Inv (p : Program) (s : State) : Prop where
  running : ∀ todo, s.primary = .running todo →
    s.selected = none ∧ ∃ done, p.steps = done ++ todo ∧ byActor .primary s.trace = actsOf done
  parked : s.primary = .parked →
    s.selected = none ∧ p.selects = true ∧ byActor .primary s.trace = actsOf p.steps
      ∧ s.doneCh = none ∧ s.ctxDone = false
  finishing : ∀ todo, s.primary = .finishing todo →
    p.selects = true ∧ ∃ sel done, s.selected = some sel ∧ p.finish sel = done ++ todo
      ∧ byActor .primary s.trace = actsOf p.steps ++ actsOf done
  returned : ∀ c, s.primary = .returned c →
    c = p.ret ∧
      ((p.selects = false ∧ s.selected = none ∧ byActor .primary s.trace = actsOf p.steps) ∨
       (p.selects = true ∧ ∃ sel, s.selected = some sel
          ∧ byActor .primary s.trace = actsOf p.steps ++ actsOf (p.finish sel)))
  others : ∀ o ∈ s.trace, o.actor ≠ .primary → ∀ ev, o.act = .wrote ev → ev.isBackground
  pending : ∀ ev, ev ∈ s.stdoutPending ∨ ev ∈ s.stderrPending → ev.isBackground
  ctx : s.selected = some .ctxDone → s.ctxDone = true


/-! ## The line reader, as specified -/

/-- A stream on a pipe: lines ended by a newline, then an unterminated rest
(possibly empty). -/
def streamOf : List (List Char) → List Char → List Char
  | [], tail => tail
  | l :: ls, tail => l ++ '\n' :: streamOf ls tail

/-- The lines of such a stream: the terminated ones, and the rest when it is
not empty. -/
def linesOf (lines : List (List Char)) (tail : List Char) : List (List Char) :=
  lines ++ (if tail = [] then [] else [tail])

/-- A line with its trailing carriage-return and newline characters removed. -/
def stripLineEnding (l : List Char) : List Char :=
  l.rdropWhile (fun c => decide (c = '\r' ∨ c = '\n'))

/-- What the specification asks of a reader for a list of lines: one event per
line that is not empty after stripping, tagged with the channel. -/
def lineEventsSpec (kind : String) (lines : List (List Char)) : List ndjsonEvent :=
  lines.filterMap (fun l =>
    if stripLineEnding l = [] then none
    else some { Action := "go", Event := kind, Data := String.mk (stripLineEnding l) })

/-! ## The environment layering, as specified -/

/-- The layering the specification asks of the child's environment `child`,
given the process environment and the overrides: every override with a non-empty
key is in effect, and every other variable has the value it has in the process
environment. -/
def EnvLayered (environ : List String) (overrides : List (String × String))
    (child : List String) : Prop :=
  (∀ k v, (k, v) ∈ overrides → k ≠ "" → lookupEnv child k = some v) ∧
  (∀ k, (∀ v, (k, v) ∈ overrides → k = "") → lookupEnv child k = lookupEnv environ k)

/-! ## Histories and concrete runs -/

/-- The events among a list of observable actions. -/
def eventsOfActs (acts : List Act) : List ndjsonEvent :=
  acts.filterMap (fun a => match a with | .wrote ev => some ev | .killed _ => none)

/-- The terminal events of a history. -/
def finalEvents (tr : List Obs) : List ndjsonEvent :=
  (eventsOf tr).filter (fun ev => ev.isFinal)

/-- The run of `runStream` of `packages/cli` from its entry under a schedule. -/
def runOf (w : World) (req : runRequest) (ls : List Label) : Option State :=
  exec w (runStream w req) req (initState (runStream w req) req) ls

/-- A request that runs a command. -/
def demoRequest : runRequest := { Action := "run", Cmd := "printf 'a\\nb\\n'; exit 3" }

/-- A world in which the child starts and prints two lines. -/
def demoWorld : World := { stdoutData := "a\nb\n".data }

/-- A schedule in which the primary task spawns its tasks and blocks in the
`select`, a line is read, the child exits with status 3, and the primary task
writes the terminal event and returns. -/
def demoExit3 : List Label :=
  [.primary false, .primary false, .primary false, .primary false, .primary false,
   .primary false, .reader false, .wait (cmdWait (.exited 3)), .reader false,
   .primary false, .primary false]

/-- A request whose command kills its own shell with signal 9. -/
def demoKillRequest : runRequest := { Action := "run", Cmd := "kill -9 $$" }

/-- A world in which the child starts and prints nothing. -/
def demoSilentWorld : World := {}

/-- A schedule in which the primary task blocks in the `select`, the child is
killed by signal 9, and the primary task writes the terminal event and returns. -/
def demoSignaled : List Label :=
  [.primary false, .primary false, .primary false, .primary false, .primary false,
   .primary false, .wait (cmdWait (.signaled 9)), .primary false, .primary false]

/-- A request with a hard timeout of one second whose command prints lines
without end. -/
def demoTimeoutRequest : runRequest := { Action := "run", Cmd := "yes", TimeoutSec := 1 }

/-- A world in which the child starts and prints lines; three of them reach the
stdout reader. -/
def demoLineWorld : World := { stdoutData := "y\ny\ny\n".data }

/-- A schedule in which the stdout reader emits a line, the deadline fires after
one second while the primary task is blocked in the `select`, the reader emits a
line while the terminator runs, and another between the `error` event and the
terminal event of the primary task. -/
def demoTimeout : List Label :=
  [.primary false, .primary false, .primary false, .primary false, .primary false,
   .primary false, .reader false, .tick 1000000000, .timer, .primary false, .tick 500000000,
   .reader false, .primary false, .reader false, .primary false, .primary false]

/-- The terminal event of the deadline case. -/
def timeoutDoneEvent : ndjsonEvent :=
  { Action := "go", Event := "done", OK := some false, Exit := some 124, Final := some true,
    Reason := "timeout" }

/-- An effect that writes an event or calls the terminator, and spawns nothing. -/
def Effect.isPlain : Effect → Bool
  | .writeEvent _ => true
  | .kill _ => true
  | _ => false

/-- No task besides the primary one has been created or has acted. -/
structure Quiet (s : State) : Prop where
  heartbeat : s.heartbeat = none
  watchdog : s.watchdog = none
  waitStarted : s.waitStarted = false
  stdoutPending : s.stdoutPending = []
  stderrPending : s.stderrPending = []
  trace : ∀ o ∈ s.trace, o.actor = .primary
  plain : ∀ todo, s.primary = .running todo → ∀ e ∈ todo, e.isPlain = true
  straight : s.primary ≠ .parked ∧ ∀ todo, s.primary ≠ .finishing todo

/-- A request whose working directory does not exist. -/
def demoBadDirRequest : runRequest := { Action := "run", Cmd := "ls", Cwd := "/nonexistent" }

/-- A world in which the child cannot be started. -/
def demoNoStartWorld : World :=
  { startErr := some "chdir /nonexistent: no such file or directory" }

/-- The schedule of a run whose child fails to start: the primary task writes
its two events and returns. -/
def demoNoStart : List Label := [.primary false, .primary false, .primary false]

/-- Exactly one event of the sequence is terminal, and it is the last one. -/
def OneFinalLast (evs : List ndjsonEvent) : Prop :=
  (evs.filter (fun ev => ev.isFinal)).length = 1 ∧
    evs.getLast?.map (fun ev => ev.isFinal) = some true

instance (evs : List ndjsonEvent) : Decidable (OneFinalLast evs) := by
  unfold OneFinalLast; infer_instance

/-- A request that prints two lines and exits with status 0. -/
def demoPrintRequest : runRequest := { Action := "run", Cmd := "printf 'a\\nb\\n'" }

/-- A schedule in which the child exits while the stdout reader still holds a
line: the primary task writes the terminal event, the reader then emits the
line, and only then does the primary task return. -/
def demoLateLine : List Label :=
  [.primary false, .primary false, .primary false, .primary false, .primary false,
   .primary false, .reader false, .wait (cmdWait (.exited 0)), .primary false, .reader false,
   .primary false]

/-- A request with a hard timeout of one second whose command ends at once. -/
def demoQuickRequest : runRequest := { Action := "run", Cmd := "true", TimeoutSec := 1 }

/-- The first part of a run in which the primary task is slow to reach the
`select`: nearly the whole second of the timeout has passed when it has spawned
its tasks, and the child has exited with status 0 and been waited for. -/
def demoSlowStart : List Label :=
  [.tick 999999000, .primary false, .primary false, .primary false, .primary false,
   .primary false, .wait (cmdWait (.exited 0))]

/-- The rest of that run: the second is over, the deadline fires, and only then
does the primary task evaluate the `select`, which takes the deadline case. -/
def demoSlowSelect : List Label :=
  [.tick 1000, .timer, .primary true, .primary false, .primary false, .primary false,
   .primary false]

/-- A run in which the primary task blocks in the `select`, the child exits
with status 0, and the deadline fires before the primary task goes on. -/
def demoParked : List Label :=
  [.primary false, .primary false, .primary false, .primary false, .primary false,
   .primary false, .wait (cmdWait (.exited 0))]

/-- The rest of that run: the deadline fires, then the primary task writes the
terminal event and returns. -/
def demoParkedRest : List Label :=
  [.tick 1000000000, .timer, .primary true, .primary true]

/-- The primary task has not yet reached the `select` (or, when the child
failed to start, the end of the function). -/
def Primary.beforeSelect : Primary → Bool
  | .running _ => true
  | _ => false

/-- A request with an idle timeout of ten seconds whose command prints one line
and then stays silent for a minute. -/
def demoIdleRequest : runRequest :=
  { Action := "run", Cmd := "echo hi; sleep 60", IdleTimeoutSec := 10 }

/-- A world in which the child starts and prints `hi`. -/
def demoHiWorld : World := { stdoutData := "hi\n".data }

/-- The start of the idle run, all at time 0: the primary task spawns its tasks
(the watchdog among them) and blocks in the `select`, and the stdout reader emits
the one line of the child. -/
def demoIdleStart : List Label :=
  [.primary false, .primary false, .primary false, .primary false, .primary false,
   .primary false, .primary false, .reader false]

/-- Second `k` of a silent run with punctual tickers: the clock advances by a
second, then the heartbeat task takes its tick if `k` is a multiple of 5, and the
watchdog takes its tick if `k` is even. -/
def quietSecond (k : Nat) : List Label :=
  [.tick 1000000000] ++ (if k % 5 = 0 then [.heartbeat] else [])
    ++ (if k % 2 = 0 then [.watchdog] else [])

/-- The first `n` seconds of a silent run with punctual tickers. -/
def quietSeconds : Nat → List Label
  | 0 => []
  | n + 1 => quietSeconds n ++ quietSecond (n + 1)

/-- The time `n` seconds after the start. -/
def atSecond (n : Nat) : Int := (n : Int) * second

/-- A silent run after `k` seconds with punctual tickers: the clock, the next
ticks of the heartbeat and of the watchdog, `lastActivity` no older than the last
heartbeat, and no terminator call by the watchdog so far. -/
structure Punctual (k : Nat) (s : State) : Prop where
  now : s.now = atSecond k
  heartbeat : s.heartbeat = some (atSecond (5 * (k / 5) + 5))
  watchdog : s.watchdog = some (atSecond (2 * (k / 2) + 2))
  activity : atSecond (5 * (k / 5)) ≤ s.lastActivity
  alive : s.primary.exited = false
  quiet : byActor .watchdog s.trace = []

/-! ## Decoding the request: `json.NewDecoder(os.Stdin).Decode(&req)`

Standard input is a finite sequence of bytes (numbers below 256) followed by the
end of input.  `Decode` reads the first JSON value of the input, as the scanner
of `encoding/json` delimits it, and stores it in a zero `runRequest`; what
follows the first value is not looked at. -/

/-- A JSON value as the scanner of `encoding/json` delimits it. A number keeps
its literal, a string is unquoted. -/
inductive JValue
  | null
  | bool (b : Bool)
  | number (lit : List Nat)
  | string (s : String)
  | array (items : List JValue)
  | object (members : List (String × JValue))

/-- The errors of `Decode`: `io.EOF` (nothing but white space before the end of
input), `io.ErrUnexpectedEOF` (the input ends inside a value), a
`*json.SyntaxError`, and a `*json.UnmarshalTypeError` (a value that does not fit
the Go value it is stored in). -/
inductive DecodeError
  | eof
  | unexpectedEOF
  | malformed
  | mismatch
deriving DecidableEq, Repr

/-- White space of JSON: space, tab, carriage return, line feed. -/
def isJSONSpace (b : Nat) : Bool := b = 32 || b = 9 || b = 13 || b = 10

/-- The input after its leading white space. -/
def skipSpace : List Nat → List Nat
  | [] => []
  | b :: rest => if isJSONSpace b then skipSpace rest else b :: rest

/-- A decimal digit. -/
def isDigit (b : Nat) : Bool := 48 ≤ b && b ≤ 57

/-- The value of a hexadecimal digit. -/
def hexDigit (b : Nat) : Option Nat :=
  if 48 ≤ b ∧ b ≤ 57 then some (b - 48)
  else if 97 ≤ b ∧ b ≤ 102 then some (b - 87)
  else if 65 ≤ b ∧ b ≤ 70 then some (b - 55)
  else none

/-- Where the scanner stands inside a string literal: between characters, after
a backslash, or inside a `\u` escape with `left` hexadecimal digits to come. -/
inductive StringState
  | plain
  | escape
  | hex (left : Nat)

/-- The scanner inside a string literal, after the opening quote: the bytes up
to the closing quote, and the input after it. A control character, an unknown
escape or a bad hexadecimal digit is a syntax error. -/
def scanString : StringState → List Nat → Except DecodeError (List Nat × List Nat)
  | _, [] => .error .unexpectedEOF
  | .plain, b :: rest =>
      if b = 34 then .ok ([], rest)
      else if b = 92 then (scanString .escape rest).map (fun r => (b :: r.1, r.2))
      else if b < 32 then .error .malformed
      else (scanString .plain rest).map (fun r => (b :: r.1, r.2))
  | .escape, b :: rest =>
      if b = 117 then (scanString (.hex 4) rest).map (fun r => (b :: r.1, r.2))
      else if b = 98 ∨ b = 102 ∨ b = 110 ∨ b = 114 ∨ b = 116 ∨ b = 92 ∨ b = 47 ∨ b = 34 then
        (scanString .plain rest).map (fun r => (b :: r.1, r.2))
      else .error .malformed
  | .hex left, b :: rest =>
      if (hexDigit b).isSome then
        (scanString (if left ≤ 1 then .plain else .hex (left - 1)) rest).map
          (fun r => (b :: r.1, r.2))
      else .error .malformed

/-- The replacement character U+FFFD (`utf8.RuneError`). -/
def runeError : Char := Char.ofNat 0xFFFD

/-- `utf8.DecodeRune`: the first rune of a byte sequence and its width; a byte
that starts no valid encoding is `runeError` of width 1. -/
def decodeRune : List Nat → Char × Nat
  | [] => (runeError, 0)
  | p0 :: rest =>
      if p0 < 0x80 then (Char.ofNat p0, 1)
      else if p0 < 0xC2 then (runeError, 1)
      else if p0 < 0xE0 then
        match rest with
        | b1 :: _ =>
            if 0x80 ≤ b1 ∧ b1 ≤ 0xBF then (Char.ofNat (p0 % 32 * 64 + b1 % 64), 2)
            else (runeError, 1)
        | _ => (runeError, 1)
      else if p0 < 0xF0 then
        match rest with
        | b1 :: b2 :: _ =>
            if (if p0 = 0xE0 then 0xA0 else 0x80) ≤ b1 ∧ b1 ≤ (if p0 = 0xED then 0x9F else 0xBF)
                ∧ 0x80 ≤ b2 ∧ b2 ≤ 0xBF then
              (Char.ofNat (p0 % 16 * 4096 + b1 % 64 * 64 + b2 % 64), 3)
            else (runeError, 1)
        | _ => (runeError, 1)
      else if p0 < 0xF5 then
        match rest with
        | b1 :: b2 :: b3 :: _ =>
            if (if p0 = 0xF0 then 0x90 else 0x80) ≤ b1 ∧ b1 ≤ (if p0 = 0xF4 then 0x8F else 0xBF)
                ∧ 0x80 ≤ b2 ∧ b2 ≤ 0xBF ∧ 0x80 ≤ b3 ∧ b3 ≤ 0xBF then
              (Char.ofNat (p0 % 8 * 262144 + b1 % 64 * 4096 + b2 % 64 * 64 + b3 % 64), 4)
            else (runeError, 1)
        | _ => (runeError, 1)
      else (runeError, 1)

/-- `getu4`: the number a `\uXXXX` escape at the head of the bytes denotes. -/
def getu4 : List Nat → Option Nat
  | 92 :: 117 :: a :: b :: c :: d :: _ =>
      match hexDigit a, hexDigit b, hexDigit c, hexDigit d with
      | some a, some b, some c, some d => some (a * 4096 + b * 256 + c * 16 + d)
      | _, _, _, _ => none
  | _ => none

/-- `utf16.DecodeRune`: the rune of a surrogate pair, if it is one. -/
def decodeSurrogates (r1 : Nat) (r2 : Option Nat) : Option Char :=
  match r2 with
  | some r2 =>
      if 0xD800 ≤ r1 ∧ r1 < 0xDC00 ∧ 0xDC00 ≤ r2 ∧ r2 < 0xE000 then
        some (Char.ofNat ((r1 - 0xD800) * 1024 + (r2 - 0xDC00) + 0x10000))
      else none
  | none => none

/-- The character a one-letter escape denotes. -/
def escaped (b : Nat) : Char :=
  if b = 98 then Char.ofNat 8
  else if b = 102 then Char.ofNat 12
  else if b = 110 then Char.ofNat 10
  else if b = 114 then Char.ofNat 13
  else if b = 116 then Char.ofNat 9
  else Char.ofNat b

/-- `unquote`: the text of a string literal the scanner accepted, given the
bytes between its quotes. An escaped surrogate half without its partner and a
byte that is not UTF-8 become U+FFFD. The first argument bounds the number of
steps; the length of the bytes is enough. -/
def unquote : Nat → List Nat → List Char
  | 0, _ => []
  | _, [] => []
  | fuel + 1, b :: rest =>
      if b = 92 then
        match rest with
        | [] => []
        | c :: rest' =>
            if c = 117 then
              match getu4 (b :: rest) with
              | none => []
              | some rr =>
                  if 0xD800 ≤ rr ∧ rr < 0xE000 then
                    match decodeSurrogates rr (getu4 (rest'.drop 4)) with
                    | some ch => ch :: unquote fuel (rest'.drop 10)
                    | none => runeError :: unquote fuel (rest'.drop 4)
                  else Char.ofNat rr :: unquote fuel (rest'.drop 4)
            else escaped c :: unquote fuel rest'
      else if b < 0x80 then Char.ofNat b :: unquote fuel rest
      else (decodeRune (b :: rest)).1 :: unquote fuel (rest.drop ((decodeRune (b :: rest)).2 - 1))

/-- The digits at the head of the input, and the input after them. -/
def scanDigits (input : List Nat) : List Nat × List Nat := input.span isDigit

/-- At least one digit is required at the head of the input. -/
def scanDigits1 (input : List Nat) : Except DecodeError (List Nat × List Nat) :=
  match input with
  | [] => .error .unexpectedEOF
  | b :: rest =>
      if isDigit b then .ok (b :: (scanDigits rest).1, (scanDigits rest).2)
      else .error .malformed

/-- The scanner on a number, after an optional minus sign: `0` or a digit from 1
to 9 followed by digits, then an optional fraction, then an optional exponent. -/
def scanNumber (input : List Nat) : Except DecodeError (List Nat × List Nat) :=
  match input with
  | [] => .error .unexpectedEOF
  | b :: rest =>
      if ¬ isDigit b then .error .malformed
      else
        let int := if b = 48 then ([b], rest) else (b :: (scanDigits rest).1, (scanDigits rest).2)
        let frac : Except DecodeError (List Nat × List Nat) :=
          match int.2 with
          | 46 :: r => (scanDigits1 r).map (fun d => (int.1 ++ 46 :: d.1, d.2))
          | _ => .ok int
        match frac with
        | .error e => .error e
        | .ok frac =>
            match frac.2 with
            | [] => .ok frac
            | e :: r =>
                if e = 101 ∨ e = 69 then
                  match r with
                  | [] => .error .unexpectedEOF
                  | s :: r' =>
                      if s = 43 ∨ s = 45 then
                        (scanDigits1 r').map (fun d => (frac.1 ++ e :: s :: d.1, d.2))
                      else (scanDigits1 r).map (fun d => (frac.1 ++ e :: d.1, d.2))
                else .ok frac

/-- The rest of a literal name (`true`, `false`, `null`) is required at the head
of the input. -/
def scanLiteral : List Nat → List Nat → Except DecodeError (List Nat)
  | [], input => .ok input
  | _ :: _, [] => .error .unexpectedEOF
  | e :: expected, b :: rest => if b = e then scanLiteral expected rest else .error .malformed

/-- The deepest nesting of arrays and objects the scanner accepts. -/
def maxNestingDepth : Nat := 10000

mutual
/-- The scanner on a value that `depth` arrays and objects enclose: the value and
the input after it. The first argument bounds the depth of the recursion; one more
than twice the length of the input is enough. -/
def scanValue : Nat → Nat → List Nat → Except DecodeError (JValue × List Nat)
  | 0, _, _ => .error .malformed
  | fuel + 1, depth, input =>
      match skipSpace input with
      | [] => .error .unexpectedEOF
      | b :: rest =>
          if b = 123 then
            if depth + 1 > maxNestingDepth then .error .malformed
            else
              match skipSpace rest with
              | [] => .error .unexpectedEOF
              | c :: rest' =>
                  if c = 125 then .ok (.object [], rest')
                  else (scanMembers fuel (depth + 1) (c :: rest')).map
                    (fun r => (.object r.1, r.2))
          else if b = 91 then
            if depth + 1 > maxNestingDepth then .error .malformed
            else
              match skipSpace rest with
              | [] => .error .unexpectedEOF
              | c :: rest' =>
                  if c = 93 then .ok (.array [], rest')
                  else (scanElements fuel (depth + 1) (c :: rest')).map
                    (fun r => (.array r.1, r.2))
          else if b = 34 then
            (scanString .plain rest).map
              (fun r => (.string (String.mk (unquote r.1.length r.1)), r.2))
          else if b = 45 then (scanNumber rest).map (fun r => (.number (b :: r.1), r.2))
          else if isDigit b then (scanNumber (b :: rest)).map (fun r => (.number r.1, r.2))
          else if b = 116 then (scanLiteral [114, 117, 101] rest).map (fun r => (.bool true, r))
          else if b = 102 then
            (scanLiteral [97, 108, 115, 101] rest).map (fun r => (.bool false, r))
          else if b = 110 then (scanLiteral [117, 108, 108] rest).map (fun r => (.null, r))
          else .error .malformed
/-- The scanner on the members of an object, from a key to the closing brace. -/
def scanMembers : Nat → Nat → List Nat → Except DecodeError (List (String × JValue) × List Nat)
  | 0, _, _ => .error .malformed
  | fuel + 1, depth, input =>
      match skipSpace input with
      | [] => .error .unexpectedEOF
      | q :: rest =>
          if q ≠ 34 then .error .malformed
          else
            match scanString .plain rest with
            | .error e => .error e
            | .ok key =>
                match skipSpace key.2 with
                | [] => .error .unexpectedEOF
                | colon :: rest' =>
                    if colon ≠ 58 then .error .malformed
                    else
                      match scanValue fuel depth rest' with
                      | .error e => .error e
                      | .ok v =>
                          match skipSpace v.2 with
                          | [] => .error .unexpectedEOF
                          | c :: rest'' =>
                              if c = 44 then
                                (scanMembers fuel depth rest'').map
                                  (fun r =>
                                    ((String.mk (unquote key.1.length key.1), v.1) :: r.1, r.2))
                              else if c = 125 then
                                .ok ([(String.mk (unquote key.1.length key.1), v.1)], rest'')
                              else .error .malformed
/-- The scanner on the elements of an array, from an element to the closing
bracket. -/
def scanElements : Nat → Nat → List Nat → Except DecodeError (List JValue × List Nat)
  | 0, _, _ => .error .malformed
  | fuel + 1, depth, input =>
      match scanValue fuel depth input with
      | .error e => .error e
      | .ok v =>
          match skipSpace v.2 with
          | [] => .error .unexpectedEOF
          | c :: rest =>
              if c = 44 then (scanElements fuel depth rest).map (fun r => (v.1 :: r.1, r.2))
              else if c = 93 then .ok ([v.1], rest)
              else .error .malformed
end

/-- `Decoder.readValue`: the first JSON value of the input. Input that holds
nothing but white space is `io.EOF`. -/
def readValue (stdin : List Nat) : Except DecodeError (JValue × List Nat) :=
  match skipSpace stdin with
  | [] => .error .eof
  | input => scanValue (2 * input.length + 1) 0 input

/-- `strconv.ParseInt(s, 10, 64)` on a number literal: the integer it denotes,
unless it has a fraction or an exponent or lies outside `int64`. -/
def parseInt (lit : List Nat) : Option Int :=
  let digits := match lit with
    | 45 :: ds => ds
    | ds => ds
  if digits.all isDigit ∧ digits ≠ [] then
    let n : Int := digits.foldl (fun acc d => acc * 10 + ((d : Int) - 48)) 0
    let v := match lit with
      | 45 :: _ => -n
      | _ => n
    if -2 ^ 63 ≤ v ∧ v ≤ 2 ^ 63 - 1 then some v else none
  else none

/-- The folding of a rune under which `encoding/json` compares an object key with
a field name: a small ASCII letter becomes capital, and the two runes that fold
to an ASCII letter, U+017F (long s) and U+212A (Kelvin sign), become `S` and `K`.
(Another rune folds to a rune outside ASCII, which no field name holds.) -/
def foldRune (c : Char) : Char :=
  if 97 ≤ c.toNat ∧ c.toNat ≤ 122 then Char.ofNat (c.toNat - 32)
  else if c.toNat = 0x17F then 'S'
  else if c.toNat = 0x212A then 'K'
  else c

/-- The folded form of a key or a field name (`foldName`). -/
def foldName (s : String) : String := String.mk (s.data.map foldRune)

/-- A JSON value is stored in a string field: a string is assigned, `null`
leaves the field as it is, another value is a type error. -/
def storeString (v : JValue) (set : String → runRequest) (req : runRequest) :
    Option runRequest :=
  match v with
  | .string s => some (set s)
  | .null => some req
  | _ => none

/-- A JSON value is stored in an `int` field (64 bits). -/
def storeInt (v : JValue) (set : Int → runRequest) (req : runRequest) : Option runRequest :=
  match v with
  | .number lit => (parseInt lit).map set
  | .null => some req
  | _ => none

/-- A JSON value is stored in a `bool` field. -/
def storeBool (v : JValue) (set : Bool → runRequest) (req : runRequest) : Option runRequest :=
  match v with
  | .bool b => some (set b)
  | .null => some req
  | _ => none

/-- An entry is set in a map. -/
def setEntry (m : List (String × String)) (k v : String) : List (String × String) :=
  if m.any (fun e => e.1 = k) then m.map (fun e => if e.1 = k then (k, v) else e)
  else m ++ [(k, v)]

/-- The members of a JSON object are stored in a `map[string]string`: a string is
set at its key, `null` sets the empty string, another value is a type error. -/
def storeEntries : List (String × JValue) → List (String × String) →
    Option (List (String × String))
  | [], m => some m
  | (k, .string s) :: rest, m => storeEntries rest (setEntry m k s)
  | (k, .null) :: rest, m => storeEntries rest (setEntry m k "")
  | _ :: _, _ => none

/-- A JSON value is stored in the field `Env`: an object fills the map, which is
made if it is nil, `null` makes it nil, another value is a type error. -/
def storeEnv (v : JValue) (req : runRequest) : Option runRequest :=
  match v with
  | .object members =>
      (storeEntries members (req.Env.getD [])).map (fun m => { req with Env := some m })
  | .null => some { req with Env := none }
  | _ => none

/-- One member of the request object is stored in the field whose name matches its
key under folding; a key that matches no field is skipped. `legacy` selects the
`runRequest` of `go/cmd/opd-go`, which has the first six fields only. -/
def storeMember (legacy : Bool) (req : runRequest) (m : String × JValue) :
    Option runRequest :=
  let name := foldName m.1
  if name = "ACTION" then storeString m.2 (fun s => { req with Action := s }) req
  else if name = "CMD" then storeString m.2 (fun s => { req with Cmd := s }) req
  else if name = "CWD" then storeString m.2 (fun s => { req with Cwd := s }) req
  else if name = "TIMEOUTSEC" then storeInt m.2 (fun n => { req with TimeoutSec := n }) req
  else if name = "IDLETIMEOUTSEC" then
    storeInt m.2 (fun n => { req with IdleTimeoutSec := n }) req
  else if name = "ENV" then storeEnv m.2 req
  else if legacy then some req
  else if name = "SRC" then storeString m.2 (fun s => { req with Src := s }) req
  else if name = "DEST" then storeString m.2 (fun s => { req with Dest := s }) req
  else if name = "ALGO" then storeString m.2 (fun s => { req with Algo := s }) req
  else if name = "TARGZ" then storeBool m.2 (fun b => { req with TarGz := b }) req
  else if name = "PREFIX" then storeString m.2 (fun s => { req with Prefix := s }) req
  else if name = "PTY" then storeBool m.2 (fun b => { req with Pty := b }) req
  else if name = "COLS" then storeInt m.2 (fun n => { req with Cols := n }) req
  else if name = "ROWS" then storeInt m.2 (fun n => { req with Rows := n }) req
  else if name = "SITE" then storeString m.2 (fun s => { req with Site := s }) req
  else if name = "PROD" then storeBool m.2 (fun b => { req with Prod := b }) req
  else some req

/-- The members of the request object are stored one after the other. -/
def storeMembers (legacy : Bool) : List (String × JValue) → runRequest → Option runRequest
  | [], req => some req
  | m :: rest, req =>
      match storeMember legacy req m with
      | some req' => storeMembers legacy rest req'
      | none => none

/-- `decodeState.unmarshal` into `var req runRequest`: an object is stored member
by member, `null` leaves the zero request, another value is a type error. -/
def unmarshal (legacy : Bool) (v : JValue) : Except DecodeError runRequest :=
  match v with
  | .object members =>
      match storeMembers legacy members {} with
      | some req => .ok req
      | none => .error .mismatch
  | .null => .ok {}
  | _ => .error .mismatch

/-- `dec.Decode(&req)` on standard input. -/
def Decode (legacy : Bool) (stdin : List Nat) : Except DecodeError runRequest :=
  match readValue stdin with
  | .error e => .error e
  | .ok v => unmarshal legacy v.1

/-- The bytes of a text of ASCII characters. -/
def asciiBytes (s : String) : List Nat := s.data.map Char.toNat

instance : DecidableEq (Except DecodeError runRequest) := fun a b =>
  match a, b with
  | .ok x, .ok y => if h : x = y then isTrue (by rw [h]) else isFalse (by simpa using h)
  | .error x, .error y => if h : x = y then isTrue (by rw [h]) else isFalse (by simpa using h)
  | .ok _, .error _ => isFalse (by simp)
  | .error _, .ok _ => isFalse (by simp)

/-! ## The process: `main` -/

/-- The handshake event `main` of `packages/cli` writes first; `goVersion` is
`runtime.Version()`. The keys of `Extra` are in the order `json.Marshal` writes
them. -/
def helloEvent (goVersion : String) : ndjsonEvent :=
  { Action := "go", Event := "hello",
    Extra := [("goVersion", goVersion), ("protocolVersion", "1")] }

/-- How `main` ends: with `os.Exit(status)` or a plain return (status 0), or by
handing the request to the tasks of `runStream`, whose return value it discards
before it returns, or in a panic that nothing recovers. -/
inductive Ending
  | exit (status : Int)
  | tasks (p : Program)
  | panic

/-- The exit status of the process once it has ended; the Go runtime ends a
process whose panic is not recovered with status 2. -/
def Ending.status : Ending → Int
  | .exit status => status
  | .tasks _ => 0
  | .panic => 2

/-- A line on standard error: `invalid JSON request:` with the error of the
decoder, `unknown action`, or the report of the Go runtime on a nil pointer
dereference. -/
inductive Diagnostic
  | invalidRequest (err : DecodeError)
  | unknownAction
  | nilDereference
deriving DecidableEq, Repr

/-- What `main` has done apart from the tasks of `runStream`: the events on
standard output, the lines on standard error, and how it ends. For a `tasks`
ending the events of the run follow those of `stdout`. -/
structure MainRun where
  stdout : List ndjsonEvent
  stderr : List Diagnostic
  ending : Ending

/-- `main` of `packages/cli/go/cmd/opd-go/main.go` from the outcome `decoded` of
`dec.Decode(&req)`: the handshake event has been written before the request is
decoded (line 194). -/
def mainDecoded (goVersion : String) (w : World) (c : Collaborators)
    (decoded : Except DecodeError runRequest) : MainRun :=
  let hello := [helloEvent goVersion]
  match decoded with
  | .error err => { stdout := hello, stderr := [.invalidRequest err], ending := .exit 2 }
  | .ok req =>
      match dispatch w c req with
      | .stream p => { stdout := hello, stderr := [], ending := .tasks p }
      | .direct events status => { stdout := hello ++ events, stderr := [], ending := .exit status }
      | .panicked events =>
          { stdout := hello ++ events, stderr := [.nilDereference], ending := .panic }
      | .unknown status => { stdout := hello, stderr := [.unknownAction], ending := .exit status }

/-- `main` of `packages/cli/go/cmd/opd-go/main.go` on standard input `stdin`. -/
def main (goVersion : String) (w : World) (c : Collaborators) (stdin : List Nat) : MainRun :=
  mainDecoded goVersion w c (Decode false stdin)

namespace Legacy

/-- `main` of `go/cmd/opd-go/main.go` from the outcome `decoded` of
`dec.Decode(&req)`: no handshake, and `run` and `run-stream` are the only
actions. -/
def mainDecoded (w : World) (decoded : Except DecodeError runRequest) : MainRun :=
  match decoded with
  | .error err => { stdout := [], stderr := [.invalidRequest err], ending := .exit 2 }
  | .ok req =>
      if req.Action = "run-stream" ∨ req.Action = "run" then
        { stdout := [], stderr := [], ending := .tasks (runStream w req) }
      else { stdout := [], stderr := [.unknownAction], ending := .exit 2 }

/-- `main` of `go/cmd/opd-go/main.go` on standard input `stdin`. -/
def main (w : World) (stdin : List Nat) : MainRun := mainDecoded w (Decode true stdin)

end Legacy

/-- The success flag of the last event of a sequence. -/
def reportedOK (evs : List ndjsonEvent) : Option Bool :=
  evs.getLast?.bind (fun ev => ev.OK)

/-- The sequence ends with an `error` event immediately followed by a terminal
`done` event that reports failure and carries an exit code. -/
def EndsWithErrorDone (evs : List ndjsonEvent) : Prop :=
  match evs.reverse with
  | d :: e :: _ =>
      e.Event = "error" ∧ d.Event = "done" ∧ d.isFinal = true ∧ d.OK = some false
        ∧ d.Exit.isSome = true
  | _ => False

instance (evs : List ndjsonEvent) : Decidable (EndsWithErrorDone evs) := by
  unfold EndsWithErrorDone; split <;> infer_instance

/-- The input `{"action":`, which ends inside an object. -/
def demoCutInput : List Nat := asciiBytes "\x7b\"action\":"

/-- The input `{"action":"run","cmd":""} }}xyz`: a `run` request followed by stray
bytes. -/
def demoStrayInput : List Nat :=
  asciiBytes "\x7b\"action\":\"run\",\"cmd\":\"\"\x7d \x7d\x7dxyz"

/-- A `zip-dir` request without a source directory. -/
def demoZipRequest : runRequest := { Action := "zip-dir", Dest := "site.zip" }

/-- A request whose timeout in nanoseconds exceeds the largest `int64`. -/
def demoHugeTimeoutRequest : runRequest :=
  { Action := "run", Cmd := "sleep 1", TimeoutSec := 9223372037 }

/-- A schedule in which the primary task alone acts, without a stop, up to its
return through the deadline case. -/
def demoAtOnce : List Label :=
  [.primary false, .primary false, .primary false, .primary false, .primary false,
   .primary false, .primary false, .primary false, .primary false, .primary false]

/-! ## Runs: transitions and invariants -/

theorem step_trans {w : World} {p : Program} {req : runRequest} {s s' : State} {l : Label}
    (hs : step w p req s l = some s') : s.primary.exited = false ∧ Trans w p req s l s' := by
  unfold step at hs
  split at hs
  · simp at hs
  rename_i hx
  refine ⟨by simpa using hx, ?_⟩
  cases l with
  | tick dt => simp at hs; subst hs; exact .tick s dt
  | primary pick =>
    simp only [stepPrimary] at hs
    split at hs
    · simp at hs; subst hs; exact .performRunning s pick _ _ (by assumption)
    · split at hs
      · simp only [select] at hs
        split at hs
        · split at hs <;> simp at hs <;> subst hs
          · exact .selectCtx s pick (by assumption) (by assumption) (by assumption)
          · exact .selectDone s pick _ (by assumption) (by assumption) (by assumption)
        · simp at hs; subst hs
          exact .selectCtx s pick (by assumption) (by assumption) (by assumption)
        · simp at hs; subst hs
          exact .selectDone s pick _ (by assumption) (by assumption) (by assumption)
        · simp at hs; subst hs
          exact .selectPark s pick (by assumption) (by assumption) (by assumption) (by assumption)
      · simp at hs; subst hs
        exact .returnEarly s pick (by assumption) (by simpa using ‹¬ p.selects = true›)
    · simp at hs; subst hs; exact .performFinishing s pick _ _ (by assumption)
    · simp at hs; subst hs; exact .returnFinished s pick (by assumption)
    · simp at hs
    · simp at hs
  | timer =>
    simp only [stepTimer] at hs
    split at hs
    · split at hs
      · rename_i hc
        split at hs <;> simp at hs <;> subst hs
        · exact .timerParked s (by assumption) hc.2
        · exact .timer s (by assumption) hc.2
      · simp at hs
    · simp at hs
  | wait r =>
    simp only [stepWait] at hs
    split at hs
    · rename_i hc
      split at hs <;> simp at hs <;> subst hs
      · exact .waitParked s r (by assumption) hc.1 hc.2
      · exact .wait s r (by assumption) hc.1 hc.2
    · simp at hs
  | reader b =>
    cases b <;> simp [stepReader] at hs <;> split at hs <;> simp at hs <;> subst hs
    · exact .readerOut s _ _ (by assumption)
    · exact .readerErr s _ _ (by assumption)
  | heartbeat =>
    simp only [stepHeartbeat] at hs
    split at hs
    · split at hs
      · simp at hs; subst hs; exact .heartbeat s _ (by assumption) (by assumption)
      · simp at hs
    · simp at hs
  | watchdog =>
    simp only [stepWatchdog] at hs
    split at hs
    · split at hs
      · split at hs <;> simp at hs <;> subst hs
        · exact .watchdogKill s _ (by assumption) (by assumption) (by assumption)
        · exact .watchdogPass s _ (by assumption) (by assumption) (by assumption)
      · simp at hs
    · simp at hs


theorem byActor_snoc (a : Actor) (tr : List Obs) (o : Obs) :
    byActor a (tr ++ [o]) = byActor a tr ++ (if o.actor = a then [o.act] else []) := by
  unfold byActor
  by_cases h : o.actor = a <;> simp [List.filter_append, h]

theorem actsOf_append (a b : List Effect) : actsOf (a ++ b) = actsOf a ++ actsOf b := by
  simp [actsOf, List.filterMap_append]

theorem read_background (kind : String) (data : List Char)
    (hk : kind = "stdout" ∨ kind = "stderr") : ∀ ev ∈ read kind data, ev.isBackground := by
  intro ev hev
  simp only [read, List.mem_filterMap] at hev
  obtain ⟨tok, _, h⟩ := hev
  simp only [lineEvent] at h
  split at h
  · simp at h; subst h
    exact ⟨rfl, by rcases hk with hk | hk <;> simp [hk]⟩
  · simp at h

theorem perform_frame (w : World) (s : State) (e : Effect) :
    (perform w s e).primary = s.primary ∧ (perform w s e).selected = s.selected
      ∧ (perform w s e).doneCh = s.doneCh ∧ (perform w s e).ctxDone = s.ctxDone
      ∧ (perform w s e).waited = s.waited
      ∧ byActor .primary (perform w s e).trace = byActor .primary s.trace ++ actsOf [e]
      ∧ (∃ extra, (perform w s e).trace = s.trace ++ extra ∧ ∀ o ∈ extra, o.actor = .primary)
      ∧ (∀ ev, ev ∈ (perform w s e).stdoutPending ∨ ev ∈ (perform w s e).stderrPending →
          (ev ∈ s.stdoutPending ∨ ev ∈ s.stderrPending) ∨ ev.isBackground) := by
  cases e
  case writeEvent ev =>
    refine ⟨rfl, rfl, rfl, rfl, rfl, ?_, ⟨[_], rfl, by simp⟩, fun _ h => .inl h⟩
    simp [perform, State.writeEvent, byActor_snoc, actsOf]
  case kill t =>
    refine ⟨rfl, rfl, rfl, rfl, rfl, ?_, ⟨[_], rfl, by simp⟩, fun _ h => .inl h⟩
    simp [perform, State.kill, byActor_snoc, actsOf]
  case goRead b =>
    cases b
    · refine ⟨rfl, rfl, rfl, rfl, rfl, by simp [perform, actsOf], ⟨[], by simp [perform], by simp⟩, ?_⟩
      intro ev h
      rcases h with h | h
      · exact .inr (read_background _ _ (by simp) ev h)
      · exact .inl (.inr h)
    · refine ⟨rfl, rfl, rfl, rfl, rfl, by simp [perform, actsOf], ⟨[], by simp [perform], by simp⟩, ?_⟩
      intro ev h
      rcases h with h | h
      · exact .inl (.inl h)
      · exact .inr (read_background _ _ (by simp) ev h)
  all_goals
    exact ⟨rfl, rfl, rfl, rfl, rfl, by simp [perform, actsOf], ⟨[], by simp [perform], by simp⟩,
      fun _ h => .inl h⟩

theorem inv_perform {w : World} {s : State} {e : Effect}
    (h5 : ∀ o ∈ s.trace, o.actor ≠ .primary → ∀ ev, o.act = .wrote ev → ev.isBackground)
    (h6 : ∀ ev, ev ∈ s.stdoutPending ∨ ev ∈ s.stderrPending → ev.isBackground)
    (h7 : s.selected = some .ctxDone → s.ctxDone = true) :
    (∀ o ∈ (perform w s e).trace, o.actor ≠ .primary →
        ∀ ev, o.act = .wrote ev → ev.isBackground)
      ∧ (∀ ev, ev ∈ (perform w s e).stdoutPending ∨ ev ∈ (perform w s e).stderrPending →
          ev.isBackground)
      ∧ ((perform w s e).selected = some .ctxDone → (perform w s e).ctxDone = true) := by
  obtain ⟨_, e2, _, e4, _, _, ⟨extra, e6, e6'⟩, e7⟩ := perform_frame w s e
  refine ⟨?_, ?_, ?_⟩
  · intro o ho hne
    rw [e6] at ho
    rcases List.mem_append.1 ho with ho | ho
    · exact h5 o ho hne
    · exact absurd (e6' o ho) hne
  · intro ev hev
    rcases e7 ev hev with h | h
    · exact h6 ev h
    · exact h
  · rw [e2, e4]; exact h7

theorem inv_resolve {p : Program} {s : State} {sel : Selected}
    (hsel : p.selects = true) (hb : byActor .primary s.trace = actsOf p.steps)
    (h5 : ∀ o ∈ s.trace, o.actor ≠ .primary → ∀ ev, o.act = .wrote ev → ev.isBackground)
    (h6 : ∀ ev, ev ∈ s.stdoutPending ∨ ev ∈ s.stderrPending → ev.isBackground)
    (h7 : sel = .ctxDone → s.ctxDone = true) : Inv p (s.resolve p sel) := by
  refine ⟨?_, ?_, ?_, ?_, h5, h6, ?_⟩
  · intro todo ht; simp [State.resolve] at ht
  · intro ht; simp [State.resolve] at ht
  · intro todo ht
    simp [State.resolve] at ht; subst ht
    exact ⟨hsel, sel, [], rfl, rfl, by simpa [State.resolve, actsOf] using hb⟩
  · intro c ht; simp [State.resolve] at ht
  · intro h
    simp [State.resolve] at h
    exact h7 h

theorem inv_emit {p : Program} {s : State} {a : Actor} {ev : ndjsonEvent}
    (h : Inv p s) (ha : a ≠ .primary) (hev : ev.isBackground) : Inv p (s.emit a ev) := by
  obtain ⟨h1, h2, h3, h4, h5, h6, h7⟩ := h
  have hne : ¬ (a = Actor.primary) := ha
  refine ⟨?_, ?_, ?_, ?_, ?_, h6, h7⟩
  · simpa [State.emit, State.writeEvent, byActor_snoc, hne] using h1
  · simpa [State.emit, State.writeEvent, byActor_snoc, hne] using h2
  · simpa [State.emit, State.writeEvent, byActor_snoc, hne] using h3
  · simpa [State.emit, State.writeEvent, byActor_snoc, hne] using h4
  · intro o ho hne' e he
    simp only [State.emit, State.writeEvent, List.mem_append, List.mem_singleton] at ho
    rcases ho with ho | ho
    · exact h5 o ho hne' e he
    · subst ho
      simp at he; subst he; exact hev

theorem inv_step {w : World} {p : Program} {req : runRequest} {s s' : State} {l : Label}
    (h : Inv p s) (ht : Trans w p req s l s') : Inv p s' := by
  obtain ⟨h1, h2, h3, h4, h5, h6, h7⟩ := h
  cases ht
  case tick dt => exact ⟨h1, h2, h3, h4, h5, h6, h7⟩
  case performRunning pick e rest hp =>
    obtain ⟨e1, e2, e3, e4, _, e5, _, _⟩ := perform_frame w { s with primary := .running rest } e
    obtain ⟨i5, i6, i7⟩ := inv_perform (w := w) (e := e)
      (s := { s with primary := .running rest }) h5 h6 h7
    obtain ⟨hsel, done, hd, hb⟩ := h1 _ hp
    refine ⟨?_, ?_, ?_, ?_, i5, i6, i7⟩
    · intro todo ht
      rw [e1] at ht
      simp at ht; subst ht
      rw [e2, e5]
      exact ⟨hsel, done ++ [e], by simp [hd], by simp [actsOf_append, hb]⟩
    · intro ht; rw [e1] at ht; simp at ht
    · intro todo ht; rw [e1] at ht; simp at ht
    · intro c ht; rw [e1] at ht; simp at ht
  case performFinishing pick e rest hp =>
    obtain ⟨e1, e2, e3, e4, _, e5, _, _⟩ := perform_frame w { s with primary := .finishing rest } e
    obtain ⟨i5, i6, i7⟩ := inv_perform (w := w) (e := e)
      (s := { s with primary := .finishing rest }) h5 h6 h7
    obtain ⟨hsel, sel, done, hs, hd, hb⟩ := h3 _ hp
    refine ⟨?_, ?_, ?_, ?_, i5, i6, i7⟩
    · intro todo ht; rw [e1] at ht; simp at ht
    · intro ht; rw [e1] at ht; simp at ht
    · intro todo ht
      rw [e1] at ht
      simp at ht; subst ht
      rw [e2, e5]
      exact ⟨hsel, sel, done ++ [e], hs, by simp [hd], by simp [actsOf_append, hb]⟩
    · intro c ht; rw [e1] at ht; simp at ht
  case selectCtx pick hp hsel hc =>
    obtain ⟨_, done, hd, hb⟩ := h1 _ hp
    simp at hd; subst hd
    exact inv_resolve hsel hb h5 h6 (fun _ => hc)
  case selectDone pick r hp hsel hr =>
    obtain ⟨_, done, hd, hb⟩ := h1 _ hp
    simp at hd; subst hd
    exact inv_resolve (s := { s with doneCh := none }) hsel hb h5 h6 (by simp)
  case selectPark pick hp hsel hc hr =>
    obtain ⟨hn, done, hd, hb⟩ := h1 _ hp
    simp at hd; subst hd
    refine ⟨?_, fun _ => ⟨hn, hsel, hb, hr, hc⟩, ?_, ?_, h5, h6, h7⟩
    · intro todo ht; simp at ht
    · intro todo ht; simp at ht
    · intro c ht; simp at ht
  case returnEarly pick hp hsel =>
    obtain ⟨hn, done, hd, hb⟩ := h1 _ hp
    simp at hd; subst hd
    refine ⟨?_, ?_, ?_, ?_, h5, h6, h7⟩
    · intro todo ht; simp at ht
    · intro ht; simp at ht
    · intro todo ht; simp at ht
    · intro c ht
      simp at ht
      exact ⟨ht.symm, .inl ⟨hsel, hn, hb⟩⟩
  case returnFinished pick hp =>
    obtain ⟨hsel, sel, done, hs, hd, hb⟩ := h3 _ hp
    simp at hd
    refine ⟨?_, ?_, ?_, ?_, h5, h6, h7⟩
    · intro todo ht; simp at ht
    · intro ht; simp at ht
    · intro todo ht; simp at ht
    · intro c ht
      simp at ht
      exact ⟨ht.symm, .inr ⟨hsel, sel, hs, by rw [hd]; exact hb⟩⟩
  case timerParked hp hc =>
    obtain ⟨hn, hsel, hb, hr, _⟩ := h2 hp
    exact inv_resolve (s := { s with ctxDone := true }) hsel hb h5 h6 (fun _ => rfl)
  case timer hp hc =>
    refine ⟨h1, fun ht => absurd ht hp, h3, h4, h5, h6, fun _ => rfl⟩
  case waitParked r hp hw hw' =>
    obtain ⟨hn, hsel, hb, hr, _⟩ := h2 hp
    exact inv_resolve (s := { s with waited := true }) hsel hb h5 h6 (by simp)
  case wait r hp hw hw' =>
    exact ⟨h1, fun ht => absurd ht hp, h3, h4, h5, h6, h7⟩
  case readerOut ev rest hp =>
    have hev : ev.isBackground := h6 ev (.inl (by simp [hp]))
    refine inv_emit ⟨h1, h2, h3, h4, h5, ?_, h7⟩ (by decide) hev
    intro e he
    exact h6 e (he.imp (fun h => by simp [hp, h]) id)
  case readerErr ev rest hp =>
    have hev : ev.isBackground := h6 ev (.inr (by simp [hp]))
    refine inv_emit ⟨h1, h2, h3, h4, h5, ?_, h7⟩ (by decide) hev
    intro e he
    exact h6 e (he.imp id (fun h => by simp [hp, h]))
  case heartbeat t ht hle =>
    exact inv_emit (s := { s with heartbeat := some (t + 5 * second) })
      ⟨h1, h2, h3, h4, h5, h6, h7⟩ (by decide) ⟨rfl, by simp [heartbeatEvent]⟩
  case watchdogKill t ht hle hgt =>
    refine ⟨?_, ?_, ?_, ?_, ?_, h6, h7⟩
    · simpa [State.kill, byActor_snoc] using h1
    · simpa [State.kill, byActor_snoc] using h2
    · simpa [State.kill, byActor_snoc] using h3
    · simpa [State.kill, byActor_snoc] using h4
    · intro o ho hne ev hev
      simp only [State.kill, List.mem_append, List.mem_singleton] at ho
      rcases ho with ho | ho
      · exact h5 o ho hne ev hev
      · subst ho; simp at hev
  case watchdogPass t ht hle hgt => exact ⟨h1, h2, h3, h4, h5, h6, h7⟩


theorem inv_init (p : Program) (req : runRequest) : Inv p (initState p req) := by
  refine ⟨?_, ?_, ?_, ?_, ?_, ?_, ?_⟩
  · intro todo h
    simp [initState] at h
    exact ⟨rfl, [], by simp [h], rfl⟩
  · intro h; simp [initState] at h
  · intro todo h; simp [initState] at h
  · intro c h; simp [initState] at h
  · intro o ho; simp [initState] at ho
  · intro ev hev; simp [initState] at hev
  · intro h; simp [initState] at h

theorem exec_cons {w : World} {p : Program} {req : runRequest} {s s' : State} {l : Label}
    {ls : List Label} (h : exec w p req s (l :: ls) = some s') :
    ∃ s1, step w p req s l = some s1 ∧ exec w p req s1 ls = some s' := by
  simp only [exec] at h
  split at h
  · exact ⟨_, by assumption, h⟩
  · simp at h

theorem exec_append {w : World} {p : Program} {req : runRequest} {s s' : State}
    {l1 l2 : List Label} (h : exec w p req s (l1 ++ l2) = some s') :
    ∃ s1, exec w p req s l1 = some s1 ∧ exec w p req s1 l2 = some s' := by
  induction l1 generalizing s with
  | nil => exact ⟨s, rfl, h⟩
  | cons l ls ih =>
    obtain ⟨s1, h1, h2⟩ := exec_cons h
    obtain ⟨s2, h3, h4⟩ := ih h2
    exact ⟨s2, by simp [exec, h1, h3], h4⟩

theorem exec_trans {w : World} {p : Program} {req : runRequest} {s s1 s2 : State}
    {l1 l2 : List Label} (h1 : exec w p req s l1 = some s1)
    (h2 : exec w p req s1 l2 = some s2) : exec w p req s (l1 ++ l2) = some s2 := by
  induction l1 generalizing s with
  | nil => simp [exec] at h1; subst h1; exact h2
  | cons l ls ih =>
    obtain ⟨s', h3, h4⟩ := exec_cons h1
    simp [exec, h3, ih h4]

theorem inv_exec {w : World} {p : Program} {req : runRequest} {s s' : State} {ls : List Label}
    (hi : Inv p s) (h : exec w p req s ls = some s') : Inv p s' := by
  induction ls generalizing s with
  | nil => simp [exec] at h; subst h; exact hi
  | cons l ls ih =>
    obtain ⟨s1, h1, h2⟩ := exec_cons h
    exact ih (inv_step hi (step_trans h1).2) h2

theorem selected_step {w : World} {p : Program} {req : runRequest} {s s' : State} {l : Label}
    (hi : Inv p s) (ht : Trans w p req s l s') {sel : Selected} (h : s.selected = some sel) :
    s'.selected = some sel := by
  obtain ⟨h1, h2, h3, h4, h5, h6, h7⟩ := hi
  cases ht
  case performRunning pick e rest hp =>
    rw [(perform_frame w _ e).2.1]; exact h
  case performFinishing pick e rest hp =>
    rw [(perform_frame w _ e).2.1]; exact h
  case selectCtx pick hp _ _ => simp [(h1 _ hp).1] at h
  case selectDone pick r hp _ _ => simp [(h1 _ hp).1] at h
  case timerParked hp _ => simp [(h2 hp).1] at h
  case waitParked r hp _ _ => simp [(h2 hp).1] at h
  all_goals exact h

theorem selected_exec {w : World} {p : Program} {req : runRequest} {s s' : State}
    {ls : List Label} (hi : Inv p s) (h : exec w p req s ls = some s') {sel : Selected}
    (hsel : s.selected = some sel) : s'.selected = some sel := by
  induction ls generalizing s with
  | nil => simp [exec] at h; subst h; exact hsel
  | cons l ls ih =>
    obtain ⟨s1, h1, h2⟩ := exec_cons h
    exact ih (inv_step hi (step_trans h1).2) h2 (selected_step hi (step_trans h1).2 hsel)

theorem wait_step {w : World} {p : Program} {req : runRequest} {s s' : State} {l : Label}
    (ht : Trans w p req s l s') (r : Option WaitError)
    (h : s'.selected = some (.doneCh r) ∨ s'.doneCh = some r) :
    (s.selected = some (.doneCh r) ∨ s.doneCh = some r) ∨ l = .wait r := by
  cases ht
  case performRunning pick e rest hp =>
    obtain ⟨_, e2, e3, _⟩ := perform_frame w { s with primary := .running rest } e
    rw [e2, e3] at h; exact .inl h
  case performFinishing pick e rest hp =>
    obtain ⟨_, e2, e3, _⟩ := perform_frame w { s with primary := .finishing rest } e
    rw [e2, e3] at h; exact .inl h
  case selectCtx pick hp _ _ => simp [State.resolve] at h; exact .inl (.inr h)
  case selectDone pick r' hp _ hr =>
    simp [State.resolve] at h; subst h; exact .inl (.inr hr)
  case timerParked hp _ => simp [State.resolve] at h; exact .inl (.inr h)
  case waitParked r' hp _ _ =>
    simp [State.resolve] at h
    rcases h with h | h
    · subst h; exact .inr rfl
    · exact .inl (.inr h)
  case wait r' hp _ _ =>
    simp at h
    rcases h with h | h
    · exact .inl (.inl h)
    · subst h; exact .inr rfl
  all_goals exact .inl h

theorem wait_exec {w : World} {p : Program} {req : runRequest} {s s' : State}
    {ls : List Label} (h : exec w p req s ls = some s') (r : Option WaitError)
    (hr : s'.selected = some (.doneCh r) ∨ s'.doneCh = some r) :
    (s.selected = some (.doneCh r) ∨ s.doneCh = some r) ∨ Label.wait r ∈ ls := by
  induction ls generalizing s with
  | nil => simp [exec] at h; subst h; exact .inl hr
  | cons l ls ih =>
    obtain ⟨s1, h1, h2⟩ := exec_cons h
    rcases ih h2 with h3 | h3
    · rcases wait_step (step_trans h1).2 r h3 with h4 | h4
      · exact .inl h4
      · exact .inr (by simp [h4])
    · exact .inr (by simp [h3])

/-! ## The line reader -/

theorem scanLines_line (maxTok : Nat) (l rest cur : List Char) (h : '\n' ∉ l) :
    scanLines maxTok cur (l ++ rest) = scanLines maxTok (cur ++ l) rest := by
  induction l generalizing cur with
  | nil => simp
  | cons c l ih =>
    have hc : c ≠ '\n' := fun e => h (by simp [e])
    have hl : '\n' ∉ l := fun e => h (by simp [e])
    have e : (c :: l) ++ rest = c :: (l ++ rest) := rfl
    rw [e, scanLines, if_neg hc, ih _ hl]
    simp

theorem scanLines_streamOf (maxTok : Nat) (lines : List (List Char)) (tail : List Char)
    (hl : ∀ l ∈ lines, '\n' ∉ l ∧ byteLen l < maxTok)
    (ht : '\n' ∉ tail) (hb : byteLen tail < maxTok) :
    scanLines maxTok [] (streamOf lines tail) = (linesOf lines tail).map dropCR := by
  induction lines with
  | nil =>
    have := scanLines_line maxTok tail [] [] ht
    simp only [List.append_nil, List.nil_append] at this
    simp only [streamOf, this, scanLines, linesOf, List.nil_append]
    by_cases h : tail = []
    · simp [h]
    · simp [h, Nat.not_le.2 hb]
  | cons l ls ih =>
    have h1 := hl l (by simp)
    have := scanLines_line maxTok l ('\n' :: streamOf ls tail) [] h1.1
    simp only [List.nil_append] at this
    simp only [streamOf, this, scanLines, if_true, Nat.not_le.2 h1.2, if_false]
    rw [ih (fun l' h' => hl l' (by simp [h']))]
    simp [linesOf]

theorem TrimRight_dropCR (l : List Char) :
    TrimRight (dropCR l) ['\r', '\n'] = stripLineEnding l := by
  have hp : (fun c : Char => decide (c ∈ ['\r', '\n'])) =
      (fun c => decide (c = '\r' ∨ c = '\n')) := by
    funext c; simp
  unfold TrimRight stripLineEnding dropCR
  rw [hp]
  split
  · rename_i h
    obtain ⟨l', rfl⟩ : ∃ l', l = l' ++ ['\r'] := by
      rcases List.eq_nil_or_concat l with h0 | ⟨l', a, h0⟩
      · subst h0; simp at h
      · subst h0; simp at h; exact ⟨l', by simp [h]⟩
    simp [List.rdropWhile_concat]
  · rfl

theorem lineEvent_dropCR (kind : String) (l : List Char) :
    lineEvent kind (dropCR l) =
      (if stripLineEnding l = [] then none
       else some { Action := "go", Event := kind, Data := String.mk (stripLineEnding l) }) := by
  simp only [lineEvent, TrimRight_dropCR]
  by_cases h : stripLineEnding l = [] <;> simp [h]

/-- C8: on a stream whose lines are all within the scanner bound, `read` emits
exactly the events the specification asks for: one per line that is non-empty
after stripping trailing carriage returns and newlines, in line order, tagged
with the channel kind, the data being the stripped line. -/
theorem read_emits_one_event_per_nonempty_line (kind : String) (lines : List (List Char))
    (tail : List Char) (hl : ∀ l ∈ lines, '\n' ∉ l ∧ byteLen l < maxTokenSize)
    (ht : '\n' ∉ tail) (hb : byteLen tail < maxTokenSize) :
    read kind (streamOf lines tail) = lineEventsSpec kind (linesOf lines tail) := by
  simp only [read, scanLines_streamOf maxTokenSize lines tail hl ht hb, lineEventsSpec,
    List.filterMap_map]
  congr 1
  funext l
  exact lineEvent_dropCR kind l

/-- C8 (witness): a stderr stream with a line ended by CR LF, an empty line, a line of
carriage returns, a plain line and an unterminated last line. -/
theorem read_emits_one_event_per_nonempty_line_witness :
    read "stderr" (streamOf ["warn\r".data, [], "\r\r".data, "a b".data] "end".data) =
      [ { Action := "go", Event := "stderr", Data := "warn" },
        { Action := "go", Event := "stderr", Data := "a b" },
        { Action := "go", Event := "stderr", Data := "end" } ] :=
  (read_emits_one_event_per_nonempty_line "stderr" ["warn\r".data, [], "\r\r".data, "a b".data]
    "end".data (by decide) (by decide) (by decide)).trans (by decide)

/-! ## The process launcher -/

theorem shellCommand_posix (goos cmdline : String) (h : goos ≠ "windows") :
    shellCommand goos cmdline =
      if cmdline = "" then execCommand "sh" ["-c", ":"]
      else execCommand "/bin/sh" ["-c", cmdline] := by
  simp [shellCommand, h]

theorem shellCommand_windows (cmdline : String) (h : cmdline ≠ "") :
    shellCommand "windows" cmdline = execCommand "cmd.exe" ["/d", "/s", "/c", cmdline] := by
  simp [shellCommand, h]

/-- C10: on Windows an empty command line is not given to `cmd.exe`.
`shellCommand` returns the POSIX no-op `sh -c :` for the empty command before it
looks at the platform, while a non-empty command on Windows is run as
`cmd.exe /d /s /c <command>`. -/
theorem shellCommand_empty_on_windows :
    shellCommand "windows" "" = { Path := "sh", Args := ["sh", "-c", ":"] } ∧
    (shellCommand "windows" "").Path ≠ "cmd.exe" ∧
    shellCommand "windows" "dir" =
      { Path := "cmd.exe", Args := ["cmd.exe", "/d", "/s", "/c", "dir"] } := by
  decide

theorem appendOverrides_eq (environ : List String) (overrides : List (String × String)) :
    appendOverrides environ overrides =
      environ ++ (overrides.filter (fun kv => kv.1 ≠ "")).map (fun kv => envEntry kv.1 kv.2) := by
  unfold appendOverrides
  induction overrides generalizing environ with
  | nil => simp
  | cons kv rest ih =>
    simp only [List.foldl_cons]
    rw [ih]
    by_cases h : kv.1 = "" <;> simp [h, List.filter_cons]

theorem takeWhile_eq_sign (l r : List Char) (h : '=' ∉ l) :
    (l ++ '=' :: r).takeWhile (fun c => c != '=') = l ∧
    (l ++ '=' :: r).dropWhile (fun c => c != '=') = '=' :: r := by
  induction l with
  | nil => simp
  | cons c l ih =>
    have hc : c ≠ '=' := fun e => h (by simp [e])
    have hl : '=' ∉ l := fun e => h (by simp [e])
    simp [List.takeWhile_cons, List.dropWhile_cons, hc, ih hl]

theorem splitEntry_envEntry (k v : String) (h : '=' ∉ k.data) :
    splitEntry (envEntry k v) = some (k, v) := by
  have hd : (envEntry k v).data = k.data ++ '=' :: v.data := by
    simp [envEntry, String.data_append]
  unfold splitEntry
  rw [hd, (takeWhile_eq_sign k.data v.data h).1, (takeWhile_eq_sign k.data v.data h).2]
  simp

/-- The step of `lookupEnv`. -/
theorem lookupEnv_append (a b : List String) (key : String) :
    lookupEnv (a ++ b) key =
      b.foldl (fun cur kv =>
        match splitEntry kv with
        | some (k, v) => if k = key then some v else cur
        | none => cur) (lookupEnv a key) := by
  simp [lookupEnv, List.foldl_append]

theorem lookup_overrides (overrides : List (String × String)) (key : String)
    (init : Option String) (heq : ∀ kv ∈ overrides, '=' ∉ kv.1.data) :
    (overrides.map (fun kv => envEntry kv.1 kv.2)).foldl (fun cur kv =>
        match splitEntry kv with
        | some (k, v) => if k = key then some v else cur
        | none => cur) init =
      overrides.foldl (fun cur kv => if kv.1 = key then some kv.2 else cur) init := by
  induction overrides generalizing init with
  | nil => rfl
  | cons kv rest ih =>
    simp only [List.map_cons, List.foldl_cons]
    rw [splitEntry_envEntry _ _ (heq kv (by simp))]
    exact ih _ (fun kv' h' => heq kv' (by simp [h']))

theorem foldl_absent (overrides : List (String × String)) (key : String) (init : Option String)
    (h : key ∉ overrides.map Prod.fst) :
    overrides.foldl (fun cur kv => if kv.1 = key then some kv.2 else cur) init = init := by
  induction overrides generalizing init with
  | nil => rfl
  | cons kv rest ih =>
    simp only [List.map_cons, List.mem_cons, not_or] at h
    simp only [List.foldl_cons, if_neg (Ne.symm h.1)]
    exact ih _ h.2

theorem foldl_present (overrides : List (String × String)) (key v : String)
    (init : Option String) (hn : (overrides.map Prod.fst).Nodup) (h : (key, v) ∈ overrides) :
    overrides.foldl (fun cur kv => if kv.1 = key then some kv.2 else cur) init = some v := by
  induction overrides generalizing init with
  | nil => simp at h
  | cons kv rest ih =>
    simp only [List.map_cons, List.nodup_cons] at hn
    simp only [List.foldl_cons]
    rcases List.mem_cons.1 h with h | h
    · subst h
      simp only [if_true]
      exact foldl_absent rest key _ hn.1
    · have hk : kv.1 ≠ key := by
        intro e
        exact hn.1 (e ▸ List.mem_map_of_mem Prod.fst h)
      simp only [if_neg hk]
      exact ih _ hn.2 h

/-- C9 (amended): when no override key contains `=`, the environment
`runStream` builds is the process environment followed by one entry per override
with a non-empty key, it maps every such key to its override value and every
other key to the value of the process environment; and without an `env` in the
request the child's environment stays unset. -/
theorem childEnv_layers_overrides (environ : List String) (overrides : List (String × String))
    (hn : (overrides.map Prod.fst).Nodup) (heq : ∀ kv ∈ overrides, '=' ∉ kv.1.data) :
    childEnv environ none = none ∧
    childEnv environ (some overrides) =
      some (environ ++ (overrides.filter (fun kv => kv.1 ≠ "")).map
        (fun kv => envEntry kv.1 kv.2)) ∧
    EnvLayered environ overrides (appendOverrides environ overrides) := by
  refine ⟨rfl, by simp [childEnv, appendOverrides_eq], ?_, ?_⟩
  · intro k v hkv hk
    rw [appendOverrides_eq, lookupEnv_append, lookup_overrides _ _ _
      (fun kv h => heq kv (List.mem_of_mem_filter h))]
    refine foldl_present _ k v _ ?_ (List.mem_filter.2 ⟨hkv, by simpa using hk⟩)
    exact (List.filter_sublist _).map Prod.fst |>.nodup hn
  · intro k hk
    rw [appendOverrides_eq, lookupEnv_append, lookup_overrides _ _ _
      (fun kv h => heq kv (List.mem_of_mem_filter h))]
    apply foldl_absent
    intro hmem
    obtain ⟨kv, hkv, rfl⟩ := List.mem_map.1 hmem
    have h1 := List.mem_filter.1 hkv
    exact (by simpa using h1.2 : kv.1 ≠ "") (hk kv.2 h1.1)

/-- C9 (witness): the process environment `PATH=/bin, HOME=/root` with overrides for
`HOME`, for the empty key and for `CI`. -/
theorem childEnv_layers_overrides_witness :
    childEnv ["PATH=/bin", "HOME=/root"] none = none ∧
    childEnv ["PATH=/bin", "HOME=/root"] (some [("HOME", "/tmp"), ("", "x"), ("CI", "1")]) =
      some (["PATH=/bin", "HOME=/root"] ++
        ([("HOME", "/tmp"), ("", "x"), ("CI", "1")].filter (fun kv => kv.1 ≠ "")).map
          (fun kv => envEntry kv.1 kv.2)) ∧
    EnvLayered ["PATH=/bin", "HOME=/root"] [("HOME", "/tmp"), ("", "x"), ("CI", "1")]
      (appendOverrides ["PATH=/bin", "HOME=/root"] [("HOME", "/tmp"), ("", "x"), ("CI", "1")]) :=
  childEnv_layers_overrides ["PATH=/bin", "HOME=/root"] [("HOME", "/tmp"), ("", "x"), ("CI", "1")]
    (by decide) (by decide)

/-- C9 (counterexample): with the process environment `A=1` and the override
`"A=B" ↦ "c"` the child's environment is `A=1, A=B=c`; the override key `A=B` has
no value in it and the variable `A`, which is no override key, has changed from
`1` to `B=c`. -/
theorem childEnv_override_key_with_equals_sign :
    ¬ EnvLayered ["A=1"] [("A=B", "c")] (appendOverrides ["A=1"] [("A=B", "c")]) ∧
    lookupEnv (appendOverrides ["A=1"] [("A=B", "c")]) "A=B" = none ∧
    lookupEnv ["A=1"] "A" = some "1" ∧
    lookupEnv (appendOverrides ["A=1"] [("A=B", "c")]) "A" = some "B=c" := by
  refine ⟨fun h => ?_, by decide, by decide, by decide⟩
  have h1 := h.1 "A=B" "c" (by simp) (by decide)
  revert h1
  decide

/-! ## Claim C1: the exit status is reported -/

theorem background_not_final {ev : ndjsonEvent} (h : ev.isBackground) : ev.isFinal = false := by
  simp [ndjsonEvent.isFinal, h.1]

theorem eventsOfActs_append (a b : List Act) :
    eventsOfActs (a ++ b) = eventsOfActs a ++ eventsOfActs b := by
  simp [eventsOfActs, List.filterMap_append]

theorem filter_events_primary (q : ndjsonEvent → Bool) (tr : List Obs)
    (hq : ∀ ev : ndjsonEvent, ev.isBackground → q ev = false)
    (h : ∀ o ∈ tr, o.actor ≠ .primary → ∀ ev, o.act = .wrote ev → ev.isBackground) :
    (eventsOf tr).filter q = (eventsOfActs (byActor .primary tr)).filter q := by
  induction tr with
  | nil => rfl
  | cons o tr ih =>
    have ih' := ih (fun o' ho' => h o' (by simp [ho']))
    have ho := h o (by simp)
    have e1 : eventsOf (o :: tr) = eventsOfActs [o.act] ++ eventsOf tr := by
      simp only [eventsOf, eventsOfActs, List.filterMap_cons]
      cases o.act <;> simp
    have e2 : byActor .primary (o :: tr) =
        (if o.actor = .primary then [o.act] else []) ++ byActor .primary tr := by
      unfold byActor
      by_cases ha : o.actor = .primary <;> simp [List.filter_cons, ha]
    rw [e1, e2, eventsOfActs_append, List.filter_append, List.filter_append, ih']
    congr 1
    by_cases ha : o.actor = .primary
    · simp [ha]
    · simp only [ha, if_false]
      cases hact : o.act with
      | killed t => simp [eventsOfActs]
      | wrote ev => simp [eventsOfActs, hq ev (ho ha ev hact)]

theorem finalEvents_primary {p : Program} {s : State} (hi : Inv p s) :
    finalEvents s.trace = (eventsOfActs (byActor .primary s.trace)).filter (fun ev => ev.isFinal) :=
  filter_events_primary _ _ (fun _ h => background_not_final h) hi.others

theorem events_sublist (a : Actor) (tr : List Obs) :
    (eventsOfActs (byActor a tr)).Sublist (eventsOf tr) := by
  induction tr with
  | nil => exact List.Sublist.refl _
  | cons o tr ih =>
    have e1 : eventsOf (o :: tr) = eventsOfActs [o.act] ++ eventsOf tr := by
      simp only [eventsOf, eventsOfActs, List.filterMap_cons]
      cases o.act <;> simp
    have e2 : byActor a (o :: tr) = (if o.actor = a then [o.act] else []) ++ byActor a tr := by
      unfold byActor
      by_cases ha : o.actor = a <;> simp [List.filter_cons, ha]
    rw [e1, e2, eventsOfActs_append]
    refine List.Sublist.append ?_ ih
    by_cases ha : o.actor = a
    · simp [ha]
    · simp [ha, eventsOfActs]

theorem actsOf_spawnSteps (req : runRequest) : actsOf (spawnSteps req) = [] := by
  unfold spawnSteps
  by_cases h : req.IdleTimeoutSec > 0 <;> simp [h, actsOf]

/-- A primary task that selects and has done nothing observable before: when it
has returned, its observable actions are those of the case the `select` took. -/
theorem returned_outcome {w : World} {p : Program} {req : runRequest} {ls : List Label}
    {s : State} {c : Int} (hsel : p.selects = true) (hsteps : actsOf p.steps = [])
    (hrun : exec w p req (initState p req) ls = some s) (hret : s.primary = .returned c) :
    c = p.ret ∧ ∃ sel, s.selected = some sel ∧
      byActor .primary s.trace = actsOf (p.finish sel) := by
  have hi := inv_exec (inv_init p req) hrun
  obtain ⟨hc, h | h⟩ := hi.returned c hret
  · simp [hsel] at h
  · obtain ⟨_, sel, h1, h2⟩ := h
    exact ⟨hc, sel, h1, by simpa [hsteps] using h2⟩

theorem outcomeOf_exited (n : Nat) :
    outcomeOf (.doneCh (cmdWait (.exited n))) = { ok := decide (n = 0), exitCode := n } := by
  by_cases h : n = 0
  · subst h; rfl
  · simp [cmdWait, ProcessState.Success, h, outcomeOf, ProcessState.ExitCode]

theorem outcomeOf_doneCh_reason (r : Option WaitError) :
    (outcomeOf (.doneCh r)).reason = "" := by
  rcases r with _ | (⟨_ | ps⟩ | msg) <;> rfl

theorem exec_step {w : World} {p : Program} {req : runRequest} {s s1 s2 : State} {l : Label}
    {ls : List Label} (h1 : step w p req s l = some s1) (h2 : exec w p req s1 ls = some s2) :
    exec w p req s (l :: ls) = some s2 := by
  simp [exec, h1, h2]

theorem perform_waitStarted (w : World) (s : State) (e : Effect) :
    (perform w s e).waitStarted = (s.waitStarted || decide (e = .goWait)) := by
  cases e
  case goRead b => cases b <;> simp [perform]
  all_goals simp [perform, State.writeEvent, State.kill]

/-- The primary task performs the effects it has before the `select`, one per
decision of the schedule. -/
theorem exec_running (w : World) (p : Program) (req : runRequest) (b : Bool) :
    ∀ (todo : List Effect) (s : State), s.primary = .running todo →
      ∃ s', exec w p req s (List.replicate todo.length (.primary b)) = some s' ∧
        s'.primary = .running [] ∧ s'.ctxDone = s.ctxDone ∧ s'.doneCh = s.doneCh ∧
        s'.waited = s.waited ∧
        s'.waitStarted = (s.waitStarted || decide (Effect.goWait ∈ todo)) := by
  intro todo
  induction todo with
  | nil => intro s hs; exact ⟨s, rfl, hs, rfl, rfl, rfl, by simp⟩
  | cons e rest ih =>
    intro s hs
    have hf := perform_frame w { s with primary := .running rest } e
    obtain ⟨s', h1, h2, h3, h4, h5, h6⟩ :=
      ih (perform w { s with primary := .running rest } e) hf.1
    refine ⟨s', ?_, h2, by rw [h3, hf.2.2.2.1], by rw [h4, hf.2.2.1],
      by rw [h5, hf.2.2.2.2.1], ?_⟩
    · have hstep : step w p req s (.primary b) =
          some (perform w { s with primary := .running rest } e) := by
        simp [step, hs, Primary.exited, stepPrimary]
      exact exec_step hstep h1
    · rw [h6, perform_waitStarted]
      cases s.waitStarted <;> by_cases he : e = .goWait <;>
        by_cases hr : Effect.goWait ∈ rest <;> simp [he, hr, eq_comm]

/-- The primary task performs what it has to do after the `select`, one effect per
decision of the schedule. -/
theorem exec_finishing (w : World) (p : Program) (req : runRequest) (b : Bool) :
    ∀ (todo : List Effect) (s : State), s.primary = .finishing todo →
      ∃ s', exec w p req s (List.replicate todo.length (.primary b)) = some s' ∧
        s'.primary = .finishing [] ∧ s'.ctxDone = s.ctxDone ∧ s'.selected = s.selected := by
  intro todo
  induction todo with
  | nil => intro s hs; exact ⟨s, rfl, hs, rfl, rfl⟩
  | cons e rest ih =>
    intro s hs
    have hf := perform_frame w { s with primary := .finishing rest } e
    obtain ⟨s', h1, h2, h3, h4⟩ := ih (perform w { s with primary := .finishing rest } e) hf.1
    refine ⟨s', ?_, h2, by rw [h3, hf.2.2.2.1], by rw [h4, hf.2.1]⟩
    have hstep : step w p req s (.primary b) =
        some (perform w { s with primary := .finishing rest } e) := by
      simp [step, hs, Primary.exited, stepPrimary]
    exact exec_step hstep h1

/-- A primary task that starts the wait task and then selects can return through
the completion case: there is a run in which the child completes with `r` while
the primary task is blocked in the `select`, the context is never done, and the
primary task returns. -/
theorem can_complete (w : World) (p : Program) (req : runRequest) (r : Option WaitError)
    (hsel : p.selects = true) (hwait : Effect.goWait ∈ p.steps)
    (hctx : (initState p req).ctxDone = false) :
    ∃ ls s, (∀ r', Label.wait r' ∈ ls → r' = r) ∧
      exec w p req (initState p req) ls = some s ∧ s.ctxDone = false ∧
      s.primary = .returned p.ret ∧ s.selected = some (.doneCh r) := by
  obtain ⟨s1, e1, p1, c1, d1, w1, ws1⟩ :=
    exec_running w p req false p.steps (initState p req) rfl
  have c1' : s1.ctxDone = false := by rw [c1, hctx]
  have d1' : s1.doneCh = none := by rw [d1]; rfl
  have w1' : s1.waited = false := by rw [w1]; rfl
  have ws1' : s1.waitStarted = true := by rw [ws1]; simp [hwait]
  have st2 : step w p req s1 (.primary false) = some { s1 with primary := .parked } := by
    simp [step, p1, Primary.exited, stepPrimary, hsel, select, c1', d1']
  have st3 : step w p req { s1 with primary := .parked } (.wait r) =
      some ({ s1 with primary := .parked, waited := true }.resolve p (.doneCh r)) := by
    simp [step, Primary.exited, stepWait, ws1', w1']
  obtain ⟨s4, e4, p4, c4, sel4⟩ := exec_finishing w p req false (p.finish (.doneCh r))
    ({ s1 with primary := .parked, waited := true }.resolve p (.doneCh r)) rfl
  have st5 : step w p req s4 (.primary false) = some { s4 with primary := .returned p.ret } := by
    simp [step, p4, Primary.exited, stepPrimary]
  refine ⟨List.replicate p.steps.length (.primary false) ++
      (.primary false :: .wait r ::
        (List.replicate (p.finish (.doneCh r)).length (.primary false) ++ [.primary false])),
    { s4 with primary := .returned p.ret }, ?_, ?_, ?_, rfl, ?_⟩
  · intro r' hr'
    simp only [List.mem_append, List.mem_replicate, List.mem_cons, List.mem_singleton,
      reduceCtorEq, and_false, false_or, or_false, Label.wait.injEq, List.not_mem_nil] at hr'
    exact hr'
  · exact exec_trans e1 (exec_step st2 (exec_step st3 (exec_trans e4 (exec_step st5 rfl))))
  · show s4.ctxDone = false
    rw [c4]; exact c1'
  · show s4.selected = _
    rw [sel4]; rfl

/-- C1: in both copies of `runStream`, when the child started, the deadline of
the context never fired and the child exited normally with status `n`, the one
terminal event of the stream is the `done` event with `exitCode = n`,
`ok = (n = 0)` and an empty reason; and unless the deadline has passed when the
request starts, each copy has such a run: one that returns after the child exited
with status `n`, with that terminal event. -/
theorem runStream_reports_exit_status (w : World) (req : runRequest) (p : Program) (n : Nat)
    (hp : p = runStream w req ∨ p = Legacy.runStream w req)
    (hstart : w.startErr = none) :
    (∀ (ls : List Label) (s : State) (c : Int),
      (∀ r, Label.wait r ∈ ls → r = cmdWait (.exited n)) →
      exec w p req (initState p req) ls = some s →
      s.ctxDone = false → s.primary = .returned c →
      finalEvents s.trace =
        [{ Action := "go", Event := "done", OK := some (decide (n = 0)), Exit := some (n : Int),
           Final := some true, Reason := "" }]) ∧
    (¬ (req.TimeoutSec > 0 ∧ seconds req.TimeoutSec ≤ 0) →
      ∃ (ls : List Label) (s : State),
        (∀ r, Label.wait r ∈ ls → r = cmdWait (.exited n)) ∧
        exec w p req (initState p req) ls = some s ∧
        s.ctxDone = false ∧ s.primary = .returned 0 ∧
        finalEvents s.trace =
          [{ Action := "go", Event := "done", OK := some (decide (n = 0)),
             Exit := some (n : Int), Final := some true, Reason := "" }]) := by
  have hps : p.selects = true ∧ p.steps = spawnSteps req ∧ p.ret = 0 ∧
      ∀ r, actsOf (p.finish (.doneCh r)) = [.wrote (doneEvent (outcomeOf (.doneCh r)))] := by
    rcases hp with hp | hp <;> subst hp
    · simp [runStream, hstart, finish, actsOf]
    · simp [Legacy.runStream, hstart, Legacy.finish, actsOf, doneEvent, outcomeOf_doneCh_reason]
  have main : ∀ (ls : List Label) (s : State) (c : Int),
      (∀ r, Label.wait r ∈ ls → r = cmdWait (.exited n)) →
      exec w p req (initState p req) ls = some s →
      s.ctxDone = false → s.primary = .returned c →
      finalEvents s.trace =
        [{ Action := "go", Event := "done", OK := some (decide (n = 0)), Exit := some (n : Int),
           Final := some true, Reason := "" }] := by
    intro ls s c hwait hrun hctx hret
    have hi := inv_exec (inv_init p req) hrun
    obtain ⟨_, sel, h1, h2⟩ := returned_outcome hps.1
      (by rw [hps.2.1]; exact actsOf_spawnSteps req) hrun hret
    cases sel with
    | ctxDone => simp [hi.ctx h1] at hctx
    | doneCh r =>
      rcases wait_exec hrun r (.inl h1) with h | h
      · simp [initState] at h
      · rw [finalEvents_primary hi, h2, hps.2.2.2 r, hwait r h, outcomeOf_exited]
        simp [eventsOfActs, doneEvent, ndjsonEvent.isFinal, boolPtr]
  refine ⟨main, fun hT => ?_⟩
  obtain ⟨ls, s, h1, h2, h3, h4, _⟩ := can_complete w p req (cmdWait (.exited n)) hps.1
    (by rw [hps.2.1]; simp [spawnSteps]) (by simpa [initState] using hT)
  rw [hps.2.2.1] at h4
  exact ⟨ls, s, h1, h2, h3, h4, main ls s 0 h1 h2 h3 h4⟩

/-- C1 (witness): the child prints two lines and exits with status 3 while the
primary task is blocked in the `select`, in the copy under `packages/cli` and in
the copy under `go/cmd/opd-go`. -/
theorem runStream_reports_exit_status_witness :
    finalEvents
        ((runOf demoWorld demoRequest demoExit3).get
            (by decide)).trace =
      [{ Action := "go", Event := "done", OK := some false, Exit := some 3,
         Final := some true, Reason := "" }] ∧
    finalEvents
        ((exec demoWorld (Legacy.runStream demoWorld demoRequest) demoRequest
            (initState (Legacy.runStream demoWorld demoRequest) demoRequest) demoExit3).get
            (by decide)).trace =
      [{ Action := "go", Event := "done", OK := some false, Exit := some 3,
         Final := some true, Reason := "" }] :=
  ⟨(runStream_reports_exit_status demoWorld demoRequest (runStream demoWorld demoRequest) 3
      (.inl rfl) rfl).1 demoExit3 _ 0
      (by intro r hr; simp [demoExit3] at hr; exact hr)
      (Option.some_get _).symm (by decide) (by decide),
   (runStream_reports_exit_status demoWorld demoRequest (Legacy.runStream demoWorld demoRequest) 3
      (.inr rfl) rfl).1 demoExit3 _ 0
      (by intro r hr; simp [demoExit3] at hr; exact hr)
      (Option.some_get _).symm (by decide) (by decide)⟩

/-! ## Claims C2 and C3: a signalled child, the deadline case -/

/-- When `runStream` of `packages/cli` has returned after a successful start, its
observable actions are those of the case its `select` took, and a completion it
took was delivered by the wait task. -/
theorem runStream_returned {w : World} {req : runRequest} {ls : List Label} {s : State}
    {c : Int} (hstart : w.startErr = none)
    (hrun : exec w (runStream w req) req (initState (runStream w req) req) ls = some s)
    (hret : s.primary = .returned c) :
    c = 0 ∧ ∃ sel, s.selected = some sel ∧ byActor .primary s.trace = actsOf (finish sel)
      ∧ ∀ r, sel = .doneCh r → Label.wait r ∈ ls := by
  have hps : (runStream w req).selects = true ∧ (runStream w req).steps = spawnSteps req
      ∧ (runStream w req).finish = finish ∧ (runStream w req).ret = 0 := by
    simp [runStream, hstart]
  obtain ⟨hc, sel, h1, h2⟩ := returned_outcome hps.1
    (by rw [hps.2.1]; exact actsOf_spawnSteps req) hrun hret
  refine ⟨by rw [hc, hps.2.2.2], sel, h1, by rw [h2, hps.2.2.1], ?_⟩
  intro r hr
  subst hr
  rcases wait_exec hrun r (.inl h1) with h | h
  · simp [initState] at h
  · exact h

theorem actsOf_finish_doneCh (r : Option WaitError) :
    actsOf (finish (.doneCh r)) = [.wrote (doneEvent (outcomeOf (.doneCh r)))] := by
  simp [finish, actsOf]

theorem actsOf_finish_ctxDone :
    actsOf (finish .ctxDone) =
      [.killed true, .wrote timeoutErrorEvent, .wrote timeoutDoneEvent] := by
  simp [finish, actsOf, doneEvent, outcomeOf, timeoutDoneEvent, boolPtr]

/-- The completion case for a child killed by a signal: failure with the `-1` of
`ProcessState.ExitCode()`. -/
theorem outcomeOf_signaled (sig : Nat) :
    outcomeOf (.doneCh (cmdWait (.signaled sig))) = { ok := false, exitCode := -1 } := rfl

/-- The completion case reports exit code 1 exactly for an error of `cmd.Wait` that
is no `*exec.ExitError`, or is one without a process state. -/
theorem outcomeOf_unobtainable (msg : String) :
    outcomeOf (.doneCh (some (.other msg))) = { ok := false, exitCode := 1 } ∧
    outcomeOf (.doneCh (some (.exitError none))) = { ok := false, exitCode := 1 } :=
  ⟨rfl, rfl⟩

/-- C2 (amended): in `runStream`, when the child started, was killed by a signal
and the `select` took its completion, the one terminal event of the stream is the
`done` event with `exitCode = -1`, the value of `ProcessState.ExitCode()`, and
`ok = false`. -/
theorem runStream_signaled_child (w : World) (req : runRequest) (ls : List Label) (s : State)
    (sig : Nat) (c : Int) (hstart : w.startErr = none)
    (hwait : ∀ r, Label.wait r ∈ ls → r = cmdWait (.signaled sig))
    (hrun : exec w (runStream w req) req (initState (runStream w req) req) ls = some s)
    (hdone : s.selected ≠ some .ctxDone) (hret : s.primary = .returned c) :
    finalEvents s.trace =
      [{ Action := "go", Event := "done", OK := some false, Exit := some (-1),
         Final := some true, Reason := "" }] := by
  have hi := inv_exec (inv_init _ req) hrun
  obtain ⟨_, sel, h1, h2, h3⟩ := runStream_returned hstart hrun hret
  cases sel with
  | ctxDone => exact absurd h1 hdone
  | doneCh r =>
    rw [finalEvents_primary hi, h2, actsOf_finish_doneCh, hwait r (h3 r rfl)]
    simp [eventsOfActs, doneEvent, ndjsonEvent.isFinal, boolPtr, cmdWait, ProcessState.Success,
      outcomeOf, ProcessState.ExitCode]

/-- C2 (witness): the child kills itself with signal 9 while the primary task is
blocked in the `select`. -/
theorem runStream_signaled_child_witness :
    finalEvents
        ((runOf demoSilentWorld demoKillRequest demoSignaled).get
            (by decide)).trace =
      [{ Action := "go", Event := "done", OK := some false, Exit := some (-1),
         Final := some true, Reason := "" }] :=
  runStream_signaled_child demoSilentWorld demoKillRequest demoSignaled _ 9 0 rfl
    (by intro r hr; simp [demoSignaled] at hr; exact hr)
    (Option.some_get _).symm (by decide) (by decide)

/-- C2 (counterexample): a child killed by signal 9 whose completion the `select`
takes: the run returns and its terminal event carries `exitCode = -1`, not 1. -/
theorem runStream_signaled_child_exit_code_not_one :
    (runOf demoSilentWorld demoKillRequest demoSignaled).map
      (fun s => (s.primary, (finalEvents s.trace).map (fun ev => (ev.Exit, ev.OK)))) =
      some (.returned 0, [(some (-1), some false)]) ∧
    (some (-1) : Option Int) ≠ some 1 := by
  decide

/-- C3 (amended): in `runStream` of `packages/cli`, when the child started and the
`select` took the deadline case, the primary task calls the process-tree
terminator, then writes the `error` event with reason `timeout`, then writes the
terminal `done` event with `exitCode = 124`, `ok = false`, reason `timeout`, and
does nothing else observable; the stream holds that one `error` event and that
one terminal event, in this order (events of the readers and of the heartbeat may
lie between them). -/
theorem runStream_deadline_case (w : World) (req : runRequest) (ls : List Label) (s : State)
    (c : Int) (hstart : w.startErr = none)
    (hrun : exec w (runStream w req) req (initState (runStream w req) req) ls = some s)
    (hsel : s.selected = some .ctxDone) (hret : s.primary = .returned c) :
    byActor .primary s.trace =
      [.killed true,
       .wrote { Action := "go", Event := "error", Error := "context deadline exceeded",
                Reason := "timeout" },
       .wrote { Action := "go", Event := "done", OK := some false, Exit := some 124,
                Final := some true, Reason := "timeout" }] ∧
    (eventsOf s.trace).filter (fun ev => ev.Event = "error") = [timeoutErrorEvent] ∧
    finalEvents s.trace = [timeoutDoneEvent] ∧
    [timeoutErrorEvent, timeoutDoneEvent].Sublist (eventsOf s.trace) := by
  have hi := inv_exec (inv_init _ req) hrun
  obtain ⟨_, sel, h1, h2, _⟩ := runStream_returned hstart hrun hret
  rw [hsel] at h1
  cases h1
  rw [actsOf_finish_ctxDone] at h2
  refine ⟨h2, ?_, ?_, ?_⟩
  · rw [filter_events_primary _ _ ?_ hi.others, h2]
    · decide
    · intro ev hev
      rcases hev.2 with h | h | h <;> simp [h]
  · rw [finalEvents_primary hi, h2]; decide
  · have := events_sublist .primary s.trace
    rw [h2] at this
    exact this

/-- C3 (witness): the run of the counterexample below, in which the deadline of a
one-second timeout fires while the child still prints. -/
theorem runStream_deadline_case_witness :
    [timeoutErrorEvent, timeoutDoneEvent].Sublist
      (eventsOf ((runOf demoLineWorld demoTimeoutRequest demoTimeout).get (by decide)).trace) :=
  (runStream_deadline_case demoLineWorld demoTimeoutRequest demoTimeout _ 0 rfl
    (Option.some_get _).symm (by decide) (by decide)).2.2.2

/-- C3 (counterexample): the child prints lines without end. The deadline of the
one-second timeout fires while the primary task is blocked in the `select`; the
primary task calls the terminator and writes the `error` event; the stdout reader
then emits a line it still holds; only then does the primary task write the
terminal event. The `error` event is not immediately followed by the terminal
event. -/
theorem runStream_deadline_error_not_adjacent :
    (runOf demoLineWorld demoTimeoutRequest demoTimeout).map
        (fun s => (s.primary, eventsOf s.trace)) =
      some (.returned 0,
        [{ Action := "go", Event := "stdout", Data := "y" },
         { Action := "go", Event := "stdout", Data := "y" },
         timeoutErrorEvent,
         { Action := "go", Event := "stdout", Data := "y" },
         timeoutDoneEvent]) ∧
    ¬ [timeoutErrorEvent, timeoutDoneEvent] <:+:
        [{ Action := "go", Event := "stdout", Data := "y" },
         { Action := "go", Event := "stdout", Data := "y" },
         timeoutErrorEvent,
         { Action := "go", Event := "stdout", Data := "y" },
         timeoutDoneEvent] := by
  decide

/-! ## Claim C7: the child fails to start -/

theorem quiet_step {w : World} {p : Program} {req : runRequest} {s s' : State} {l : Label}
    (hsel : p.selects = false) (hq : Quiet s) (ht : Trans w p req s l s') : Quiet s' := by
  obtain ⟨q1, q2, q3, q4, q5, q6, q7, q8⟩ := hq
  cases ht
  case tick dt => exact ⟨q1, q2, q3, q4, q5, q6, q7, q8⟩
  case performRunning pick e rest hp =>
    have he : e.isPlain = true := q7 _ hp e (by simp)
    have hr : ∀ e' ∈ rest, e'.isPlain = true := fun e' h' => q7 _ hp e' (by simp [h'])
    cases e <;> simp [Effect.isPlain] at he
    · refine ⟨q1, q2, q3, q4, q5, ?_, ?_, ?_⟩
      · intro o ho
        simp only [perform, State.writeEvent, List.mem_append, List.mem_singleton] at ho
        rcases ho with ho | ho
        · exact q6 o ho
        · subst ho; rfl
      · intro todo h; simp [perform, State.writeEvent] at h; subst h; exact hr
      · simp [perform, State.writeEvent]
    · refine ⟨q1, q2, q3, q4, q5, ?_, ?_, ?_⟩
      · intro o ho
        simp only [perform, State.kill, List.mem_append, List.mem_singleton] at ho
        rcases ho with ho | ho
        · exact q6 o ho
        · subst ho; rfl
      · intro todo h; simp [perform, State.kill] at h; subst h; exact hr
      · simp [perform, State.kill]
  case performFinishing pick e rest hp => exact absurd hp (q8.2 _)
  case selectCtx pick hp hs _ => simp [hsel] at hs
  case selectDone pick r hp hs _ => simp [hsel] at hs
  case selectPark pick hp hs _ _ => simp [hsel] at hs
  case returnEarly pick hp _ =>
    exact ⟨q1, q2, q3, q4, q5, q6, by simp, by simp⟩
  case returnFinished pick hp => exact absurd hp (q8.2 _)
  case timerParked hp _ => exact absurd hp q8.1
  case timer hp _ => exact ⟨q1, q2, q3, q4, q5, q6, q7, q8⟩
  case waitParked r hp _ _ => exact absurd hp q8.1
  case wait r hp hw _ => simp [q3] at hw
  case readerOut ev rest hp => simp [q4] at hp
  case readerErr ev rest hp => simp [q5] at hp
  case heartbeat t ht _ => simp [q1] at ht
  case watchdogKill t ht _ _ => simp [q2] at ht
  case watchdogPass t ht _ _ => simp [q2] at ht

theorem quiet_exec {w : World} {p : Program} {req : runRequest} {s s' : State}
    {ls : List Label} (hsel : p.selects = false) (hq : Quiet s)
    (h : exec w p req s ls = some s') : Quiet s' := by
  induction ls generalizing s with
  | nil => simp [exec] at h; subst h; exact hq
  | cons l ls ih =>
    obtain ⟨s1, h1, h2⟩ := exec_cons h
    exact ih (quiet_step hsel hq (step_trans h1).2) h2

theorem quiet_init (p : Program) (req : runRequest)
    (hp : ∀ e ∈ p.steps, e.isPlain = true) : Quiet (initState p req) := by
  refine ⟨rfl, rfl, rfl, rfl, rfl, ?_, ?_, ?_⟩
  · intro o ho; simp [initState] at ho
  · intro todo h; simp [initState] at h; subst h; exact hp
  · simp [initState]

theorem events_of_single_actor (a : Actor) (tr : List Obs) (h : ∀ o ∈ tr, o.actor = a) :
    eventsOf tr = eventsOfActs (byActor a tr) := by
  have : tr.filter (fun o => decide (o.actor = a)) = tr :=
    List.filter_eq_self.2 (fun o ho => by simp [h o ho])
  simp [eventsOf, eventsOfActs, byActor, this, List.filterMap_map, Function.comp_def]

/-- A run of `runStream` of `packages/cli` whose child failed to start and that
has returned: its stream, the actions of its primary task, its return value, and
that no other task exists. -/
theorem start_failed_run {w : World} {req : runRequest} {err : String} {ls : List Label}
    {s : State} {c : Int} (hstart : w.startErr = some err)
    (hrun : exec w (runStream w req) req (initState (runStream w req) req) ls = some s)
    (hret : s.primary = .returned c) :
    eventsOf s.trace =
      [{ Action := "go", Event := "error", Error := err, Reason := "start-failed" },
       failedEvent "start-failed"] ∧
    byActor .primary s.trace =
      [.wrote { Action := "go", Event := "error", Error := err, Reason := "start-failed" },
       .wrote (failedEvent "start-failed")] ∧
    c = 1 ∧ Quiet s := by
  have hps : (runStream w req).selects = false ∧ (runStream w req).ret = 1 ∧
      (runStream w req).steps =
        [.writeEvent { Action := "go", Event := "error", Error := err,
                       Reason := "start-failed" },
         .writeEvent (failedEvent "start-failed")] := by
    simp [runStream, hstart, failedEvent]
  have hi := inv_exec (inv_init _ req) hrun
  have hq := quiet_exec hps.1
    (quiet_init _ req (by rw [hps.2.2]; simp [Effect.isPlain])) hrun
  obtain ⟨hc, h | h⟩ := hi.returned c hret
  · have hb : byActor .primary s.trace =
        [.wrote { Action := "go", Event := "error", Error := err, Reason := "start-failed" },
         .wrote (failedEvent "start-failed")] := by
      rw [h.2.2, hps.2.2]; simp [actsOf]
    refine ⟨?_, hb, by rw [hc, hps.2.1], hq⟩
    rw [events_of_single_actor .primary _ hq.trace, hb]
    simp [eventsOfActs]
  · simp [hps.1] at h

/-- C7: in `runStream` of `packages/cli`, when the child fails to start, the
function returns 1 after three steps of the primary task; in every run that has
returned, the stream consists of exactly two events, the `error` event carrying
the start error and the terminal `done` event with `exitCode = 1`, `ok = false`,
reason `start-failed`, `final = true`; and no heartbeat ticker, idle watchdog,
reader or wait task has been created. -/
theorem runStream_start_failed (w : World) (req : runRequest) (err : String)
    (ls : List Label) (s : State) (c : Int) (hstart : w.startErr = some err)
    (hrun : exec w (runStream w req) req (initState (runStream w req) req) ls = some s)
    (hret : s.primary = .returned c) :
    eventsOf s.trace =
      [{ Action := "go", Event := "error", Error := err, Reason := "start-failed" },
       { Action := "go", Event := "done", OK := some false, Exit := some 1,
         Final := some true, Reason := "start-failed" }] ∧
    c = 1 ∧
    s.heartbeat = none ∧ s.watchdog = none ∧ s.waitStarted = false ∧
    s.stdoutPending = [] ∧ s.stderrPending = [] ∧
    (∃ s', exec w (runStream w req) req (initState (runStream w req) req)
        [.primary false, .primary false, .primary false] = some s' ∧
      s'.primary = .returned 1) := by
  obtain ⟨hev, _, hc, hq⟩ := start_failed_run hstart hrun hret
  refine ⟨hev, hc, hq.heartbeat, hq.watchdog, hq.waitStarted, hq.stdoutPending,
    hq.stderrPending, ?_⟩
  simp [exec, step, stepPrimary, initState, runStream, hstart, perform, Primary.exited,
    State.writeEvent]

/-- C7 (witness): the working directory of the request does not exist, so that
`cmd.Start` fails. -/
theorem runStream_start_failed_witness :
    eventsOf ((runOf demoNoStartWorld demoBadDirRequest demoNoStart).get
          (by decide)).trace =
      [{ Action := "go", Event := "error",
         Error := "chdir /nonexistent: no such file or directory", Reason := "start-failed" },
       { Action := "go", Event := "done", OK := some false, Exit := some 1,
         Final := some true, Reason := "start-failed" }] :=
  (runStream_start_failed demoNoStartWorld demoBadDirRequest _ demoNoStart _ 1 rfl
    (Option.some_get _).symm (by decide)).1

/-! ## Claim C5: one terminal event -/

theorem oneFinalLast_append (pre : List ndjsonEvent) (last : ndjsonEvent)
    (hpre : ∀ ev ∈ pre, ev.isFinal = false) (hlast : last.isFinal = true) :
    OneFinalLast (pre ++ [last]) := by
  have : pre.filter (fun ev => ev.isFinal) = [] := List.filter_eq_nil_iff.2 (by simpa using hpre)
  simp [OneFinalLast, List.filter_append, this, hlast]

theorem failure_pair (pre : List ndjsonEvent) (msg reason : String)
    (hpre : ∀ ev ∈ pre, ev.isFinal = false) :
    OneFinalLast (pre ++ [errorEvent msg, failedEvent reason]) := by
  have := oneFinalLast_append (pre ++ [errorEvent msg]) (failedEvent reason)
    (by
      intro ev hev
      rcases List.mem_append.1 hev with h | h
      · exact hpre ev h
      · simp at h; subst h; rfl) rfl
  simpa using this

theorem archiveDir_oneFinalLast (name status : String) (fs : ArchiveWorld) (src dest : String) :
    OneFinalLast (archiveDir name status fs src dest).1 := by
  unfold archiveDir
  split
  · exact failure_pair [] _ _ (by simp)
  · split
    · exact failure_pair [statusEvent status] _ _ (by simp [statusEvent, ndjsonEvent.isFinal])
    · rcases hw : fs.walkErr with _ | err
      · exact oneFinalLast_append [statusEvent status] _
          (by simp [statusEvent, ndjsonEvent.isFinal]) rfl
      · exact oneFinalLast_append [statusEvent status, errorEvent err] _
          (by simp [statusEvent, errorEvent, ndjsonEvent.isFinal]) rfl

theorem checksumFile_oneFinalLast (fs : ChecksumWorld) (path algo : String) :
    OneFinalLast (checksumFile fs path algo).1 := by
  unfold checksumFile
  rcases ho : fs.openErr with _ | e1 <;> rcases hc : fs.copyErr with _ | e2 <;>
    split_ifs <;>
    simp [OneFinalLast, ndjsonEvent.isFinal, errorEvent, failedEvent, statusEvent, boolPtr,
      List.filter] <;>
    split_ifs <;> simp [List.filter]

theorem uploadAll_failure (nw : NetlifyWorld) (files : List String)
    (r : List ndjsonEvent × Ended) (h : uploadAll nw files = some r) :
    (∃ msg, r = ([errorEvent msg, failedEvent ""], .returned false)) ∨
    (r = ([], .panicked) ∧ ∃ f, nw.upload f = .noRequest) := by
  induction files with
  | nil => simp [uploadAll] at h
  | cons f rest ih =>
    simp only [uploadAll] at h
    split at h
    · exact .inl ⟨_, by simpa using h.symm⟩
    · rename_i hf
      exact .inr ⟨by simpa using h.symm, f, hf⟩
    · exact .inl ⟨_, by simpa using h.symm⟩
    · split at h
      · exact .inl ⟨_, by simpa using h.symm⟩
      · exact ih h

theorem pollLoop_failure (polls : List PollResult) (r : List ndjsonEvent × Ended)
    (h : pollLoop polls = .error r) :
    (∃ e d, r = ([e, d], .returned false) ∧ e.isFinal = false ∧ e.Event = "error" ∧
      d.Event = "done" ∧ d.isFinal = true ∧ d.OK = some false ∧ d.Exit.isSome = true) ∨
    (r = ([], .panicked) ∧ PollResult.noRequest ∈ polls) := by
  induction polls with
  | nil =>
    simp only [pollLoop, Except.error.injEq] at h
    exact .inl ⟨_, _, h.symm, rfl, rfl, rfl, rfl, rfl, rfl⟩
  | cons p rest ih =>
    have hrest : pollLoop rest = .error r →
        (∃ e d, r = ([e, d], .returned false) ∧ e.isFinal = false ∧ e.Event = "error" ∧
          d.Event = "done" ∧ d.isFinal = true ∧ d.OK = some false ∧ d.Exit.isSome = true) ∨
        (r = ([], .panicked) ∧ PollResult.noRequest ∈ p :: rest) := by
      intro h'
      rcases ih h' with h1 | ⟨h1, h2⟩
      · exact .inl h1
      · exact .inr ⟨h1, List.mem_cons_of_mem _ h2⟩
    cases p with
    | noRequest =>
      simp only [pollLoop, Except.error.injEq] at h
      exact .inr ⟨h.symm, List.mem_cons_self _ _⟩
    | failed => exact hrest (by simpa [pollLoop] using h)
    | response status final =>
      simp only [pollLoop] at h
      split at h
      · exact hrest h
      · split at h
        · simp at h
        · split at h
          · simp only [Except.error.injEq] at h
            exact .inl ⟨_, _, h.symm, rfl, rfl, rfl, rfl, rfl, rfl⟩
          · exact hrest h

/-- When `netlifyDeployDir` returns, the events it has written hold exactly one
terminal event, which is the last; when it panics, a request could not be built
and no terminal event has been written. -/
theorem netlifyDeployDir_oneFinalLast (nw : NetlifyWorld) (req : runRequest) :
    (∀ ok, (netlifyDeployDir nw req).2 = .returned ok →
      OneFinalLast (netlifyDeployDir nw req).1) ∧
    ((netlifyDeployDir nw req).2 = .panicked →
      ¬ nw.requestsMade ∧ ∀ ev ∈ (netlifyDeployDir nw req).1, ev.isFinal = false) := by
  have hs : ∀ d : String, (statusEvent d).isFinal = false := fun _ => rfl
  have fail : ∀ (pre : List ndjsonEvent) (msg reason : String),
      (∀ ev ∈ pre, ev.isFinal = false) →
      (∀ ok, ((pre ++ [errorEvent msg, failedEvent reason], Ended.returned false) :
          List ndjsonEvent × Ended).2 = .returned ok →
        OneFinalLast (pre ++ [errorEvent msg, failedEvent reason])) ∧
      (((pre ++ [errorEvent msg, failedEvent reason], Ended.returned false) :
          List ndjsonEvent × Ended).2 = .panicked →
        ¬ nw.requestsMade ∧
          ∀ ev ∈ pre ++ [errorEvent msg, failedEvent reason], ev.isFinal = false) :=
    fun pre msg reason hpre => ⟨fun _ _ => failure_pair pre msg reason hpre, fun h => by simp at h⟩
  unfold netlifyDeployDir
  split
  · exact fail [] _ _ (by simp)
  · split
    · exact fail [] _ _ (by simp)
    · split
      · exact fail [statusEvent "hashing"] _ _ (by simp [hs])
      · simp only
        split
        · rename_i hcreate
          refine ⟨fun ok h => by simp at h, fun _ => ⟨fun hm => hm.1 hcreate, ?_⟩⟩
          simp [hs]
        · exact fail [statusEvent "hashing", statusEvent "creating"] _ _ (by simp [hs])
        · rename_i status body created _
          split
          · exact fail [statusEvent "hashing", statusEvent "creating"] _ _ (by simp [hs])
          · have hhead : ∀ ev ∈ [statusEvent "hashing", statusEvent "creating"] ++
                (if created.Required.length > 0 then
                  [statusEvent ("uploading " ++ toString created.Required.length)]
                 else []), ev.isFinal = false := by
              intro ev hev
              rcases List.mem_append.1 hev with h | h
              · simp at h; rcases h with h | h <;> subst h <;> exact hs _
              · split at h
                · simp at h; subst h; exact hs _
                · simp at h
            split
            · rename_i r hup
              rcases uploadAll_failure _ _ _ hup with ⟨msg, rfl⟩ | ⟨rfl, f, hf⟩
              · exact fail _ _ _ hhead
              · refine ⟨fun ok h => by simp at h, fun _ => ⟨fun hm => hm.2.1 f hf, ?_⟩⟩
                simpa using hhead
            · split
              · rename_i r hpoll
                rcases pollLoop_failure _ _ hpoll with
                  ⟨e, last, rfl, he, _, _, hlast, _, _⟩ | ⟨rfl, hmem⟩
                · refine ⟨fun _ _ => ?_, fun h => by simp at h⟩
                  have := oneFinalLast_append (([statusEvent "hashing", statusEvent "creating"] ++
                    (if created.Required.length > 0 then
                      [statusEvent ("uploading " ++ toString created.Required.length)]
                     else [])) ++ [statusEvent "finalizing", e]) last
                    (by
                      intro ev hev
                      rcases List.mem_append.1 hev with h | h
                      · exact hhead ev h
                      · simp at h; rcases h with h | h <;> simp [h, hs, he]) hlast
                  simpa using this
                · refine ⟨fun ok h => by simp at h, fun _ => ⟨fun hm => hm.2.2 hmem, ?_⟩⟩
                  intro ev hev
                  simp only [List.append_nil] at hev
                  rcases List.mem_append.1 hev with h | h
                  · exact hhead ev h
                  · simp at h; simp [h, hs]
              · refine ⟨fun _ _ => ?_, fun h => by simp at h⟩
                have key : ∀ d : ndjsonEvent, d.isFinal = true →
                    OneFinalLast (([statusEvent "hashing", statusEvent "creating"] ++
                      (if created.Required.length > 0 then
                        [statusEvent ("uploading " ++ toString created.Required.length)]
                       else [])) ++ [statusEvent "finalizing", d]) := by
                  intro d hd
                  have := oneFinalLast_append (([statusEvent "hashing", statusEvent "creating"] ++
                    (if created.Required.length > 0 then
                      [statusEvent ("uploading " ++ toString created.Required.length)]
                     else [])) ++ [statusEvent "finalizing"]) d
                    (by
                      intro ev hev
                      rcases List.mem_append.1 hev with h | h
                      · exact hhead ev h
                      · simp at h; simp [h, hs]) hd
                  simpa using this
                refine key _ ?_
                rfl

/-- When every request can be built, `netlifyDeployDir` returns. -/
theorem netlifyDeployDir_returns (nw : NetlifyWorld) (req : runRequest)
    (h : nw.requestsMade) : ∃ ok, (netlifyDeployDir nw req).2 = .returned ok := by
  cases hr : (netlifyDeployDir nw req).2 with
  | returned ok => exact ⟨ok, rfl⟩
  | panicked => exact absurd h ((netlifyDeployDir_oneFinalLast nw req).2 hr).1

theorem actsOf_finish (sel : Selected) :
    ∃ pre, actsOf (finish sel) = pre ++ [.wrote (doneEvent (outcomeOf sel))] ∧
      ∀ ev ∈ eventsOfActs pre, ev.isFinal = false := by
  cases sel with
  | ctxDone =>
    exact ⟨[.killed true, .wrote timeoutErrorEvent], by simp [finish, actsOf],
      by simp [eventsOfActs, timeoutErrorEvent, ndjsonEvent.isFinal]⟩
  | doneCh r => exact ⟨[], by simp [finish, actsOf], by simp [eventsOfActs]⟩

/-- In every run of `runStream` of `packages/cli` that has returned, the stream
holds exactly one terminal event, and it is the last action of the primary task;
when the child failed to start it is also the last event of the stream. -/
theorem runStream_one_final {w : World} {req : runRequest} {ls : List Label} {s : State}
    {c : Int}
    (hrun : exec w (runStream w req) req (initState (runStream w req) req) ls = some s)
    (hret : s.primary = .returned c) :
    (∃ d, finalEvents s.trace = [d] ∧ (byActor .primary s.trace).getLast? = some (.wrote d)) ∧
    (w.startErr ≠ none → OneFinalLast (eventsOf s.trace)) := by
  have hi := inv_exec (inv_init _ req) hrun
  rcases hstart : w.startErr with _ | err
  · obtain ⟨_, sel, _, h2, _⟩ := runStream_returned hstart hrun hret
    obtain ⟨pre, h3, h4⟩ := actsOf_finish sel
    refine ⟨⟨doneEvent (outcomeOf sel), ?_, by rw [h2, h3]; simp⟩, by simp⟩
    have hpre : (eventsOfActs pre).filter (fun ev => ev.isFinal) = [] :=
      List.filter_eq_nil_iff.2 (by simpa using h4)
    rw [finalEvents_primary hi, h2, h3, eventsOfActs_append, List.filter_append, hpre]
    simp [eventsOfActs, doneEvent, ndjsonEvent.isFinal, boolPtr]
  · obtain ⟨hev, hb, _⟩ := start_failed_run hstart hrun hret
    refine ⟨⟨failedEvent "start-failed", ?_, ?_⟩, fun _ => ?_⟩
    · show (eventsOf s.trace).filter _ = [failedEvent "start-failed"]
      rw [hev]; simp [failedEvent, ndjsonEvent.isFinal, boolPtr, List.filter]
    · rw [hb]; simp
    · rw [hev]; simp [OneFinalLast, failedEvent, boolPtr, ndjsonEvent.isFinal, List.filter]

/-- C5 (amended): for every request with a recognised action the handler writes
exactly one terminal event. For `zip-dir`, `tar-dir`, `checksum-file` and
`netlify-deploy-dir` (the latter when each of its HTTP requests can be built, so
that the handler returns), and for a run whose child fails to start, it is the
last event written. For a run whose child started, the stream of every run that
has returned holds exactly one terminal event and it is the last action of the
primary task (events of the readers and of the heartbeat may be written after
it). -/
theorem one_terminal_event_per_request (w : World) (cw : Collaborators) (req : runRequest) :
    (cw.netlify.requestsMade →
      req.Action ∈ ["zip-dir", "tar-dir", "checksum-file", "netlify-deploy-dir"] →
      ∃ evs st, dispatch w cw req = .direct evs st ∧ OneFinalLast evs) ∧
    (∀ evs st, dispatch w cw req = .direct evs st → OneFinalLast evs) ∧
    (∀ p, dispatch w cw req = .stream p →
      ∀ ls s c, exec w p req (initState p req) ls = some s → s.primary = .returned c →
        (∃ d, finalEvents s.trace = [d] ∧
          (byActor .primary s.trace).getLast? = some (.wrote d)) ∧
        (w.startErr ≠ none → OneFinalLast (eventsOf s.trace))) ∧
    (req.Action ∈ ["run", "run-stream", "zip-dir", "tar-dir", "checksum-file",
        "netlify-deploy-dir"] → ∀ st, dispatch w cw req ≠ .unknown st) := by
  have hdirect : ∀ evs st, dispatch w cw req = .direct evs st → OneFinalLast evs := by
    intro evs st h
    unfold dispatch at h
    split_ifs at h
    · simp only [directResult, Dispatch.direct.injEq, reduceCtorEq] at h
      rw [← h.1]; exact archiveDir_oneFinalLast _ _ _ _ _
    · simp only [directResult, Dispatch.direct.injEq, reduceCtorEq] at h
      rw [← h.1]; exact archiveDir_oneFinalLast _ _ _ _ _
    · simp only [directResult, Dispatch.direct.injEq, reduceCtorEq] at h
      rw [← h.1]; exact checksumFile_oneFinalLast _ _ _
    · cases hr : (netlifyDeployDir cw.netlify req).2 with
      | returned ok =>
        simp only [endedResult, hr, directResult, Dispatch.direct.injEq] at h
        rw [← h.1]; exact (netlifyDeployDir_oneFinalLast _ _).1 ok hr
      | panicked => simp [endedResult, hr] at h
  refine ⟨?_, hdirect, ?_, ?_⟩
  · intro hm h
    have : ∃ evs st, dispatch w cw req = .direct evs st := by
      obtain ⟨ok, hok⟩ := netlifyDeployDir_returns cw.netlify req hm
      simp only [List.mem_cons, List.mem_singleton, List.not_mem_nil, or_false] at h
      unfold dispatch
      rcases h with h | h | h | h <;> simp [h, directResult, endedResult, hok]
    obtain ⟨evs, st, hd⟩ := this
    exact ⟨evs, st, hd, hdirect evs st hd⟩
  · intro p h ls s c hrun hret
    have hp : p = runStream w req := by
      unfold dispatch at h
      split_ifs at h
      · simp only [runStreamPTY, Dispatch.stream.injEq] at h; exact h.symm
      · simp only [runStreamPTY, Dispatch.stream.injEq] at h; exact h.symm
      · simp [directResult] at h
      · simp [directResult] at h
      · simp [directResult] at h
      · cases hr : (netlifyDeployDir cw.netlify req).2 <;>
          simp [endedResult, hr, directResult] at h
    subst hp
    exact runStream_one_final hrun hret
  · intro h st
    unfold dispatch
    simp only [List.mem_cons, List.mem_singleton, List.not_mem_nil, or_false] at h
    rcases h with h | h | h | h | h | h <;> simp [h, directResult, endedResult] <;>
      split <;> simp

/-- C5 (witness): a `zip-dir` request whose walk fails, a `netlify-deploy-dir`
request whose create call fails, and the run of the counterexample below. -/
theorem one_terminal_event_per_request_witness :
    OneFinalLast (zipDir { walkErr := some "permission denied" } "site" "site.zip" "").1 ∧
    (∃ evs st, dispatch demoWorld { netlify := { token := "t", create := .failed "EOF" } }
        { Action := "netlify-deploy-dir", Src := "site", Site := "example" } = .direct evs st ∧
      OneFinalLast evs) ∧
    ∃ d, finalEvents ((runOf demoWorld demoPrintRequest demoLateLine).get
          (by decide)).trace = [d] :=
  ⟨(one_terminal_event_per_request demoWorld { archive := { walkErr := some "permission denied" } }
      { Action := "zip-dir", Src := "site", Dest := "site.zip" }).2.1 _ _ rfl,
   (one_terminal_event_per_request demoWorld { netlify := { token := "t", create := .failed "EOF" } }
      { Action := "netlify-deploy-dir", Src := "site", Site := "example" }).1
      ⟨by simp, fun f => by simp, by simp⟩ (by simp),
   let ⟨d, h, _⟩ := ((one_terminal_event_per_request demoWorld {} demoPrintRequest).2.2.1
      (runStream demoWorld demoPrintRequest) rfl demoLateLine _ 0 (Option.some_get _).symm
      (by decide)).1
   ⟨d, h⟩⟩

/-- C5 (counterexample): the child prints two lines and exits with status 0
while the stdout reader still holds the second line. The primary task writes the
terminal event, the reader emits the second line, then the primary task
returns: an event follows the terminal event. -/
theorem terminal_event_followed_by_line :
    (runOf demoWorld demoPrintRequest demoLateLine).map
      (fun s => (s.primary, eventsOf s.trace)) =
      some (.returned 0,
        [{ Action := "go", Event := "stdout", Data := "a" },
         { Action := "go", Event := "done", OK := some true, Exit := some 0,
           Final := some true },
         { Action := "go", Event := "stdout", Data := "b" }]) ∧
    ¬ OneFinalLast
        [{ Action := "go", Event := "stdout", Data := "a" },
         { Action := "go", Event := "done", OK := some true, Exit := some 0,
           Final := some true },
         { Action := "go", Event := "stdout", Data := "b" }] := by
  decide

/-! ## Claim C6: completion and deadline -/

/-- Once the wait task has delivered, its result is in the channel or has been
taken by the `select`. -/
theorem waited_step {w : World} {p : Program} {req : runRequest} {s s' : State} {l : Label}
    (hi : Inv p s) (ht : Trans w p req s l s')
    (h : s.waited = true → (∃ r, s.doneCh = some r) ∨ ∃ r, s.selected = some (.doneCh r)) :
    s'.waited = true → (∃ r, s'.doneCh = some r) ∨ ∃ r, s'.selected = some (.doneCh r) := by
  cases ht
  case performRunning pick e rest hp =>
    obtain ⟨_, e2, e3, _, e5, _⟩ := perform_frame w { s with primary := .running rest } e
    rw [e2, e3, e5]; exact h
  case performFinishing pick e rest hp =>
    obtain ⟨_, e2, e3, _, e5, _⟩ := perform_frame w { s with primary := .finishing rest } e
    rw [e2, e3, e5]; exact h
  case selectCtx pick hp _ _ =>
    intro hw
    rcases h hw with h | ⟨r, h⟩
    · exact .inl h
    · simp [(hi.running _ hp).1] at h
  case selectDone pick r hp _ _ => intro _; exact .inr ⟨r, rfl⟩
  case timerParked hp _ =>
    intro hw
    rcases h hw with ⟨r, h⟩ | ⟨r, h⟩
    · simp [(hi.parked hp).2.2.2.1] at h
    · simp [(hi.parked hp).1] at h
  case waitParked r hp _ _ => intro _; exact .inr ⟨r, rfl⟩
  case wait r hp _ _ => intro _; exact .inl ⟨r, rfl⟩
  all_goals exact h

theorem waited_exec {w : World} {p : Program} {req : runRequest} {s : State} {ls : List Label}
    (h : exec w p req (initState p req) ls = some s) :
    s.waited = true → (∃ r, s.doneCh = some r) ∨ ∃ r, s.selected = some (.doneCh r) := by
  suffices H : ∀ s0 : State, Inv p s0 →
      (s0.waited = true → (∃ r, s0.doneCh = some r) ∨ ∃ r, s0.selected = some (.doneCh r)) →
      exec w p req s0 ls = some s →
      (s.waited = true → (∃ r, s.doneCh = some r) ∨ ∃ r, s.selected = some (.doneCh r)) from
    H _ (inv_init p req) (by simp [initState]) h
  clear h
  induction ls with
  | nil => intro s0 _ h0 he; simp [exec] at he; subst he; exact h0
  | cons l ls ih =>
    intro s0 hi h0 he
    obtain ⟨s1, h1, h2⟩ := exec_cons he
    exact ih s1 (inv_step hi (step_trans h1).2) (waited_step hi (step_trans h1).2 h0) h2

/-- C6 (amended): in `runStream`, if at some point of a run the child has
completed and been waited for, the deadline has not expired, and the primary task
has reached the `select` (it is not among the statements before it), then
whatever happens afterwards, also the expiry of the deadline, the primary task
when it has returned has done nothing but write the terminal event of the
child's completion, with an empty reason: it has not called the terminator, and
the stream holds that one terminal event. -/
theorem runStream_completion_before_deadline (w : World) (req : runRequest)
    (ls1 ls2 : List Label) (s1 s2 : State) (c : Int) (hstart : w.startErr = none)
    (hrun1 : exec w (runStream w req) req (initState (runStream w req) req) ls1 = some s1)
    (hwaited : s1.waited = true) (hctx : s1.ctxDone = false)
    (hselect : s1.primary.beforeSelect = false)
    (hrun2 : exec w (runStream w req) req s1 ls2 = some s2)
    (hret : s2.primary = .returned c) :
    ∃ r, Label.wait r ∈ ls1 ∧
      byActor .primary s2.trace = [.wrote (doneEvent (outcomeOf (.doneCh r)))] ∧
      (outcomeOf (.doneCh r)).reason = "" ∧
      finalEvents s2.trace = [doneEvent (outcomeOf (.doneCh r))] := by
  have hi1 := inv_exec (inv_init _ req) hrun1
  have hsel : (runStream w req).selects = true := by simp [runStream, hstart]
  have hrun : exec w (runStream w req) req (initState (runStream w req) req) (ls1 ++ ls2)
      = some s2 := exec_trans hrun1 hrun2
  have hi2 := inv_exec (inv_init _ req) hrun
  -- at `s1` the `select` has taken the completion
  obtain ⟨r, hr⟩ : ∃ r, s1.selected = some (.doneCh r) := by
    have hsome : ∃ sel, s1.selected = some sel := by
      rcases hp : s1.primary with todo | _ | todo | c1
      · simp [hp, Primary.beforeSelect] at hselect
      · rcases waited_exec hrun1 hwaited with ⟨r, h⟩ | ⟨r, h⟩
        · simp [(hi1.parked hp).2.2.2.1] at h
        · exact ⟨_, h⟩
      · obtain ⟨_, sel, _, h, _⟩ := hi1.finishing todo hp
        exact ⟨sel, h⟩
      · obtain ⟨_, h | h⟩ := hi1.returned c1 hp
        · simp [hsel] at h
        · obtain ⟨_, sel, h, _⟩ := h
          exact ⟨sel, h⟩
    obtain ⟨sel, h⟩ := hsome
    cases sel with
    | ctxDone => simp [hi1.ctx h] at hctx
    | doneCh r => exact ⟨r, h⟩
  have hr2 := selected_exec hi1 hrun2 hr
  obtain ⟨_, sel, h1, h2, _⟩ := runStream_returned hstart hrun hret
  rw [hr2] at h1
  cases h1
  refine ⟨r, ?_, by rw [h2, actsOf_finish_doneCh], outcomeOf_doneCh_reason r, ?_⟩
  · rcases wait_exec hrun1 r (.inl hr) with h | h
    · simp [initState] at h
    · exact h
  · rw [finalEvents_primary hi2, h2, actsOf_finish_doneCh]
    simp [eventsOfActs, doneEvent, ndjsonEvent.isFinal, boolPtr]

/-- C6 (witness): the child exits with status 0 while the primary task is blocked in
the `select`; the deadline fires before the primary task writes the terminal event. -/
theorem runStream_completion_before_deadline_witness :
    ∃ r, Label.wait r ∈ demoParked ∧
      byActor .primary
          ((runOf demoSilentWorld demoQuickRequest (demoParked ++ demoParkedRest)).get
            (by decide)).trace =
        [.wrote (doneEvent (outcomeOf (.doneCh r)))] ∧
      (outcomeOf (.doneCh r)).reason = "" ∧
      finalEvents
          ((runOf demoSilentWorld demoQuickRequest (demoParked ++ demoParkedRest)).get
            (by decide)).trace =
        [doneEvent (outcomeOf (.doneCh r))] :=
  runStream_completion_before_deadline demoSilentWorld demoQuickRequest demoParked demoParkedRest
    ((runOf demoSilentWorld demoQuickRequest demoParked).get (by decide)) _ 0 rfl
    (Option.some_get _).symm (by decide) (by decide) (by decide) (by decide) (by decide)

/-- C6 (counterexample): a request with a one-second timeout whose child exits
with status 0 and is waited for before the primary task has reached the `select`.
The wait result is then in the channel and the deadline has not expired; a
microsecond later the deadline fires; the primary task then evaluates the `select`
with both cases ready and takes the deadline case. It calls the terminator and
the terminal event reports `exitCode = 124` with reason `timeout`. -/
theorem runStream_completion_lost_to_deadline :
    (runOf demoSilentWorld demoQuickRequest demoSlowStart).map
      (fun s => (s.waited, s.doneCh, s.ctxDone)) = some (true, some none, false) ∧
    (runOf demoSilentWorld demoQuickRequest (demoSlowStart ++ demoSlowSelect)).map
      (fun s => (s.primary, byActor .primary s.trace, finalEvents s.trace)) =
      some (.returned 0,
        [.killed true, .wrote timeoutErrorEvent, .wrote timeoutDoneEvent],
        [timeoutDoneEvent]) := by
  decide

/-! ## Claim C4: the idle watchdog and the heartbeat -/

theorem atSecond_le {a b : Nat} (h : a ≤ b) : atSecond a ≤ atSecond b := by
  unfold atSecond second; omega

theorem atSecond_add (a b : Nat) : atSecond a + (b : Int) * second = atSecond (a + b) := by
  unfold atSecond second; push_cast; ring

theorem step_tick_eq (w : World) (p : Program) (req : runRequest) {s : State} (dt : Nat)
    (ha : s.primary.exited = false) :
    step w p req s (.tick dt) = some { s with now := s.now + dt } := by
  simp [step, ha]

theorem step_heartbeat_eq (w : World) (p : Program) (req : runRequest) {s : State} {t : Int}
    (ha : s.primary.exited = false) (ht : s.heartbeat = some t) (hd : t ≤ s.now) :
    step w p req s .heartbeat =
      some ({ s with heartbeat := some (t + 5 * second) }.emit .heartbeat
        (heartbeatEvent w s.lastActivity)) := by
  simp [step, ha, stepHeartbeat, ht, hd]

theorem step_watchdog_pass (w : World) (p : Program) (req : runRequest) {s : State} {t : Int}
    (ha : s.primary.exited = false) (ht : s.watchdog = some t) (hd : t ≤ s.now)
    (hn : s.now - s.lastActivity ≤ seconds req.IdleTimeoutSec) :
    step w p req s .watchdog = some { s with watchdog := some (t + 2 * second) } := by
  simp [step, ha, stepWatchdog, ht, hd, not_lt.2 hn]

theorem punctual_second (w : World) (p : Program) (req : runRequest) {k : Nat} {s : State}
    (hidle : 5 * second ≤ seconds req.IdleTimeoutSec) (h : Punctual k s) :
    ∃ s', exec w p req s (quietSecond (k + 1)) = some s' ∧ Punctual (k + 1) s' := by
  obtain ⟨h1, h2, h3, h4, h5, h6⟩ := h
  have hnow : s.now + ((1000000000 : Nat) : Int) = atSecond (k + 1) := by
    rw [h1]; unfold atSecond second; push_cast; ring
  have e5 : ∀ n : Nat, atSecond n + 5 * second = atSecond (n + 5) := fun n => atSecond_add n 5
  have e2 : ∀ n : Nat, atSecond n + 2 * second = atSecond (n + 2) := fun n => atSecond_add n 2
  have hgap : atSecond (k + 1) - atSecond (5 * (k / 5)) ≤ 5 * second := by
    unfold atSecond second; omega
  have t1 := step_tick_eq w p req 1000000000 h5
  by_cases c5 : (k + 1) % 5 = 0 <;> by_cases c2 : (k + 1) % 2 = 0
  · -- heartbeat and watchdog
    have t2 := step_heartbeat_eq w p req
      (s := { s with now := s.now + ((1000000000 : Nat) : Int) }) h5 h2
      (by show _ ≤ s.now + _; rw [hnow]; exact atSecond_le (by omega))
    have t3 := step_watchdog_pass w p req
      (s := { s with now := s.now + ((1000000000 : Nat) : Int),
                     heartbeat := some (atSecond (5 * (k / 5) + 5) + 5 * second) }.emit
              .heartbeat (heartbeatEvent w s.lastActivity)) h5 h3
      (by show _ ≤ s.now + _; rw [hnow]; exact atSecond_le (by omega))
      (by show s.now + _ - (s.now + _) ≤ _; unfold second at hidle; omega)
    have hq : quietSecond (k + 1) = [.tick 1000000000, .heartbeat, .watchdog] := by
      simp [quietSecond, c5, c2]
    refine ⟨_, by rw [hq]; exact exec_step t1 (exec_step t2 (exec_step t3 rfl)), ?_⟩
    refine ⟨hnow, ?_, ?_, ?_, h5, ?_⟩
    · show some (atSecond (5 * (k / 5) + 5) + 5 * second) = _
      rw [e5]; congr 2; omega
    · show some (atSecond (2 * (k / 2) + 2) + 2 * second) = _
      rw [e2]; congr 2; omega
    · show _ ≤ s.now + _
      rw [hnow]; exact atSecond_le (by omega)
    · simp [State.emit, State.writeEvent, byActor_snoc, h6]
  · -- heartbeat only
    have t2 := step_heartbeat_eq w p req
      (s := { s with now := s.now + ((1000000000 : Nat) : Int) }) h5 h2
      (by show _ ≤ s.now + _; rw [hnow]; exact atSecond_le (by omega))
    have hq : quietSecond (k + 1) = [.tick 1000000000, .heartbeat] := by
      simp [quietSecond, c5, c2]
    refine ⟨_, by rw [hq]; exact exec_step t1 (exec_step t2 rfl), ?_⟩
    refine ⟨hnow, ?_, ?_, ?_, h5, ?_⟩
    · show some (atSecond (5 * (k / 5) + 5) + 5 * second) = _
      rw [e5]; congr 2; omega
    · show s.watchdog = _
      rw [h3]; congr 2; omega
    · show _ ≤ s.now + _
      rw [hnow]; exact atSecond_le (by omega)
    · simp [State.emit, State.writeEvent, byActor_snoc, h6]
  · -- watchdog only
    have t3 := step_watchdog_pass w p req
      (s := { s with now := s.now + ((1000000000 : Nat) : Int) }) h5 h3
      (by show _ ≤ s.now + _; rw [hnow]; exact atSecond_le (by omega))
      (by
        show s.now + _ - s.lastActivity ≤ _
        rw [hnow]
        have := hgap
        omega)
    have hq : quietSecond (k + 1) = [.tick 1000000000, .watchdog] := by
      simp [quietSecond, c5, c2]
    refine ⟨_, by rw [hq]; exact exec_step t1 (exec_step t3 rfl), ?_⟩
    refine ⟨hnow, ?_, ?_, ?_, h5, h6⟩
    · show s.heartbeat = _
      rw [h2]; congr 2; omega
    · show some (atSecond (2 * (k / 2) + 2) + 2 * second) = _
      rw [e2]; congr 2; omega
    · show _ ≤ s.lastActivity
      exact le_trans (atSecond_le (by omega)) h4
  · -- neither
    have hq : quietSecond (k + 1) = [.tick 1000000000] := by
      simp [quietSecond, c5, c2]
    refine ⟨_, by rw [hq]; exact exec_step t1 rfl, ?_⟩
    refine ⟨hnow, ?_, ?_, ?_, h5, h6⟩
    · show s.heartbeat = _
      rw [h2]; congr 2; omega
    · show s.watchdog = _
      rw [h3]; congr 2; omega
    · show _ ≤ s.lastActivity
      exact le_trans (atSecond_le (by omega)) h4

theorem punctual_seconds (w : World) (p : Program) (req : runRequest) {s : State}
    (hidle : 5 * second ≤ seconds req.IdleTimeoutSec) (h : Punctual 0 s) (n : Nat) :
    ∃ s', exec w p req s (quietSeconds n) = some s' ∧ Punctual n s' := by
  induction n with
  | zero => exact ⟨s, rfl, h⟩
  | succ n ih =>
    obtain ⟨s1, h1, hp1⟩ := ih
    obtain ⟨s2, h2, hp2⟩ := punctual_second w p req hidle hp1
    exact ⟨s2, exec_trans h1 h2, hp2⟩

/-- C4: the request `idleTimeoutSec = 10` with a child that prints its last line
at time 0 and then runs silently. With punctual tickers the watchdog has not
called the terminator after any number `n` of seconds, in particular not at 12
seconds (the claimed bound `t + I + 2`): every heartbeat goes through `emit` and
moves `lastActivity`, so that `now - lastActivity` never exceeds five seconds. -/
theorem idle_watchdog_defeated_by_heartbeat (n : Nat) :
    (runOf demoHiWorld demoIdleRequest (demoIdleStart ++ quietSeconds n)).map
      (fun s => (s.now, byActor .watchdog s.trace, s.primary.exited)) =
      some ((n : Int) * 1000000000, [], false) := by
  have h0 : Punctual 0 ((runOf demoHiWorld demoIdleRequest demoIdleStart).get (by decide)) :=
    ⟨by decide, by decide, by decide, by decide, by decide, by decide⟩
  obtain ⟨s', h1, hp⟩ := punctual_seconds demoHiWorld
    (runStream demoHiWorld demoIdleRequest) demoIdleRequest (by decide) h0 n
  have h2 : runOf demoHiWorld demoIdleRequest (demoIdleStart ++ quietSeconds n) = some s' :=
    exec_trans (Option.some_get _).symm h1
  rw [h2]
  simp [hp.now, hp.quiet, hp.alive, atSecond, second]

/-! ## Claims C11 and C12: the process and its exit status -/

theorem reportedOK_append (pre : List ndjsonEvent) (d : ndjsonEvent) :
    reportedOK (pre ++ [d]) = d.OK := by
  simp [reportedOK]

theorem reportedOK_hello (goVersion : String) (evs : List ndjsonEvent) (h : evs ≠ []) :
    reportedOK ([helloEvent goVersion] ++ evs) = reportedOK evs := by
  cases evs with
  | nil => exact absurd rfl h
  | cons a l => simp [reportedOK, List.getLast?_cons_cons]

theorem endsWithErrorDone_append (pre : List ndjsonEvent) (e d : ndjsonEvent)
    (he : e.Event = "error") (hd : d.Event = "done") (hf : d.isFinal = true)
    (hok : d.OK = some false) (hx : d.Exit.isSome = true) :
    EndsWithErrorDone (pre ++ [e, d]) := by
  simp [EndsWithErrorDone, he, hd, hf, hok, hx]

theorem failure_pair_ends (pre : List ndjsonEvent) (msg reason : String) :
    EndsWithErrorDone (pre ++ [errorEvent msg, failedEvent reason]) :=
  endsWithErrorDone_append pre _ _ rfl rfl rfl rfl rfl

/-- `archiveDir` returns what its last event reports, and a failure ends with an
`error` event and the terminal event. -/
theorem archiveDir_report (name status : String) (fs : ArchiveWorld) (src dest : String) :
    reportedOK (archiveDir name status fs src dest).1 = some (archiveDir name status fs src dest).2
    ∧ ((archiveDir name status fs src dest).2 = false →
        EndsWithErrorDone (archiveDir name status fs src dest).1) := by
  unfold archiveDir
  split
  · exact ⟨rfl, fun _ => failure_pair_ends [] _ _⟩
  · rcases hc : fs.createErr with _ | err
    · rcases hw : fs.walkErr with _ | err
      · exact ⟨rfl, fun h => by simp at h⟩
      · refine ⟨rfl, fun _ => ?_⟩
        exact endsWithErrorDone_append [statusEvent status] _ _ rfl rfl rfl rfl rfl
    · exact ⟨rfl, fun _ => failure_pair_ends [statusEvent status] _ _⟩

theorem checksumFile_report (fs : ChecksumWorld) (path algo : String) :
    reportedOK (checksumFile fs path algo).1 = some (checksumFile fs path algo).2
    ∧ ((checksumFile fs path algo).2 = false → EndsWithErrorDone (checksumFile fs path algo).1) := by
  unfold checksumFile
  rcases ho : fs.openErr with _ | e1 <;> rcases hc : fs.copyErr with _ | e2 <;>
    split_ifs <;>
    simp [reportedOK, EndsWithErrorDone, ndjsonEvent.isFinal, errorEvent, failedEvent,
      statusEvent, boolPtr, intPtr] <;>
    split_ifs <;> simp [intPtr]

/-- When `netlifyDeployDir` returns, it returns what its last event reports, and
a failure ends with an `error` event and the terminal event. -/
theorem netlifyDeployDir_report (nw : NetlifyWorld) (req : runRequest) (ok : Bool)
    (h : (netlifyDeployDir nw req).2 = .returned ok) :
    reportedOK (netlifyDeployDir nw req).1 = some ok
    ∧ (ok = false → EndsWithErrorDone (netlifyDeployDir nw req).1) := by
  have fail : ∀ (pre : List ndjsonEvent) (msg reason : String),
      (((pre ++ [errorEvent msg, failedEvent reason], Ended.returned false) :
          List ndjsonEvent × Ended).2 = .returned ok) →
      reportedOK (pre ++ [errorEvent msg, failedEvent reason]) = some ok ∧
        (ok = false → EndsWithErrorDone (pre ++ [errorEvent msg, failedEvent reason])) := by
    intro pre msg reason hk
    have hok : ok = false := by simpa using hk.symm
    subst hok
    refine ⟨?_, fun _ => failure_pair_ends pre msg reason⟩
    have := reportedOK_append (pre ++ [errorEvent msg]) (failedEvent reason)
    simpa [failedEvent] using this
  revert h
  unfold netlifyDeployDir
  split
  · exact fail [] _ _
  · split
    · exact fail [] _ _
    · split
      · exact fail [statusEvent "hashing"] _ _
      · simp only
        split
        · intro h; simp at h
        · exact fail [statusEvent "hashing", statusEvent "creating"] _ _
        · rename_i status body created _
          split
          · exact fail [statusEvent "hashing", statusEvent "creating"] _ _
          · split
            · rename_i r hup
              rcases uploadAll_failure _ _ _ hup with ⟨msg, rfl⟩ | ⟨rfl, _⟩
              · exact fail _ _ _
              · intro h; simp at h
            · split
              · rename_i r hpoll
                rcases pollLoop_failure _ _ hpoll with
                  ⟨e, d, rfl, _, he, hd, hf, hok, hx⟩ | ⟨rfl, _⟩
                · intro h
                  have hk : ok = false := by simpa using h.symm
                  subst hk
                  refine ⟨?_, fun _ => ?_⟩
                  · have := reportedOK_append (([statusEvent "hashing", statusEvent "creating"] ++
                      (if created.Required.length > 0 then
                        [statusEvent ("uploading " ++ toString created.Required.length)]
                       else [])) ++ [statusEvent "finalizing", e]) d
                    simpa [hok] using this
                  · have := endsWithErrorDone_append (([statusEvent "hashing",
                      statusEvent "creating"] ++
                      (if created.Required.length > 0 then
                        [statusEvent ("uploading " ++ toString created.Required.length)]
                       else [])) ++ [statusEvent "finalizing"]) e d he hd hf hok hx
                    simpa using this
                · intro h; simp at h
              · intro h
                have hk : ok = true := by simpa using h.symm
                subst hk
                refine ⟨?_, fun h => by simp at h⟩
                have key : ∀ d : ndjsonEvent, reportedOK (([statusEvent "hashing",
                    statusEvent "creating"] ++
                    (if created.Required.length > 0 then
                      [statusEvent ("uploading " ++ toString created.Required.length)]
                     else [])) ++ [statusEvent "finalizing", d]) = d.OK := by
                  intro d
                  have := reportedOK_append (([statusEvent "hashing", statusEvent "creating"] ++
                    (if created.Required.length > 0 then
                      [statusEvent ("uploading " ++ toString created.Required.length)]
                     else [])) ++ [statusEvent "finalizing"]) d
                  simpa using this
                exact key _

/-- Every sequential handler `main` dispatches to, when it returns, returns what
its last event reports, and its failure ends with an `error` event and the
terminal event. -/
theorem dispatch_direct_report {w : World} {c : Collaborators} {req : runRequest}
    {evs : List ndjsonEvent} {st : Int} (h : dispatch w c req = .direct evs st) :
    ∃ ok, reportedOK evs = some ok ∧ st = (if ok then 0 else 1)
      ∧ (ok = false → EndsWithErrorDone evs) ∧ evs ≠ [] := by
  have hne : ∀ l : List ndjsonEvent, (∃ ok, reportedOK l = some ok) → l ≠ [] := by
    intro l ⟨ok, hl⟩ hnil
    subst hnil
    simp [reportedOK] at hl
  unfold dispatch at h
  split_ifs at h
  · simp only [directResult, Dispatch.direct.injEq, reduceCtorEq] at h
    obtain ⟨h1, h2⟩ := archiveDir_report "zip-dir" "zipping" c.archive req.Src req.Dest
    exact ⟨_, h.1 ▸ h1, by rw [← h.2]; rfl, fun hf => h.1 ▸ h2 hf, hne _ ⟨_, h.1 ▸ h1⟩⟩
  · simp only [directResult, Dispatch.direct.injEq, reduceCtorEq] at h
    obtain ⟨h1, h2⟩ := archiveDir_report "tar-dir" "tarring" c.archive req.Src req.Dest
    exact ⟨_, h.1 ▸ h1, by rw [← h.2]; rfl, fun hf => h.1 ▸ h2 hf, hne _ ⟨_, h.1 ▸ h1⟩⟩
  · simp only [directResult, Dispatch.direct.injEq, reduceCtorEq] at h
    obtain ⟨h1, h2⟩ := checksumFile_report c.checksum req.Src req.Algo
    exact ⟨_, h.1 ▸ h1, by rw [← h.2], fun hf => h.1 ▸ h2 hf, hne _ ⟨_, h.1 ▸ h1⟩⟩
  · cases hr : (netlifyDeployDir c.netlify req).2 with
    | returned ok =>
      simp only [endedResult, hr, directResult, Dispatch.direct.injEq] at h
      obtain ⟨h1, h2⟩ := netlifyDeployDir_report c.netlify req ok hr
      exact ⟨ok, h.1 ▸ h1, by rw [← h.2], fun hf => h.1 ▸ h2 hf, hne _ ⟨_, h.1 ▸ h1⟩⟩
    | panicked => simp [endedResult, hr] at h

/-- A sequential handler returns when each HTTP request of `netlifyDeployDir` can
be built. -/
theorem dispatch_handled (w : World) (c : Collaborators) (req : runRequest)
    (hm : c.netlify.requestsMade)
    (h : req.Action ∈ ["zip-dir", "tar-dir", "checksum-file", "netlify-deploy-dir"]) :
    ∃ evs st, dispatch w c req = .direct evs st := by
  obtain ⟨ok, hok⟩ := netlifyDeployDir_returns c.netlify req hm
  simp only [List.mem_cons, List.mem_singleton, List.not_mem_nil, or_false] at h
  unfold dispatch
  rcases h with h | h | h | h <;> simp [h, directResult, endedResult, hok]

/-- A handler panics only in `netlifyDeployDir`, when a request cannot be built;
no terminal event has been written then. -/
theorem dispatch_panicked {w : World} {c : Collaborators} {req : runRequest}
    {evs : List ndjsonEvent} (h : dispatch w c req = .panicked evs) :
    req.Action = "netlify-deploy-dir" ∧ ¬ c.netlify.requestsMade ∧
      ∀ ev ∈ evs, ev.isFinal = false := by
  unfold dispatch at h
  split_ifs at h with h1 h2 h3 h4 h5 h6
  · simp [directResult] at h
  · simp [directResult] at h
  · simp [directResult] at h
  · cases hr : (netlifyDeployDir c.netlify req).2 with
    | returned ok => simp [endedResult, hr, directResult] at h
    | panicked =>
      simp only [endedResult, hr, Dispatch.panicked.injEq] at h
      obtain ⟨ha, hb⟩ := (netlifyDeployDir_oneFinalLast c.netlify req).2 hr
      exact ⟨by assumption, ha, h ▸ hb⟩

theorem dispatch_stream (w : World) (c : Collaborators) (req : runRequest)
    (h : req.Action = "run-stream" ∨ req.Action = "run") :
    dispatch w c req = .stream (runStream w req) := by
  unfold dispatch
  rw [if_pos h]
  cases req.Pty <;> simp [runStreamPTY]

theorem dispatch_unknown (w : World) (c : Collaborators) (req : runRequest)
    (h : req.Action ∉ ["run", "run-stream", "zip-dir", "tar-dir", "checksum-file",
      "netlify-deploy-dir"]) : dispatch w c req = .unknown 2 := by
  simp only [List.mem_cons, List.mem_singleton, List.not_mem_nil, or_false, not_or] at h
  unfold dispatch
  simp [h]

theorem skipSpace_fixed {l : List Nat} {b : Nat} {rest : List Nat}
    (h : skipSpace l = b :: rest) : skipSpace (b :: rest) = b :: rest := by
  induction l with
  | nil => simp [skipSpace] at h
  | cons a l ih =>
    simp only [skipSpace] at h
    split at h
    · exact ih h
    · rename_i ha
      cases h
      simp [skipSpace, ha]

theorem scanLiteral_null {input rest : List Nat}
    (h : scanLiteral [117, 108, 108] input = .ok rest) : input = 117 :: 108 :: 108 :: rest := by
  rcases input with _ | ⟨a, _ | ⟨b, _ | ⟨c, r⟩⟩⟩ <;> simp only [scanLiteral] at h <;>
    try (split_ifs at h <;> simp_all [scanLiteral])
  all_goals simp_all

theorem map_ok {α β : Type} {x : Except DecodeError α} {f : α → β} {y : β}
    (h : x.map f = .ok y) : ∃ a, y = f a := by
  cases x with
  | error e => simp [Except.map] at h
  | ok a => exact ⟨a, by simpa [Except.map] using h.symm⟩

/-- A value the scanner delimits is an object behind `{`, or `null`, or a value
that cannot be stored in a request. -/
theorem scanValue_start (legacy : Bool) (fuel depth : Nat) (input : List Nat)
    (vr : JValue × List Nat) (h : scanValue fuel depth input = .ok vr) :
    (∃ rest, skipSpace input = 123 :: rest) ∨
    (∃ rest, skipSpace input = 110 :: 117 :: 108 :: 108 :: rest) ∨
    unmarshal legacy vr.1 = .error .mismatch := by
  cases fuel with
  | zero => simp [scanValue] at h
  | succ fuel =>
    simp only [scanValue] at h
    split at h
    · simp at h
    · rename_i b rest hs
      by_cases h1 : b = 123
      · exact .inl ⟨rest, by rw [hs, h1]⟩
      rw [if_neg h1] at h
      by_cases h2 : b = 91
      · rw [if_pos h2] at h
        right; right
        split_ifs at h
        split at h
        · simp at h
        · split_ifs at h
          · cases h; rfl
          · obtain ⟨a, rfl⟩ := map_ok h; rfl
      rw [if_neg h2] at h
      by_cases h3 : b = 34
      · rw [if_pos h3] at h
        obtain ⟨a, rfl⟩ := map_ok h
        exact .inr (.inr rfl)
      rw [if_neg h3] at h
      by_cases h4 : b = 45
      · rw [if_pos h4] at h
        obtain ⟨a, rfl⟩ := map_ok h
        exact .inr (.inr rfl)
      rw [if_neg h4] at h
      by_cases h5 : isDigit b = true
      · rw [if_pos h5] at h
        obtain ⟨a, rfl⟩ := map_ok h
        exact .inr (.inr rfl)
      rw [if_neg h5] at h
      by_cases h6 : b = 116
      · rw [if_pos h6] at h
        obtain ⟨a, rfl⟩ := map_ok h
        exact .inr (.inr rfl)
      rw [if_neg h6] at h
      by_cases h7 : b = 102
      · rw [if_pos h7] at h
        obtain ⟨a, rfl⟩ := map_ok h
        exact .inr (.inr rfl)
      rw [if_neg h7] at h
      by_cases h8 : b = 110
      · rw [if_pos h8] at h
        right; left
        cases hx : scanLiteral [117, 108, 108] rest with
        | error e => simp [hx, Except.map] at h
        | ok r => exact ⟨r, by rw [hs, h8, scanLiteral_null hx]⟩
      rw [if_neg h8] at h
      simp at h

/-- An input `Decode` accepts starts, after white space, with `{` or with `null`. -/
theorem Decode_ok_start (legacy : Bool) (stdin : List Nat) (req : runRequest)
    (h : Decode legacy stdin = .ok req) :
    (∃ rest, skipSpace stdin = 123 :: rest) ∨
    (∃ rest, skipSpace stdin = 110 :: 117 :: 108 :: 108 :: rest) := by
  unfold Decode readValue at h
  split at h
  · simp at h
  · rename_i vr hv
    split at hv
    · simp at hv
    · rename_i input hne
      rcases hsk : skipSpace stdin with _ | ⟨b, rest⟩
      · exact absurd hsk hne
      · rw [hsk] at hv
        rcases scanValue_start legacy _ _ _ _ hv with h1 | h1 | h1
        · rw [skipSpace_fixed hsk] at h1; exact .inl h1
        · rw [skipSpace_fixed hsk] at h1; exact .inr h1
        · rw [h1] at h; simp at h

theorem skipSpace_length (i : List Nat) : (skipSpace i).length ≤ i.length := by
  induction i with
  | nil => simp [skipSpace]
  | cons b rest ih =>
    simp only [skipSpace]
    split
    · simp only [List.length_cons]; omega
    · simp

theorem skipSpace_cons_length {i rest : List Nat} {b : Nat} (h : skipSpace i = b :: rest) :
    rest.length + 1 ≤ i.length := by
  have := skipSpace_length i
  rw [h] at this
  simpa using this

theorem map_ok' {α β : Type} {x : Except DecodeError α} {f : α → β} {y : β}
    (h : x.map f = .ok y) : ∃ a, x = .ok a ∧ y = f a := by
  cases x with
  | error e => simp [Except.map] at h
  | ok a => exact ⟨a, rfl, by simpa [Except.map] using h.symm⟩

theorem scanString_length : ∀ (i : List Nat) (st : StringState) (r : List Nat × List Nat),
    scanString st i = .ok r → r.2.length < i.length := by
  intro i
  induction i with
  | nil => intro st r h; cases st <;> simp [scanString] at h
  | cons b rest ih =>
    intro st r h
    have step : ∀ st', (scanString st' rest).map (fun r => (b :: r.1, r.2)) = .ok r →
        r.2.length < (b :: rest).length := by
      intro st' h'
      obtain ⟨a, ha, rfl⟩ := map_ok' h'
      have := ih st' a ha
      simp only [List.length_cons]
      omega
    cases st with
    | plain =>
      simp only [scanString] at h
      split_ifs at h
      · cases h; simp
      · exact step _ h
      · exact step _ h
    | escape =>
      simp only [scanString] at h
      split_ifs at h
      · exact step _ h
      · exact step _ h
    | hex left =>
      simp only [scanString] at h
      split_ifs at h
      · exact step _ h
      · exact step _ h

theorem scanDigits_length (i : List Nat) : (scanDigits i).2.length ≤ i.length := by
  unfold scanDigits
  have : ((List.span isDigit i).1 ++ (List.span isDigit i).2).length = i.length := by
    rw [List.span_eq_take_drop]; simp
  simp only [List.length_append] at this
  omega

theorem scanDigits1_length {i : List Nat} {r : List Nat × List Nat}
    (h : scanDigits1 i = .ok r) : r.2.length < i.length := by
  unfold scanDigits1 at h
  split at h
  · simp at h
  · rename_i b rest
    split_ifs at h
    cases h
    have := scanDigits_length rest
    simp only [List.length_cons]
    omega

theorem scanNumber_length {i : List Nat} {r : List Nat × List Nat}
    (h : scanNumber i = .ok r) : r.2.length < i.length := by
  unfold scanNumber at h
  split at h
  · simp at h
  · rename_i b rest
    split_ifs at h with hb h0
    all_goals
      simp only at h
      split at h
      · simp at h
      · rename_i frac hfrac
        have hint : frac.2.length ≤ rest.length := by
          have hd := scanDigits_length rest
          split at hfrac
          · rename_i r0 hr0
            obtain ⟨a, ha, rfl⟩ := map_ok' hfrac
            have h1 := scanDigits1_length ha
            first
              | (show a.2.length ≤ _
                 simp only [List.length_cons]
                 omega)
              | (show a.2.length ≤ _
                 rw [hr0] at hd
                 simp only [List.length_cons] at hd
                 omega)
          · cases hfrac
            first
              | exact le_refl _
              | exact hd
        split at h
        · cases h
          simp only [List.length_cons]; omega
        · rename_i e r' he
          split_ifs at h
          · split at h
            · simp at h
            · rename_i s r'' 
              split_ifs at h
              · obtain ⟨a, ha, rfl⟩ := map_ok' h
                have h1 := scanDigits1_length ha
                rw [he] at hint
                simp only [List.length_cons] at hint h1 ⊢
                omega
              · obtain ⟨a, ha, rfl⟩ := map_ok' h
                have h1 := scanDigits1_length ha
                rw [he] at hint
                simp only [List.length_cons] at hint h1 ⊢
                omega
          · cases h
            simp only [List.length_cons]; omega

theorem scanLiteral_length : ∀ (expected i r : List Nat),
    scanLiteral expected i = .ok r → r.length ≤ i.length := by
  intro expected
  induction expected with
  | nil => intro i r h; simp only [scanLiteral] at h; cases h; exact le_refl _
  | cons e es ih =>
    intro i r h
    cases i with
    | nil => simp [scanLiteral] at h
    | cons b rest =>
      simp only [scanLiteral] at h
      split_ifs at h
      have := ih rest r h
      simp only [List.length_cons]
      omega

/-- What the scanner leaves after a value, after the members of an object and
after the elements of an array is shorter than its input. -/
theorem scan_shorter : ∀ n,
    (∀ d i r, scanValue n d i = .ok r → r.2.length < i.length) ∧
    (∀ d i r, scanMembers n d i = .ok r → r.2.length < i.length) ∧
    (∀ d i r, scanElements n d i = .ok r → r.2.length < i.length) := by
  intro n
  induction n with
  | zero =>
    refine ⟨?_, ?_, ?_⟩ <;> intro d i r h
    · simp [scanValue] at h
    · simp [scanMembers] at h
    · simp [scanElements] at h
  | succ n ih =>
    obtain ⟨ihV, ihM, ihE⟩ := ih
    refine ⟨?_, ?_, ?_⟩
    · intro d i r h
      simp only [scanValue] at h
      split at h
      · simp at h
      · rename_i b rest hs
        have hl := skipSpace_cons_length hs
        by_cases h1 : b = 123
        · rw [if_pos h1] at h
          split_ifs at h
          split at h
          · simp at h
          · rename_i c rest' hs2
            have hl2 := skipSpace_cons_length hs2
            split_ifs at h
            · cases h; show rest'.length < _; omega
            · obtain ⟨a, ha, rfl⟩ := map_ok' h
              have := ihM _ _ _ ha
              simp only [List.length_cons] at this
              show a.2.length < _
              omega
        rw [if_neg h1] at h
        by_cases h2 : b = 91
        · rw [if_pos h2] at h
          split_ifs at h
          split at h
          · simp at h
          · rename_i c rest' hs2
            have hl2 := skipSpace_cons_length hs2
            split_ifs at h
            · cases h; show rest'.length < _; omega
            · obtain ⟨a, ha, rfl⟩ := map_ok' h
              have := ihE _ _ _ ha
              simp only [List.length_cons] at this
              show a.2.length < _
              omega
        rw [if_neg h2] at h
        by_cases h3 : b = 34
        · rw [if_pos h3] at h
          obtain ⟨a, ha, rfl⟩ := map_ok' h
          have := scanString_length _ _ _ ha
          show a.2.length < _
          omega
        rw [if_neg h3] at h
        by_cases h4 : b = 45
        · rw [if_pos h4] at h
          obtain ⟨a, ha, rfl⟩ := map_ok' h
          have := scanNumber_length ha
          show a.2.length < _
          omega
        rw [if_neg h4] at h
        by_cases h5 : isDigit b = true
        · rw [if_pos h5] at h
          obtain ⟨a, ha, rfl⟩ := map_ok' h
          have := scanNumber_length ha
          simp only [List.length_cons] at this
          show a.2.length < _
          omega
        rw [if_neg h5] at h
        by_cases h6 : b = 116
        · rw [if_pos h6] at h
          obtain ⟨a, ha, rfl⟩ := map_ok' h
          have := scanLiteral_length _ _ _ ha
          show a.length < _
          omega
        rw [if_neg h6] at h
        by_cases h7 : b = 102
        · rw [if_pos h7] at h
          obtain ⟨a, ha, rfl⟩ := map_ok' h
          have := scanLiteral_length _ _ _ ha
          show a.length < _
          omega
        rw [if_neg h7] at h
        by_cases h8 : b = 110
        · rw [if_pos h8] at h
          obtain ⟨a, ha, rfl⟩ := map_ok' h
          have := scanLiteral_length _ _ _ ha
          show a.length < _
          omega
        rw [if_neg h8] at h
        simp at h
    · intro d i r h
      simp only [scanMembers] at h
      split at h
      · simp at h
      · rename_i q rest hs
        have hl := skipSpace_cons_length hs
        split_ifs at h
        split at h
        · simp at h
        · rename_i key hkey
          have hk := scanString_length _ _ _ hkey
          split at h
          · simp at h
          · rename_i colon rest' hs2
            have hl2 := skipSpace_cons_length hs2
            split_ifs at h
            split at h
            · simp at h
            · rename_i v hv
              have hvl := ihV _ _ _ hv
              split at h
              · simp at h
              · rename_i c rest'' hs3
                have hl3 := skipSpace_cons_length hs3
                split_ifs at h
                · obtain ⟨a, ha, rfl⟩ := map_ok' h
                  have := ihM _ _ _ ha
                  show a.2.length < _
                  omega
                · cases h
                  show rest''.length < _
                  omega
    · intro d i r h
      simp only [scanElements] at h
      split at h
      · simp at h
      · rename_i v hv
        have hvl := ihV _ _ _ hv
        split at h
        · simp at h
        · rename_i c rest hs
          have hl := skipSpace_cons_length hs
          split_ifs at h
          · obtain ⟨a, ha, rfl⟩ := map_ok' h
            have := ihE _ _ _ ha
            show a.2.length < _
            omega
          · cases h
            show rest.length < _
            omega

/-- The bound on the recursion of the scanner is never reached: from one more
than twice the length of the input on, a larger bound gives the same result. -/
theorem scan_stable : ∀ n,
    (∀ d i, 2 * i.length + 1 ≤ n → scanValue (n + 1) d i = scanValue n d i) ∧
    (∀ d i, 2 * i.length + 2 ≤ n → scanMembers (n + 1) d i = scanMembers n d i) ∧
    (∀ d i, 2 * i.length + 2 ≤ n → scanElements (n + 1) d i = scanElements n d i) := by
  intro n
  induction n with
  | zero =>
    refine ⟨?_, ?_, ?_⟩ <;> intro d i h <;> omega
  | succ n ih =>
    obtain ⟨ihV, ihM, ihE⟩ := ih
    refine ⟨?_, ?_, ?_⟩
    · intro d i hn
      simp only [scanValue]
      rcases hs : skipSpace i with _ | ⟨b, rest⟩
      · rfl
      · have hl := skipSpace_cons_length hs
        simp only
        by_cases h1 : b = 123
        · simp only [if_pos h1]
          split_ifs
          · rfl
          · rcases hs2 : skipSpace rest with _ | ⟨c, rest'⟩
            · rfl
            · have hl2 := skipSpace_cons_length hs2
              simp only
              split_ifs
              · rfl
              · rw [ihM _ _ (by simp only [List.length_cons]; omega)]
        simp only [if_neg h1]
        by_cases h2 : b = 91
        · simp only [if_pos h2]
          split_ifs
          · rfl
          · rcases hs2 : skipSpace rest with _ | ⟨c, rest'⟩
            · rfl
            · have hl2 := skipSpace_cons_length hs2
              simp only
              split_ifs
              · rfl
              · rw [ihE _ _ (by simp only [List.length_cons]; omega)]
        simp only [if_neg h2]
    · intro d i hn
      rw [scanMembers, scanMembers]
      rcases hs : skipSpace i with _ | ⟨q, rest⟩
      · rfl
      · have hl := skipSpace_cons_length hs
        simp only
        split_ifs
        · rfl
        · rcases hkey : scanString .plain rest with e | key
          · rfl
          · have hk := scanString_length _ _ _ hkey
            simp only
            rcases hs2 : skipSpace key.2 with _ | ⟨colon, rest'⟩
            · rfl
            · have hl2 := skipSpace_cons_length hs2
              simp only
              split_ifs
              · rfl
              · rw [ihV _ _ (by omega)]
                rcases hv : scanValue n d rest' with e | v
                · rfl
                · have hvl := (scan_shorter n).1 _ _ _ hv
                  simp only
                  rcases hs3 : skipSpace v.2 with _ | ⟨c, rest''⟩
                  · rfl
                  · have hl3 := skipSpace_cons_length hs3
                    simp only
                    split_ifs
                    · rw [ihM _ _ (by omega)]
                    · rfl
                    · rfl
    · intro d i hn
      rw [scanElements, scanElements]
      rw [ihV _ _ (by omega)]
      rcases hv : scanValue n d i with e | v
      · rfl
      · have hvl := (scan_shorter n).1 _ _ _ hv
        simp only
        rcases hs : skipSpace v.2 with _ | ⟨c, rest⟩
        · rfl
        · have hl := skipSpace_cons_length hs
          simp only
          split_ifs
          · rw [ihE _ _ (by omega)]
          · rfl
          · rfl

/-- The scanner gives the same value under every bound from one more than twice
the length of the input on. -/
theorem scanValue_fuel (d : Nat) (i : List Nat) (fuel : Nat) (h : 2 * i.length + 1 ≤ fuel) :
    scanValue fuel d i = scanValue (2 * i.length + 1) d i := by
  induction fuel with
  | zero => omega
  | succ n ih =>
    by_cases hn : 2 * i.length + 1 ≤ n
    · rw [(scan_stable n).1 d i hn, ih hn]
    · have : n = 2 * i.length := by omega
      subst this
      rfl

/-- The bound on the steps of `unquote` is never reached. -/
theorem unquote_stable : ∀ (n : Nat) (l : List Nat), l.length ≤ n →
    unquote (n + 1) l = unquote n l := by
  intro n
  induction n with
  | zero =>
    intro l h
    have : l = [] := List.length_eq_zero.mp (by omega)
    subst this
    simp [unquote]
  | succ n ih =>
    intro l h
    cases l with
    | nil => simp [unquote]
    | cons b rest =>
      simp only [List.length_cons] at h
      have hd : ∀ k, (rest.drop k).length ≤ n := by
        intro k; simp only [List.length_drop]; omega
      conv_lhs => unfold unquote
      conv_rhs => unfold unquote
      split_ifs
      · cases rest with
        | nil => rfl
        | cons c rest' =>
          simp only [List.length_cons] at h
          have hd' : ∀ k, (rest'.drop k).length ≤ n := by
            intro k; simp only [List.length_drop]; omega
          simp only
          split_ifs
          · split
            · rfl
            · split_ifs
              · split
                · rw [ih _ (hd' _)]
                · rw [ih _ (hd' _)]
              · rw [ih _ (hd' _)]
          · rw [ih _ (by omega)]
      · rw [ih _ (by omega)]
      · rw [ih _ (hd _)]

theorem unquote_fuel (l : List Nat) (fuel : Nat) (h : l.length ≤ fuel) :
    unquote fuel l = unquote l.length l := by
  induction fuel with
  | zero =>
    have : l = [] := List.length_eq_zero.mp (by omega)
    subst this
    rfl
  | succ n ih =>
    by_cases hn : l.length ≤ n
    · rw [unquote_stable n l hn, ih hn]
    · have : n + 1 = l.length := by omega
      rw [this]

/-- C11 (amended): for every standard input on which `dec.Decode(&req)` returns an
error, and for every input that decodes to a request with an unknown action (as
`null` does), `main` exits with status 2; the copy under `go/cmd/opd-go` has
written no event, and the copy under `packages/cli` has written exactly the
`hello` event, which it writes before it decodes. `Decode` returns an error on
every input that does not start, after white space, with `{` or with `null`. -/
theorem main_malformed_input (goVersion : String) (w : World) (c : Collaborators)
    (stdin : List Nat) :
    ((∃ err, Decode false stdin = .error err) →
      (main goVersion w c stdin).ending = .exit 2 ∧
      (main goVersion w c stdin).stdout = [helloEvent goVersion]) ∧
    ((∃ err, Decode true stdin = .error err) →
      (Legacy.main w stdin).ending = .exit 2 ∧
      (Legacy.main w stdin).stdout = []) ∧
    ((∀ rest, skipSpace stdin ≠ 123 :: rest) →
      (∀ rest, skipSpace stdin ≠ 110 :: 117 :: 108 :: 108 :: rest) →
      (∃ err, Decode false stdin = .error err) ∧ (∃ err, Decode true stdin = .error err)) ∧
    (∀ req, Decode false stdin = .ok req →
      req.Action ∉ ["run", "run-stream", "zip-dir", "tar-dir", "checksum-file",
        "netlify-deploy-dir"] →
      (main goVersion w c stdin).ending = .exit 2 ∧
      (main goVersion w c stdin).stdout = [helloEvent goVersion]) ∧
    (∀ req, Decode true stdin = .ok req → ¬ (req.Action = "run-stream" ∨ req.Action = "run") →
      (Legacy.main w stdin).ending = .exit 2 ∧
      (Legacy.main w stdin).stdout = []) := by
  refine ⟨?_, ?_, ?_, ?_, ?_⟩
  · rintro ⟨err, h⟩
    simp [main, mainDecoded, h]
  · rintro ⟨err, h⟩
    simp [Legacy.main, Legacy.mainDecoded, h]
  · intro h1 h2
    have key : ∀ legacy, ∃ err, Decode legacy stdin = .error err := by
      intro legacy
      cases hd : Decode legacy stdin with
      | error err => exact ⟨err, rfl⟩
      | ok req =>
        rcases Decode_ok_start legacy stdin req hd with ⟨rest, h⟩ | ⟨rest, h⟩
        · exact absurd h (h1 rest)
        · exact absurd h (h2 rest)
    exact ⟨key false, key true⟩
  · intro req h hu
    simp [main, mainDecoded, h, dispatch_unknown w c req hu]
  · intro req h hu
    simp [Legacy.main, Legacy.mainDecoded, h, hu]

/-- C11 (witness): an input whose first value is an array, and an input that ends
inside an object. -/
theorem main_malformed_input_witness :
    ((Legacy.main {} (asciiBytes "[1, 2]")).ending = .exit 2 ∧
      (Legacy.main {} (asciiBytes "[1, 2]")).stdout = []) ∧
    ((main "go1.22" {} {} demoCutInput).ending = .exit 2 ∧
      (main "go1.22" {} {} demoCutInput).stdout = [helloEvent "go1.22"]) :=
  ⟨(main_malformed_input "go1.22" {} {} (asciiBytes "[1, 2]")).2.1 ⟨.mismatch, by decide⟩,
   (main_malformed_input "go1.22" {} {} demoCutInput).1
     ⟨.unexpectedEOF, by decide⟩⟩

/-- C11 (counterexample): on an empty standard input `main` of `packages/cli` exits
with status 2 and has written the `hello` event to standard output; and on a `run`
request followed by stray bytes, an input that is not one well-formed JSON
document, `Decode` returns the request, which is served, and the process ends with
status 0. -/
theorem main_malformed_input_hello_written :
    Decode false [] = .error .eof ∧
    (main "go1.22" {} {} []).ending.status = 2 ∧
    (main "go1.22" {} {} []).stdout =
      [{ Action := "go", Event := "hello",
         Extra := [("goVersion", "go1.22"), ("protocolVersion", "1")] }] ∧
    (main "go1.22" {} {} []).stdout ≠ [] ∧
    Decode false demoStrayInput = .ok { Action := "run" } ∧
    (main "go1.22" {} {} demoStrayInput).ending.status = 0 := by
  decide

/-- The input `null` is decoded as the zero request, whose action is unknown, and
an input that is no JSON at all is a syntax error. -/
theorem main_null_input :
    Decode false (asciiBytes "null") = .ok {} ∧
    (main "go1.22" {} {} (asciiBytes "null")).stderr = [.unknownAction] ∧
    (main "go1.22" {} {} (asciiBytes "null")).ending.status = 2 ∧
    Decode false (asciiBytes "not json") = .error .malformed ∧
    (main "go1.22" {} {} (asciiBytes "not json")).stderr = [.invalidRequest .malformed] := by
  decide

/-- C12 (amended): for a well-formed request with action `run` or `run-stream`
`main` hands the request to the tasks of `runStream`, discards its return value
and ends with status 0, in both copies. With action `zip-dir`, `tar-dir`,
`checksum-file` or `netlify-deploy-dir`, `main` of `packages/cli` ends, when the
handler returns (as `netlifyDeployDir` does when each of its HTTP requests can be
built), with status 0 when the last event reports success and with status 1 when
it reports failure. Among these, status 2 is that of an unknown action and of
malformed input only; in the copy under `go/cmd/opd-go` every action but `run`
and `run-stream` is unknown. -/
theorem main_exit_status (goVersion : String) (w : World) (c : Collaborators)
    (req : runRequest) :
    ((req.Action = "run-stream" ∨ req.Action = "run") →
      (mainDecoded goVersion w c (.ok req)).ending = .tasks (runStream w req) ∧
      (mainDecoded goVersion w c (.ok req)).ending.status = 0 ∧
      (Legacy.mainDecoded w (.ok req)).ending = .tasks (Legacy.runStream w req) ∧
      (Legacy.mainDecoded w (.ok req)).ending.status = 0) ∧
    (c.netlify.requestsMade →
      req.Action ∈ ["zip-dir", "tar-dir", "checksum-file", "netlify-deploy-dir"] →
      ∃ ok, reportedOK (mainDecoded goVersion w c (.ok req)).stdout = some ok ∧
        (mainDecoded goVersion w c (.ok req)).ending = .exit (if ok then 0 else 1)) ∧
    (req.Action ∉ ["run", "run-stream", "zip-dir", "tar-dir", "checksum-file",
        "netlify-deploy-dir"] → (mainDecoded goVersion w c (.ok req)).ending = .exit 2) ∧
    (c.netlify.requestsMade →
      req.Action ∈ ["run", "run-stream", "zip-dir", "tar-dir", "checksum-file",
        "netlify-deploy-dir"] → (mainDecoded goVersion w c (.ok req)).ending.status ≠ 2) ∧
    (¬ (req.Action = "run-stream" ∨ req.Action = "run") →
      (Legacy.mainDecoded w (.ok req)).ending = .exit 2) ∧
    (∀ err, (mainDecoded goVersion w c (.error err)).ending = .exit 2 ∧
      (Legacy.mainDecoded w (.error err)).ending = .exit 2) := by
  have hstream : (req.Action = "run-stream" ∨ req.Action = "run") →
      (mainDecoded goVersion w c (.ok req)).ending = .tasks (runStream w req) := by
    intro h
    simp [mainDecoded, dispatch_stream w c req h]
  have hdirect : c.netlify.requestsMade →
      req.Action ∈ ["zip-dir", "tar-dir", "checksum-file", "netlify-deploy-dir"] →
      ∃ ok, reportedOK (mainDecoded goVersion w c (.ok req)).stdout = some ok ∧
        (mainDecoded goVersion w c (.ok req)).ending = .exit (if ok then 0 else 1) := by
    intro hm h
    obtain ⟨evs, st, hd⟩ := dispatch_handled w c req hm h
    obtain ⟨ok, h1, h2, _, h4⟩ := dispatch_direct_report hd
    refine ⟨ok, ?_, ?_⟩
    · simp only [mainDecoded, hd]
      rw [reportedOK_hello _ _ h4, h1]
    · simp [mainDecoded, hd, h2]
  refine ⟨fun h => ?_, hdirect, fun h => ?_, fun hm h => ?_, fun h => ?_, fun _ => ⟨rfl, rfl⟩⟩
  · have hl : (Legacy.mainDecoded w (.ok req)).ending = .tasks (Legacy.runStream w req) := by
      simp [Legacy.mainDecoded, h]
    exact ⟨hstream h, by rw [hstream h]; rfl, hl, by rw [hl]; rfl⟩
  · simp [mainDecoded, dispatch_unknown w c req h]
  · simp only [List.mem_cons, List.mem_singleton, List.not_mem_nil, or_false] at h
    rcases h with h | h | h
    · rw [hstream (.inr h)]; simp [Ending.status]
    · rw [hstream (.inl h)]; simp [Ending.status]
    · obtain ⟨ok, _, h2⟩ := hdirect hm (by simpa using h)
      rw [h2]
      cases ok <;> simp [Ending.status]
  · simp [Legacy.mainDecoded, h]

/-- C12 (witness): a `run` request whose child cannot be started. `runStream`
returns 1 and the terminal event reports failure, and `main` ends with status 0. -/
theorem main_exit_status_witness :
    (runOf demoNoStartWorld demoBadDirRequest demoNoStart).map
      (fun s => (s.primary, reportedOK (eventsOf s.trace))) =
      some (.returned 1, some false) ∧
    (mainDecoded "go1.22" demoNoStartWorld {} (.ok demoBadDirRequest)).ending.status = 0 :=
  ⟨by decide,
   ((main_exit_status "go1.22" demoNoStartWorld {} demoBadDirRequest).1 (.inr rfl)).2.1⟩

/-- C12 (counterexample): a well-formed `zip-dir` request without a source
directory. The action is recognised, the terminal event reports failure, and
`main` of `packages/cli` ends with status 1. -/
theorem main_exit_status_one_on_handler_failure :
    demoZipRequest.Action ∈ ["run", "run-stream", "zip-dir", "tar-dir", "checksum-file",
      "netlify-deploy-dir"] ∧
    (mainDecoded "go1.22" {} {} (.ok demoZipRequest)).stdout =
      [helloEvent "go1.22", errorEvent "zip-dir: src and dest required",
       failedEvent "invalid-args"] ∧
    (mainDecoded "go1.22" {} {} (.ok demoZipRequest)).ending.status = 1 := by
  decide

/-- A `netlify-deploy-dir` request whose site is no part of a URL: `http.NewRequest`
returns no request for the create call, the nil request is dereferenced, and the
process dies with status 2 after the two `status` events, without a terminal
event. -/
theorem netlifyDeployDir_nil_request :
    netlifyDeployDir { token := "t", create := .noRequest }
        { Action := "netlify-deploy-dir", Src := "site", Site := "%zz" } =
      ([statusEvent "hashing", statusEvent "creating"], .panicked) ∧
    (mainDecoded "go1.22" {} { netlify := { token := "t", create := .noRequest } }
        (.ok { Action := "netlify-deploy-dir", Src := "site", Site := "%zz" })).ending.status
      = 2 := by
  decide

/-! ## Claim C13: the events of a failed request -/

theorem background_not_error {ev : ndjsonEvent} (h : ev.isBackground) :
    decide (ev.Event = "error") = false := by
  rcases h.2 with h | h | h <;> simp [h]

/-- C13 (amended): in `packages/cli`, a request that fails in one of the sequential
handlers (invalid arguments, filesystem or network error; for `netlifyDeployDir`
when each of its HTTP requests can be built, so that it returns) or because the
child cannot be started leaves an event sequence that ends with an `error` event
immediately followed by the terminal `done` event with `ok = false` and an exit
code. When the deadline case is taken, the primary task writes exactly the `error`
event and then the terminal event, which lie in this order in the stream (events
of the readers and of the heartbeat may lie between and after them). When the
child has exited with a failure or was killed, the stream holds no `error` event
at all: its one terminal event is the `done` event with `ok = false` and an exit
code. -/
theorem failed_request_events (w : World) (c : Collaborators) (req : runRequest) :
    (c.netlify.requestsMade →
      req.Action ∈ ["zip-dir", "tar-dir", "checksum-file", "netlify-deploy-dir"] →
      ∃ evs st, dispatch w c req = .direct evs st ∧
        (st ≠ 0 → EndsWithErrorDone evs ∧ reportedOK evs = some false)) ∧
    (∀ evs st, dispatch w c req = .direct evs st → st ≠ 0 →
      EndsWithErrorDone evs ∧ reportedOK evs = some false) ∧
    (∀ ls s code, runOf w req ls = some s → s.primary = .returned code →
      (w.startErr ≠ none → EndsWithErrorDone (eventsOf s.trace)) ∧
      (w.startErr = none → s.selected = some .ctxDone →
        eventsOfActs (byActor .primary s.trace) = [timeoutErrorEvent, timeoutDoneEvent] ∧
        [timeoutErrorEvent, timeoutDoneEvent].Sublist (eventsOf s.trace) ∧
        (eventsOf s.trace).filter (fun ev => ev.Event = "error") = [timeoutErrorEvent] ∧
        finalEvents s.trace = [timeoutDoneEvent]) ∧
      (w.startErr = none → ∀ r, s.selected = some (.doneCh r) → r ≠ none →
        (eventsOf s.trace).filter (fun ev => ev.Event = "error") = [] ∧
        finalEvents s.trace = [doneEvent (outcomeOf (.doneCh r))] ∧
        (doneEvent (outcomeOf (.doneCh r))).OK = some false ∧
        (doneEvent (outcomeOf (.doneCh r))).Exit.isSome = true)) := by
  have hdirect : ∀ evs st, dispatch w c req = .direct evs st → st ≠ 0 →
      EndsWithErrorDone evs ∧ reportedOK evs = some false := by
    intro evs st hd hst
    obtain ⟨ok, h1, h2, h3, _⟩ := dispatch_direct_report hd
    cases ok with
    | true => simp [h2] at hst
    | false => exact ⟨h3 rfl, h1⟩
  refine ⟨fun hm h => ?_, hdirect, fun ls s code hrun hret => ⟨fun hs => ?_, fun hs hsel => ?_,
    fun hs r hsel hr => ?_⟩⟩
  · obtain ⟨evs, st, hd⟩ := dispatch_handled w c req hm h
    exact ⟨evs, st, hd, hdirect evs st hd⟩
  · obtain ⟨err, herr⟩ := Option.ne_none_iff_exists'.mp hs
    rw [(start_failed_run herr hrun hret).1]
    exact endsWithErrorDone_append [] _ _ rfl rfl rfl rfl rfl
  · have hi := inv_exec (inv_init (runStream w req) req) hrun
    obtain ⟨_, sel, h1, h2, _⟩ := runStream_returned hs hrun hret
    rw [hsel] at h1
    cases Option.some.inj h1
    rw [actsOf_finish_ctxDone] at h2
    have he : eventsOfActs (byActor .primary s.trace) = [timeoutErrorEvent, timeoutDoneEvent] := by
      rw [h2]; rfl
    refine ⟨he, ?_, ?_, ?_⟩
    · rw [← he]; exact events_sublist _ _
    · rw [filter_events_primary _ _ (fun _ h => background_not_error h) hi.others, he]
      decide
    · rw [finalEvents_primary hi, he]
      decide
  · have hi := inv_exec (inv_init (runStream w req) req) hrun
    obtain ⟨_, sel, h1, h2, _⟩ := runStream_returned hs hrun hret
    rw [hsel] at h1
    cases Option.some.inj h1
    rw [actsOf_finish_doneCh] at h2
    have he : eventsOfActs (byActor .primary s.trace) = [doneEvent (outcomeOf (.doneCh r))] := by
      rw [h2]; rfl
    refine ⟨?_, ?_, ?_, rfl⟩
    · rw [filter_events_primary _ _ (fun _ h => background_not_error h) hi.others, he]
      simp [doneEvent]
    · rw [finalEvents_primary hi, he]
      simp [doneEvent, ndjsonEvent.isFinal, boolPtr]
    · rcases r with _ | (⟨_ | ps⟩ | msg)
      · exact absurd rfl hr
      all_goals rfl

/-- C13 (witness): the child cannot be started; the stream is the `error` event
followed by the terminal event. A `netlify-deploy-dir` request whose create call
fails ends in the same way. -/
theorem failed_request_events_witness :
    EndsWithErrorDone
      (eventsOf ((runOf demoNoStartWorld demoBadDirRequest demoNoStart).get (by decide)).trace) ∧
    ∃ evs st, dispatch {} { netlify := { token := "t", create := .failed "EOF" } }
        { Action := "netlify-deploy-dir", Src := "site", Site := "example" } = .direct evs st ∧
      (st ≠ 0 → EndsWithErrorDone evs ∧ reportedOK evs = some false) :=
  ⟨((failed_request_events demoNoStartWorld {} demoBadDirRequest).2.2 demoNoStart _ 1
      (Option.some_get _).symm (by decide)).1 (by decide),
   (failed_request_events {} { netlify := { token := "t", create := .failed "EOF" } }
      { Action := "netlify-deploy-dir", Src := "site", Site := "example" }).1
      ⟨by simp, fun f => by simp, by simp⟩ (by simp)⟩

/-- C13 (counterexample): the child prints two lines and exits with status 3. The
run returns and the stream is the two `stdout` events and the terminal event with
`ok = false` and `exitCode = 3`: no `error` event stands before the terminal
event. -/
theorem child_failure_writes_no_error_event :
    (runOf demoWorld demoRequest demoExit3).map (fun s => (s.primary, eventsOf s.trace)) =
      some (.returned 0,
        [{ Action := "go", Event := "stdout", Data := "a" },
         { Action := "go", Event := "stdout", Data := "b" },
         doneEvent { ok := false, exitCode := 3 }]) ∧
    ¬ EndsWithErrorDone
        [{ Action := "go", Event := "stdout", Data := "a" },
         { Action := "go", Event := "stdout", Data := "b" },
         doneEvent { ok := false, exitCode := 3 }] := by
  decide

/-! ## Claim C14: durations -/

theorem seconds_eq_iff (T : Int) : seconds T = T * 1000000000 ↔
    -9223372036 ≤ T ∧ T ≤ 9223372036 := by
  unfold seconds wrapInt64 second
  omega

/-- C14 (amended): for a request with `timeoutSec = T > 0` (likewise
`idleTimeoutSec`), the `int64` product that `runStream` computes as `T` seconds
equals `T * 10^9` exactly when `T ≤ 9223372036`. In that range it is positive, the
deadline of the run lies `T * 10^9` nanoseconds after its start and has not passed
when the request starts, and the idle watchdog compares the silence with
`T * 10^9` nanoseconds. -/
theorem runStream_duration_exact (T : Int) (hT : 0 < T) :
    (seconds T = T * 1000000000 ↔ T ≤ 9223372036) ∧
    (T ≤ 9223372036 →
      0 < seconds T ∧
      (∀ (p : Program) (req : runRequest), req.TimeoutSec = T →
        (initState p req).deadline = some (T * 1000000000) ∧
        (initState p req).ctxDone = false ∧
        (initState p req).now < T * 1000000000) ∧
      (∀ (p : Program) (req : runRequest) (s : State) (t : Int), req.IdleTimeoutSec = T →
        s.watchdog = some t → t ≤ s.now →
        stepWatchdog p req s =
          if s.now - s.lastActivity > T * 1000000000 then
            some ({ s with watchdog := none }.kill .watchdog p.treeKill)
          else some { s with watchdog := some (t + 2 * second) })) := by
  have key := seconds_eq_iff T
  refine ⟨⟨fun h => (key.mp h).2, fun h => key.mpr ⟨by omega, h⟩⟩, fun h => ?_⟩
  have hs : seconds T = T * 1000000000 := key.mpr ⟨by omega, h⟩
  refine ⟨by rw [hs]; omega, fun p req hreq => ?_, fun p req s t hreq hw ht => ?_⟩
  · subst hreq
    refine ⟨?_, ?_, ?_⟩
    · simp [initState, hT, hs]
    · simp only [initState, hs]
      simp
    · simp only [initState]
      omega
  · subst hreq
    simp only [stepWatchdog, hw, ht, if_true, hs]

/-- C14 (witness): a timeout of thirty seconds is thirty thousand million
nanoseconds. -/
theorem runStream_duration_exact_witness :
    (0 : Int) < 30 ∧ seconds 30 = 30 * 1000000000 :=
  ⟨by decide, (runStream_duration_exact 30 (by decide)).1.mpr (by decide)⟩

/-- C14 (counterexample): a request with `timeoutSec = 9223372037`, a value of
`int64`. The product wraps around to a negative duration, the context is done when
the request starts, and in the run in which the primary task acts at once the
`select` takes the deadline case at time 0: the child is killed and the stream is
the `error` event and the terminal event of a timeout. -/
theorem runStream_duration_wraps_around :
    demoHugeTimeoutRequest.TimeoutSec = 9223372037 ∧
    seconds 9223372037 = -9223372036709551616 ∧
    seconds 9223372037 ≠ 9223372037 * 1000000000 ∧
    (initState (runStream demoSilentWorld demoHugeTimeoutRequest)
      demoHugeTimeoutRequest).ctxDone = true ∧
    (runOf demoSilentWorld demoHugeTimeoutRequest demoAtOnce).map
        (fun s => (s.now, s.primary, byActor .primary s.trace)) =
      some (0, .returned 0,
        [.killed true, .wrote timeoutErrorEvent, .wrote timeoutDoneEvent]) := by
  decide


end OpenDeploy
